import Mathlib

/-!
# OhaLLVM graph substrate: constraint graph and control-flow graph

A shallow embedding of `include/ConstraintGraph.h` and
`include/ControlFlowGraph.h`, and of the log loaders and the call-site
enumerations of `lib/Instrument/DynPtsto.cpp` and
`lib/Instrument/IndirFcnTarget.cpp`, followed by theorems about it.

Conventions of the embedding:

* `ObjID`, `NodeID` and `EdgeID` are integer handles; they are natural
  numbers here.
* The `int32_t` offset of a constraint is an `Int`; no arithmetic is done
  on it, it is only stored and compared.
* `std::set<ObjID>` is a list of keys; `insert` first looks the key up and,
  when it is absent, puts it at its ordered position.
* `std::map<K, V>` is an association list with the same discipline.
* A failing `assert`, or an access to a node that does not exist, ends the
  run: operations that can do so return `Except Abort _`; so do the
  exceptions of `std::stoi`, which nothing catches.
* The text of a log file is a list of characters.  The ids read from it are
  `int32_t` values, integers here; a pointer to an instruction or a function
  is its address, `0` for `nullptr`.
-/

namespace OhaLLVM

/-! ## Identifiers -/

/-- The handle `ObjectMap::ObjID`. -/
abbrev ObjID := Nat

/-- The handle `SEG::NodeID`. -/
abbrev NodeID := Nat

/-- The handle `SEG::EdgeID`. -/
abbrev EdgeID := Nat

/-- The ways a run can end early. -/
inductive Abort where
  /-- An `assert` was evaluated to false. -/
  | assertFailed
  /-- A node or edge handle named no element of the graph. -/
  | badHandle
  /-- A checked lookup (`std::map::at`) found no entry, or a conversion
  (`stoi`) met a value out of range: `std::out_of_range` was thrown. -/
  | outOfRange
  /-- A conversion (`stoi`) found no number: `std::invalid_argument` was
  thrown. -/
  | invalidArgument
  deriving DecidableEq, Repr

deriving instance DecidableEq for Except

/-- The statement `assert(c)`: with assertions compiled out (`ndebug`) it does
nothing, otherwise a false condition ends the run. -/
def cassert (ndebug : Bool) (c : Bool) : Except Abort Unit :=
  if ndebug then .ok () else if c then .ok () else .error .assertFailed

/-! ## Constraint edges (`ConstraintGraph.h`) -/

/-- The enumeration `enum class ConstraintType { Copy, Load, Store, AddressOf }`. -/
inductive ConstraintType where
  | Copy
  | Load
  | Store
  | AddressOf
  deriving DecidableEq, Repr

/-- The underlying value of an enumerator, which is what `<` on the
enumeration compares. -/
def ConstraintType.val : ConstraintType → Nat
  | .Copy => 0
  | .Load => 1
  | .Store => 2
  | .AddressOf => 3

/-- The base class `SEGEdge<id_type>` as `Constraint` uses it: a source and a
destination node.  (The kind tag is `EdgeKind::Constraint` on every
`Constraint`, so it is not stored.) -/
structure SEGEdge where
  src : NodeID
  dest : NodeID
  deriving DecidableEq, Repr

/-- Modelled from the spec: `SEGEdge::operator<` is declared in `SEG.h`, which
is not part of the sources at hand.  The spec says the generic edge ordering
"is defined first by node pair": source first, then destination. -/
def SEGEdge.lt (a b : SEGEdge) : Bool :=
  if a.src ≠ b.src then decide (a.src < b.src)
  else decide (a.dest < b.dest)

/-- Modelled from the spec: `SEGEdge::operator==` is declared in `SEG.h`, which
is not part of the sources at hand; two generic edges are equal when they join
the same node pair. -/
def SEGEdge.eq (a b : SEGEdge) : Bool :=
  decide (a.src = b.src) && decide (a.dest = b.dest)

/-- The class `Constraint<id_type>`: a generic edge with a type and an offset. -/
structure Constraint extends SEGEdge where
  type_ : ConstraintType
  offs_ : Int
  deriving DecidableEq, Repr

namespace Constraint

/-- The constructor `Constraint(NodeID s, NodeID d, ConstraintType t, int32_t o)`. -/
def mk4 (s d : NodeID) (t : ConstraintType) (o : Int) : Constraint :=
  { src := s, dest := d, type_ := t, offs_ := o }

/-- The constructor `Constraint(NodeID s, NodeID d, ConstraintType t)`, which
delegates with offset `0`. -/
def mk3 (s d : NodeID) (t : ConstraintType) : Constraint :=
  mk4 s d t 0

/-- The accessor `type()`. -/
def type (c : Constraint) : ConstraintType := c.type_

/-- The accessor `offs()`. -/
def offs (c : Constraint) : Int := c.offs_

/-- The converting constructor
`Constraint(id_type src, id_type dest, const SEGEdge<old_id_type> &old_con, SEG<id_type> &, id_converter)`:
the endpoints are the ones given, type and offset are read from the old
constraint.  The graph and the converter arguments are not used by it. -/
def convert (src dest : NodeID) (old_con : Constraint) : Constraint :=
  { src := src, dest := dest, type_ := old_con.type, offs_ := old_con.offs }

/-- The comparison `Constraint::operator==`; `segEq` is the generic
`SEGEdge::operator==`. -/
def eq (segEq : SEGEdge → SEGEdge → Bool) (a rhs : Constraint) : Bool :=
  if a.offs ≠ rhs.offs ∨ a.type ≠ rhs.type then false
  else segEq a.toSEGEdge rhs.toSEGEdge

/-- The comparison `Constraint::operator<`; `segLt` is the generic
`SEGEdge::operator<`. -/
def lt (segLt : SEGEdge → SEGEdge → Bool) (a rhs : Constraint) : Bool :=
  if a.offs ≠ rhs.offs then decide (a.offs < rhs.offs)
  else if a.type ≠ rhs.type then decide (a.type.val < rhs.type.val)
  else segLt a.toSEGEdge rhs.toSEGEdge

/-- The helper `targetIsDest()`. -/
def targetIsDest (c : Constraint) : Bool :=
  match c.type_ with
  | .AddressOf => true
  | .Load => false
  | .Store => true
  | .Copy => false

/-- The method `getTarget()`. -/
def getTarget (c : Constraint) : NodeID :=
  if c.targetIsDest then c.dest else c.src

end Constraint

/-! ## Standard containers -/

/-- Ordered position of a new key in the element list of a `std::set<ObjID>`:
before the first larger element. -/
def StdSet.put (x : Nat) : List Nat → List Nat
  | [] => [x]
  | y :: ys => if x < y then x :: y :: ys else y :: StdSet.put x ys

/-- The call `std::set::insert(x)`: the new set, and whether the key was
inserted (the `second` of the returned pair). -/
def StdSet.insert (s : List Nat) (x : Nat) : List Nat × Bool :=
  if x ∈ s then (s, false) else (StdSet.put x s, true)

/-- The call `std::set::insert(first, last)`, which inserts the keys of a range
one after the other. -/
def StdSet.insertRange (s : List Nat) (xs : List Nat) : List Nat :=
  xs.foldl (fun acc x => (StdSet.insert acc x).1) s

/-- The call `std::set::erase(x)`: the new set and the number of erased keys. -/
def StdSet.erase (s : List Nat) (x : Nat) : List Nat × Nat :=
  if x ∈ s then (s.filter (fun y => y != x), 1) else (s, 0)

/-- Ordered position of a new entry in the entry list of a `std::map` or
`std::multimap`: before the first entry with a larger key. -/
def StdMap.put {V : Type} (k : Nat) (v : V) : List (Nat × V) → List (Nat × V)
  | [] => [(k, v)]
  | p :: ps => if k < p.1 then (k, v) :: p :: ps else p :: StdMap.put k v ps

/-- The call `find(k)` of a map or multimap: the first entry with that key, or
nothing (the `end()` iterator). -/
def StdMap.find {V : Type} : List (Nat × V) → Nat → Option (Nat × V)
  | [], _ => none
  | p :: ps, k => if p.1 = k then some p else StdMap.find ps k

/-- The call `std::map::emplace(k, v)`: nothing changes when the key is
present; the `second` of the returned pair tells whether the entry was added. -/
def StdMap.emplace {V : Type} (m : List (Nat × V)) (k : Nat) (v : V) :
    List (Nat × V) × Bool :=
  match StdMap.find m k with
  | some _ => (m, false)
  | none => (StdMap.put k v m, true)

/-- The call `std::map::erase(k)`: the new map and the number of erased
entries. -/
def StdMap.erase {V : Type} (m : List (Nat × V)) (k : Nat) : List (Nat × V) × Nat :=
  match StdMap.find m k with
  | some _ => (m.filter (fun p => p.1 != k), 1)
  | none => (m, 0)

/-- The call `std::map::at(k)`, which throws when the key is absent. -/
def StdMap.at {V : Type} (m : List (Nat × V)) (k : Nat) : Except Abort V :=
  match StdMap.find m k with
  | some p => .ok p.2
  | none => .error .outOfRange

/-- The call `equal_range(k)` of a multimap: all entries with that key. -/
def StdMap.equalRange {V : Type} (m : List (Nat × V)) (k : Nat) : List (Nat × V) :=
  m.filter (fun p => p.1 == k)

/-- A write through the reference to the mapped value of the first entry with
key `k`. -/
def StdMap.modify {V : Type} (k : Nat) (f : V → V) : List (Nat × V) → List (Nat × V)
  | [] => []
  | p :: ps => if p.1 = k then (p.1, f p.2) :: ps else p :: StdMap.modify k f ps

/-- The expression `m[k]` of a `std::map` followed by the write `f` through the
returned reference: `operator[]` first adds an entry with the value-initialised
mapped value `dflt` when the key is absent. -/
def StdMap.index {V : Type} (m : List (Nat × V)) (k : Nat) (dflt : V) (f : V → V) :
    List (Nat × V) :=
  match StdMap.find m k with
  | some _ => StdMap.modify k f m
  | none => StdMap.put k (f dflt) m

/-- The assignment `m[k] = v` of a `std::map`. -/
def StdMap.assign {V : Type} (m : List (Nat × V)) (k : Nat) (v : V) : List (Nat × V) :=
  StdMap.index m k v (fun _ => v)

/-! ## The constraint graph (`ConstraintGraph.h`) -/

/-- Modelled from the spec: `UnifyNode<ObjID>` is declared in `SEG.h`, which is
not part of the sources at hand.  A unification-capable node has a stable
`NodeID` and a representative set, the `ObjID`s it stands for; a node made for
one `ObjID` stands for that `ObjID` alone.  A node that was merged into
another one "is retired (its ID stays allocated but it becomes unreachable)":
it keeps its slot and carries the mark `retired`. -/
structure ConstraintNode where
  id : NodeID
  reps : List ObjID
  retired : Bool := false
  deriving DecidableEq, Repr

/-- Modelled from the spec: the graph engine `SEG<ObjID>` is declared in
`SEG.h`, which is not part of the sources at hand.  It stores nodes and edges
under stable integer handles, and keeps the index from `ObjID` to `NodeID`
alongside (a multimap: `getNodes` returns a range of hits).  The slot of an
edge that was removed stays allocated and is empty, so the handles of the
other edges stay as they are. -/
structure ConstraintSEG where
  nodes_ : List ConstraintNode
  edges_ : List (Option Constraint)
  nodeMap_ : List (ObjID × NodeID)
  deriving DecidableEq, Repr

namespace ConstraintSEG

/-- Modelled from the spec: a graph engine without nodes and edges. -/
def empty : ConstraintSEG := { nodes_ := [], edges_ := [], nodeMap_ := [] }

/-- Modelled from the spec: `findNode(ObjID)`, the "external-to-internal
identity lookup"; the result is an entry of the index or `node_map_cend()`
(here `none`). -/
def findNode (g : ConstraintSEG) (id : ObjID) : Option (ObjID × NodeID) :=
  StdMap.find g.nodeMap_ id

/-- Modelled from the spec: `getNodes(ObjID)`, the range of all index hits. -/
def getNodes (g : ConstraintSEG) (id : ObjID) : List (ObjID × NodeID) :=
  StdMap.equalRange g.nodeMap_ id

/-- Modelled from the spec: `addNode<ConstraintNode>(id)` "allocates a new
node, assigns the next identity, stores it"; the index gets an entry for `id`
and that entry is returned. -/
def addNode (g : ConstraintSEG) (id : ObjID) : (ObjID × NodeID) × ConstraintSEG :=
  let node_id := g.nodes_.length
  ((id, node_id),
   { g with nodes_ := g.nodes_ ++ [{ id := node_id, reps := [id] }],
            nodeMap_ := StdMap.put id node_id g.nodeMap_ })

/-- Modelled from the spec: `getNode<ConstraintNode>(NodeID)`, typed access
that fails when the handle names no node. -/
def getNode (g : ConstraintSEG) (id : NodeID) : Except Abort ConstraintNode :=
  match g.nodes_[id]? with
  | some n => .ok n
  | none => .error .badHandle

/-- Modelled from the spec: `addEdge<Constraint<ObjID>>(src, dst, type, o)`
"allocates a directed edge; fails only if src/dst do not exist"; the
arguments are handed to the constructor of `Constraint`. -/
def addEdge (g : ConstraintSEG) (src dst : NodeID) (t : ConstraintType) (o : Int) :
    Except Abort (EdgeID × ConstraintSEG) :=
  if src < g.nodes_.length ∧ dst < g.nodes_.length then
    .ok (g.edges_.length,
      { g with edges_ := g.edges_ ++ [some (Constraint.mk4 src dst t o)] })
  else .error .badHandle

/-- Modelled from the spec: `getEdge<Constraint<ObjID>>(EdgeID)`, typed access
that fails when the handle names no edge. -/
def getEdge (g : ConstraintSEG) (id : EdgeID) : Except Abort Constraint :=
  match g.edges_[id]? with
  | some (some e) => .ok e
  | _ => .error .badHandle

/-- The lookup-or-create step that `ConstraintGraph::add` performs for each of
its two `ObjID`s: the index entry that `findNode` returns, or else the entry of
a node added for the `ObjID`. -/
def findOrAdd (g : ConstraintSEG) (id : ObjID) : (ObjID × NodeID) × ConstraintSEG :=
  match g.findNode id with
  | some it => (it, g)
  | none => g.addNode id

/-- The index entries point at nodes of the graph, and each node carries its
own handle. -/
def WF (g : ConstraintSEG) : Prop :=
  (∀ p ∈ g.nodeMap_, p.2 < g.nodes_.length) ∧
  (∀ (i : Nat) (n : ConstraintNode), g.nodes_[i]? = some n → n.id = i)

end ConstraintSEG

/-- The class `ConstraintGraph`: its only member is the graph engine
`constraintGraph_`. -/
structure ConstraintGraph where
  constraintGraph_ : ConstraintSEG
  deriving DecidableEq, Repr

namespace ConstraintGraph

/-- A default-constructed `ConstraintGraph`. -/
def empty : ConstraintGraph := { constraintGraph_ := ConstraintSEG.empty }

/-- The modifier `add(ConstraintType type, ObjID d, ObjID s, int o)`. -/
def add (g : ConstraintGraph) (type : ConstraintType) (d s : ObjID) (o : Int) :
    Except Abort (EdgeID × ConstraintGraph) :=
  let (s_it, seg1) :=
    match g.constraintGraph_.findNode s with
    | some it => (it, g.constraintGraph_)
    | none => g.constraintGraph_.addNode s
  let (d_it, seg2) :=
    match seg1.findNode d with
    | some it => (it, seg1)
    | none => seg1.addNode d
  do
    let src ← seg2.getNode s_it.2
    let dest ← seg2.getNode d_it.2
    let (e, seg3) ← seg2.addEdge src.id dest.id type o
    pure (e, { constraintGraph_ := seg3 })

/-- The modifier `add(ConstraintType type, ObjID d, ObjID s)`, which delegates
with offset `0`. -/
def add3 (g : ConstraintGraph) (type : ConstraintType) (d s : ObjID) :
    Except Abort (EdgeID × ConstraintGraph) :=
  g.add type d s 0

/-- The accessor `getConstraint(ConsID id)`. -/
def getConstraint (g : ConstraintGraph) (id : EdgeID) : Except Abort Constraint :=
  g.constraintGraph_.getEdge id

/-- The accessor `getNode(NodeID id)`. -/
def getNode (g : ConstraintGraph) (id : NodeID) : Except Abort ConstraintNode :=
  g.constraintGraph_.getNode id

/-- The accessor `getNode(ObjID id)`, which asserts that the index has exactly
one hit and returns the node of the first hit. -/
def getNodeOfObj (ndebug : Bool) (g : ConstraintGraph) (id : ObjID) :
    Except Abort ConstraintNode := do
  let pr := g.constraintGraph_.getNodes id
  cassert ndebug (decide (pr.length = 1))
  match pr.head? with
  | some hit => g.getNode hit.2
  | none => .error .badHandle

/-- One call of `add`, as the Extractor issues it. -/
structure AddCall where
  type : ConstraintType
  d : ObjID
  s : ObjID
  o : Int
  deriving DecidableEq, Repr

/-- The graph after a sequence of `add` calls, starting from `g`. -/
def addAll (g : ConstraintGraph) : List AddCall → Except Abort ConstraintGraph
  | [] => .ok g
  | c :: cs => do
    let (_, g1) ← g.add c.type c.d c.s c.o
    addAll g1 cs

/-- The graph engine of the constraint graph is well formed. -/
def WF (g : ConstraintGraph) : Prop := g.constraintGraph_.WF

end ConstraintGraph

/-! ## The control-flow graph (`ControlFlowGraph.h`) -/

/-- Modelled from the spec: the base class `SEG::Node` is declared in `SEG.h`,
which is not part of the sources at hand.  A generic node has a stable
`NodeID` and its incident edges, kept as predecessor and successor sets. -/
structure SEGNode where
  id : NodeID
  preds_ : List NodeID
  succs_ : List NodeID
  deriving DecidableEq, Repr

/-- Modelled from the spec: `SEG::Node::unite(graph, n)` is declared in
`SEG.h`, which is not part of the sources at hand.  "All edges incident on B
are re-pointed to A": the kept node acquires the edges of the dropped one.
The members of the derived class are private to it and out of its reach. -/
def SEGNode.unite (a n : SEGNode) : SEGNode :=
  { a with preds_ := StdSet.insertRange a.preds_ n.preds_,
           succs_ := StdSet.insertRange a.succs_ n.succs_ }

namespace CFG

/-- The class `CFG::Node`: a program point with its def, use and global-init
sets and the three flags. -/
structure Node extends SEGNode where
  defs_ : List ObjID
  uses_ : List ObjID
  glblInits_ : List ObjID
  m_ : Bool
  r_ : Bool
  c_ : Bool
  deriving DecidableEq, Repr

namespace Node

/-- The constructor `Node(SEG::NodeID node_id)`: empty sets, cleared flags. -/
def new (node_id : NodeID) : Node :=
  { id := node_id, preds_ := [], succs_ := [],
    defs_ := [], uses_ := [], glblInits_ := [],
    m_ := false, r_ := false, c_ := false }

/-- The accessor `m()`. -/
def m (n : Node) : Bool := n.m_

/-- The accessor `p()`. -/
def p (n : Node) : Bool := !n.m

/-- The accessor `r()`. -/
def r (n : Node) : Bool := n.r_

/-- The accessor `u()`. -/
def u (n : Node) : Bool := !n.r

/-- The accessor `c()`. -/
def c (n : Node) : Bool := n.c_

/-- The setter `setM()`. -/
def setM (n : Node) : Node := { n with m_ := true }

/-- The setter `setR()`. -/
def setR (n : Node) : Node := { n with r_ := true }

/-- The setter `setC()`. -/
def setC (n : Node) : Node := { n with c_ := true }

/-- The setter `clearM()`. -/
def clearM (n : Node) : Node := { n with m_ := false }

/-- The setter `clearR()`. -/
def clearR (n : Node) : Node := { n with r_ := false }

/-- The setter `clearC()`. -/
def clearC (n : Node) : Node := { n with c_ := false }

/-- The method `unite(SEG &graph, SEG::Node &n)`, as far as the node itself is
concerned: the flags are or-ed, the three sets receive the entries of the
other node, and the base class does the rest. -/
def unite (a node : Node) : Node :=
  { toSEGNode := a.toSEGNode.unite node.toSEGNode,
    m_ := a.m_ || node.m_,
    r_ := a.r_ || node.r_,
    c_ := a.c_ || node.c_,
    uses_ := StdSet.insertRange a.uses_ node.uses_,
    defs_ := StdSet.insertRange a.defs_ node.defs_,
    glblInits_ := StdSet.insertRange a.glblInits_ node.glblInits_ }

/-- The method `addDef(ObjID def_id)`. -/
def addDef (ndebug : Bool) (n : Node) (def_id : ObjID) : Except Abort (Bool × Node) := do
  let ret := StdSet.insert n.defs_ def_id
  cassert ndebug ret.2
  pure (ret.2, { n with defs_ := ret.1 })

/-- The method `clearDefs()`. -/
def clearDefs (n : Node) : Node := { n with defs_ := [] }

/-- The method `hasDef()`. -/
def hasDef (n : Node) : Bool := !n.defs_.isEmpty

/-- The method `removeUse(ObjID use_id)`. -/
def removeUse (ndebug : Bool) (n : Node) (use_id : ObjID) : Except Abort (Bool × Node) := do
  let ret := StdSet.erase n.uses_ use_id
  cassert ndebug (decide (ret.2 = 1))
  pure (decide (ret.2 = 1), { n with uses_ := ret.1 })

/-- The method `addUse(ObjID use_id)`. -/
def addUse (ndebug : Bool) (n : Node) (use_id : ObjID) : Except Abort (Bool × Node) := do
  let ret := StdSet.insert n.uses_ use_id
  cassert ndebug ret.2
  pure (ret.2, { n with uses_ := ret.1 })

/-- The method `addGlobalInit(ObjID glbl_id)`. -/
def addGlobalInit (ndebug : Bool) (n : Node) (glbl_id : ObjID) :
    Except Abort (Bool × Node) := do
  let ret := StdSet.insert n.glblInits_ glbl_id
  cassert ndebug ret.2
  pure (ret.2, { n with glblInits_ := ret.1 })

/-- The method `clearGlobalInits()`. -/
def clearGlobalInits (n : Node) : Node := { n with glblInits_ := [] }

/-- The method `clearUses()`. -/
def clearUses (n : Node) : Node := { n with uses_ := [] }

/-- The method `hasUse()`. -/
def hasUse (n : Node) : Bool := !n.uses_.isEmpty

/-- The public member functions of `CFG::Node` that change the node: the
defaulted move assignment `Node &operator=(Node &&)`, the setters, `unite` and
the def/use/global-init bookkeeping.  (The copy assignment is deleted; the
accessors and the iterators are `const` or leave the node as it is.) -/
inductive Op where
  | moveAssign (other : Node)
  | setM
  | setR
  | setC
  | clearM
  | clearR
  | clearC
  | unite (other : Node)
  | addDef (id : ObjID)
  | clearDefs
  | removeUse (id : ObjID)
  | addUse (id : ObjID)
  | addGlobalInit (id : ObjID)
  | clearGlobalInits
  | clearUses
  deriving DecidableEq, Repr

/-- Whether an operation is one of `clearM`, `clearR`, `clearC`. -/
def Op.isClearFlag : Op → Bool
  | .clearM => true
  | .clearR => true
  | .clearC => true
  | _ => false

/-- Whether an operation is the move assignment. -/
def Op.isMoveAssign : Op → Bool
  | .moveAssign _ => true
  | _ => false

/-- The node after one public operation.  The defaulted move assignment
assigns every member, the flags among them, from its argument. -/
def Op.apply (ndebug : Bool) (op : Op) (n : Node) : Except Abort Node :=
  match op with
  | .moveAssign other => .ok other
  | .setM => .ok n.setM
  | .setR => .ok n.setR
  | .setC => .ok n.setC
  | .clearM => .ok n.clearM
  | .clearR => .ok n.clearR
  | .clearC => .ok n.clearC
  | .unite other => .ok (n.unite other)
  | .addDef id => (n.addDef ndebug id).map Prod.snd
  | .clearDefs => .ok n.clearDefs
  | .removeUse id => (n.removeUse ndebug id).map Prod.snd
  | .addUse id => (n.addUse ndebug id).map Prod.snd
  | .addGlobalInit id => (n.addGlobalInit ndebug id).map Prod.snd
  | .clearGlobalInits => .ok n.clearGlobalInits
  | .clearUses => .ok n.clearUses

end Node

/-- Modelled from the spec: the graph engine `SEG` that holds the nodes of the
control-flow graph is declared in `SEG.h`, which is not part of the sources at
hand.  Nodes live in slots addressed by their `NodeID`; the slot of a retired
node stays allocated and is empty. -/
structure ControlFlowGraph where
  nodes_ : List (Option Node)
  deriving DecidableEq, Repr

namespace ControlFlowGraph

/-- Modelled from the spec: a graph engine without nodes. -/
def empty : ControlFlowGraph := { nodes_ := [] }

/-- Modelled from the spec: `addNode<Node>()` "allocates a new node, assigns
the next identity, stores it" and returns the `NodeID`. -/
def addNode (g : ControlFlowGraph) : NodeID × ControlFlowGraph :=
  (g.nodes_.length, { nodes_ := g.nodes_ ++ [some (Node.new g.nodes_.length)] })

/-- Modelled from the spec: `getNode<Node>(NodeID)`, typed access that fails
when the handle names no live node. -/
def getNode (g : ControlFlowGraph) (id : NodeID) : Except Abort Node :=
  match g.nodes_[id]? with
  | some (some n) => .ok n
  | _ => .error .badHandle

/-- Writing through the reference that `getNode<Node>(NodeID)` returned. -/
def setNode (g : ControlFlowGraph) (id : NodeID) (n : Node) : ControlFlowGraph :=
  { nodes_ := g.nodes_.set id (some n) }

/-- Modelled from the spec: `SEG::addPred(node_id, pred_id)` is declared in
`SEG.h`, which is not part of the sources at hand.  It adds the directed edge
from `pred_id` to `node_id`, and "fails only if src/dst do not exist". -/
def addPred (g : ControlFlowGraph) (node_id pred_id : NodeID) : Except Abort ControlFlowGraph := do
  let node ← g.getNode node_id
  let g1 := g.setNode node_id { node with preds_ := (StdSet.insert node.preds_ pred_id).1 }
  let pred ← g1.getNode pred_id
  pure (g1.setNode pred_id { pred with succs_ := (StdSet.insert pred.succs_ node_id).1 })

/-- Modelled from the spec: `SEG::cleanGraph()` is declared in `SEG.h`, which
is not part of the sources at hand.  The structural cleanup "removes nodes with
no incident edges and no external reference"; the slot of a removed node stays
allocated.  `external` tells of a `NodeID` whether the engine knows of an
external reference to that node. -/
def cleanGraph (g : ControlFlowGraph) (external : NodeID → Bool) : ControlFlowGraph :=
  { nodes_ := g.nodes_.map (fun slot =>
      match slot with
      | some n =>
        if n.preds_.isEmpty && n.succs_.isEmpty && !external n.id then none else some n
      | none => none) }

end ControlFlowGraph

end CFG

/-- The class `CFG`: the graph engine and the side tables. -/
structure CFG where
  CFG_ : CFG.ControlFlowGraph
  cfgFcnToCallRet_ : List (ObjID × List (NodeID × NodeID))
  cfgDirCallsites_ : List (NodeID × List ObjID)
  indirectCalls_ : List (ObjID × NodeID)
  indirFcns_ : List (ObjID × List ObjID)
  cfgCallSuccessors_ : List (NodeID × NodeID)
  cfgFunctionEntries_ : List (ObjID × NodeID)
  cfgFunctionReturns_ : List (ObjID × NodeID)
  globalInits_ : List ObjID
  objToCFG_ : List (ObjID × NodeID)
  unusedFunctions_ : List (ObjID × List EdgeID)
  deriving DecidableEq, Repr

namespace CFG

/-- The constant `CFGEnum::CFGGlobalInit`. -/
def CFGGlobalInit : NodeID := 0

/-- The constant `CFGEnum::CFGInit`. -/
def CFGInit : NodeID := 1

/-- The constant `CFGEnum::CFGArgvBegin`. -/
def CFGArgvBegin : NodeID := 2

/-- The constant `CFGEnum::CFGArgvEnd`. -/
def CFGArgvEnd : NodeID := 3

/-- The constant `CFGEnum::eLastEnumValue`. -/
def eLastEnumValue : Nat := 4

/-- A `CFG` whose members are all default-constructed, the state in which the
body of the constructor `CFG()` starts. -/
def blank : CFG :=
  { CFG_ := ControlFlowGraph.empty,
    cfgFcnToCallRet_ := [], cfgDirCallsites_ := [], indirectCalls_ := [],
    indirFcns_ := [], cfgCallSuccessors_ := [], cfgFunctionEntries_ := [],
    cfgFunctionReturns_ := [], globalInits_ := [], objToCFG_ := [],
    unusedFunctions_ := [] }

/-- One round of the loop in the constructor `CFG()`. -/
def ctorStep (ndebug : Bool) (g : CFG) (i : Nat) : Except Abort CFG := do
  let (node_id, seg) := g.CFG_.addNode
  cassert ndebug (decide (node_id = i))
  let node ← seg.getNode node_id
  pure { g with CFG_ := seg.setNode node_id node.setM.setR }

/-- The constructor `CFG()`: it adds the default nodes `0 .. eLastEnumValue - 1`. -/
def new (ndebug : Bool) : Except Abort CFG :=
  (List.range eLastEnumValue).foldlM (ctorStep ndebug) blank

/-- The accessor `getNode(NodeID id)`. -/
def getNode (g : CFG) (id : NodeID) : Except Abort Node :=
  g.CFG_.getNode id

/-- The generator `nextNode()`. -/
def nextNode (g : CFG) : NodeID × CFG :=
  let (id, seg) := g.CFG_.addNode
  (id, { g with CFG_ := seg })

/-- The setter `addUse(CFGid cfg_id, ObjID load_dest_id)`. -/
def addUse (ndebug : Bool) (g : CFG) (cfg_id : NodeID) (load_dest_id : ObjID) :
    Except Abort (Bool × CFG) := do
  let node ← g.CFG_.getNode cfg_id
  let (_, node1) ← node.addUse ndebug load_dest_id
  let seg := g.CFG_.setNode cfg_id node1
  let ret := StdMap.emplace g.objToCFG_ load_dest_id cfg_id
  cassert ndebug ret.2
  pure (ret.2, { g with CFG_ := seg, objToCFG_ := ret.1 })

/-- The setter `addDef(CFGid cfg_id, ObjID store_id)`. -/
def addDef (ndebug : Bool) (g : CFG) (cfg_id : NodeID) (store_id : ObjID) :
    Except Abort (Bool × CFG) := do
  let node ← g.CFG_.getNode cfg_id
  let (_, node1) ← node.addDef ndebug store_id
  let seg := g.CFG_.setNode cfg_id node1
  let ret := StdMap.emplace g.objToCFG_ store_id cfg_id
  cassert ndebug ret.2
  pure (ret.2, { g with CFG_ := seg, objToCFG_ := ret.1 })

/-- The setter `eraseObjToCFG(ObjID obj_id)`. -/
def eraseObjToCFG (ndebug : Bool) (g : CFG) (obj_id : ObjID) : Except Abort (Bool × CFG) := do
  let ret := StdMap.erase g.objToCFG_ obj_id
  cassert ndebug (decide (ret.2 = 1))
  pure (decide (ret.2 = 1), { g with objToCFG_ := ret.1 })

/-- The setter `addGlobalInit(ObjID glbl_id)`. -/
def addGlobalInit (ndebug : Bool) (g : CFG) (glbl_id : ObjID) : Except Abort (Bool × CFG) := do
  let inits := g.globalInits_ ++ [glbl_id]
  let ret := StdMap.emplace g.objToCFG_ glbl_id CFGInit
  cassert ndebug ret.2
  pure (ret.2, { g with globalInits_ := inits, objToCFG_ := ret.1 })

/-- The accessor `getCFGid(ObjID obj_id)`. -/
def getCFGid (g : CFG) (obj_id : ObjID) : Except Abort NodeID :=
  StdMap.at g.objToCFG_ obj_id

/-- The setter `cleanup()`, which calls `CFG_.cleanGraph()`; `cleanGraph` is
that structural cleanup of the graph engine. -/
def cleanup (cleanGraph : ControlFlowGraph → Except Abort ControlFlowGraph) (g : CFG) :
    Except Abort CFG := do
  let seg ← cleanGraph g.CFG_
  pure { g with CFG_ := seg }

/-- The setter `addPred(CFGid node_id, CFGid pred_id)`. -/
def addPred (g : CFG) (node_id pred_id : NodeID) : Except Abort CFG := do
  let seg ← g.CFG_.addPred node_id pred_id
  pure { g with CFG_ := seg }

/-- The setter `addCallsite(CFGid call_id, ObjID fcn_id, CFGid ret_id)`. -/
def addCallsite (g : CFG) (call_id : NodeID) (fcn_id : ObjID) (ret_id : NodeID) : CFG :=
  { g with
    cfgDirCallsites_ := StdMap.index g.cfgDirCallsites_ call_id [] (fun v => v ++ [fcn_id]),
    cfgCallSuccessors_ := StdMap.assign g.cfgCallSuccessors_ call_id ret_id }

/-- The setter `addIndirectCall(CFGid call_id, ObjID obj_id, CFGid ret_id)`. -/
def addIndirectCall (g : CFG) (call_id : NodeID) (obj_id : ObjID) (ret_id : NodeID) : CFG :=
  { g with
    indirectCalls_ := g.indirectCalls_ ++ [(obj_id, call_id)],
    cfgCallSuccessors_ := StdMap.assign g.cfgCallSuccessors_ call_id ret_id }

/-- The setter `addFunctionStart(ObjID fcn_id, CFGid id)`. -/
def addFunctionStart (g : CFG) (fcn_id : ObjID) (id : NodeID) : CFG :=
  { g with cfgFunctionEntries_ := StdMap.assign g.cfgFunctionEntries_ fcn_id id }

/-- The setter `addFunctionReturn(ObjID fcn_id, CFGid id)`. -/
def addFunctionReturn (g : CFG) (fcn_id : ObjID) (id : NodeID) : CFG :=
  { g with cfgFunctionReturns_ := StdMap.assign g.cfgFunctionReturns_ fcn_id id }

/-- The setter `addCallRetInfo(ObjID fcn_id, CFGid call_id, CFGid ret_id)`. -/
def addCallRetInfo (g : CFG) (fcn_id : ObjID) (call_id ret_id : NodeID) : CFG :=
  { g with
    cfgFcnToCallRet_ :=
      StdMap.index g.cfgFcnToCallRet_ fcn_id [] (fun v => v ++ [(call_id, ret_id)]) }

/-- The setter `addIndirFcn(ObjID call_id, ObjID fcn_id)`. -/
def addIndirFcn (g : CFG) (call_id fcn_id : ObjID) : CFG :=
  { g with indirFcns_ := StdMap.index g.indirFcns_ call_id [] (fun v => v ++ [fcn_id]) }

/-- The setter `addUnusedFunction(ObjID fcn_id, std::vector<ConsID> ids)`, an
`emplace` into the registry. -/
def addUnusedFunction (g : CFG) (fcn_id : ObjID) (ids : List EdgeID) : CFG :=
  { g with unusedFunctions_ := (StdMap.emplace g.unusedFunctions_ fcn_id ids).1 }

/-- The setter `setSEG(ControlFlowGraph seg)`. -/
def setSEG (g : CFG) (seg : ControlFlowGraph) : CFG :=
  { g with CFG_ := seg }

/-- The accessor `getCallRetInfo(ObjID fcn_id)`. -/
def getCallRetInfo (g : CFG) (fcn_id : ObjID) : Except Abort (List (NodeID × NodeID)) :=
  StdMap.at g.cfgFcnToCallRet_ fcn_id

/-- The accessor `hasFunctionStart(ObjID fcn_id)`. -/
def hasFunctionStart (g : CFG) (fcn_id : ObjID) : Bool :=
  (StdMap.find g.cfgFunctionEntries_ fcn_id).isSome

/-- The accessor `getFunctionStart(ObjID fcn_id)`. -/
def getFunctionStart (g : CFG) (fcn_id : ObjID) : Except Abort NodeID :=
  StdMap.at g.cfgFunctionEntries_ fcn_id

/-- The accessor `hasFunctionReturn(ObjID fcn_id)`. -/
def hasFunctionReturn (g : CFG) (fcn_id : ObjID) : Bool :=
  (StdMap.find g.cfgFunctionReturns_ fcn_id).isSome

/-- The accessor `getFunctionReturn(ObjID fcn_id)`. -/
def getFunctionReturn (g : CFG) (fcn_id : ObjID) : Except Abort NodeID :=
  StdMap.at g.cfgFunctionReturns_ fcn_id

/-- The accessor `getCallSuccessor(CFGid call_id)`. -/
def getCallSuccessor (g : CFG) (call_id : NodeID) : Except Abort NodeID :=
  StdMap.at g.cfgCallSuccessors_ call_id

/-- The accessor `haveIndirFcn(ObjID call_id)`. -/
def haveIndirFcn (g : CFG) (call_id : ObjID) : Bool :=
  (StdMap.find g.indirFcns_ call_id).isSome

/-- The accessor `getIndirFcns(ObjID call_id)`. -/
def getIndirFcns (g : CFG) (call_id : ObjID) : Except Abort (List ObjID) :=
  StdMap.at g.indirFcns_ call_id

/-- The mutators of the class `CFG`.  (`setSEG`, which replaces the whole node
graph, and `removeUnusedFunction`, which the header only declares, are not
among them.) -/
inductive Op where
  | addPred (node_id pred_id : NodeID)
  | addCallsite (call_id : NodeID) (fcn_id : ObjID) (ret_id : NodeID)
  | addIndirectCall (call_id : NodeID) (obj_id : ObjID) (ret_id : NodeID)
  | addFunctionStart (fcn_id : ObjID) (id : NodeID)
  | addFunctionReturn (fcn_id : ObjID) (id : NodeID)
  | addCallRetInfo (fcn_id : ObjID) (call_id ret_id : NodeID)
  | addIndirFcn (call_id fcn_id : ObjID)
  | addUnusedFunction (fcn_id : ObjID) (ids : List EdgeID)
  | addDef (cfg_id : NodeID) (store_id : ObjID)
  | addUse (cfg_id : NodeID) (load_dest_id : ObjID)
  | addGlobalInit (glbl_id : ObjID)
  | eraseObjToCFG (obj_id : ObjID)
  | nextNode
  | cleanup
  deriving DecidableEq, Repr

/-- The `CFG` after one mutator call; `cleanGraph` is the structural cleanup of
the graph engine. -/
def Op.apply (ndebug : Bool) (cleanGraph : ControlFlowGraph → Except Abort ControlFlowGraph)
    (op : Op) (g : CFG) : Except Abort CFG :=
  match op with
  | .addPred node_id pred_id => g.addPred node_id pred_id
  | .addCallsite call_id fcn_id ret_id => .ok (g.addCallsite call_id fcn_id ret_id)
  | .addIndirectCall call_id obj_id ret_id => .ok (g.addIndirectCall call_id obj_id ret_id)
  | .addFunctionStart fcn_id id => .ok (g.addFunctionStart fcn_id id)
  | .addFunctionReturn fcn_id id => .ok (g.addFunctionReturn fcn_id id)
  | .addCallRetInfo fcn_id call_id ret_id => .ok (g.addCallRetInfo fcn_id call_id ret_id)
  | .addIndirFcn call_id fcn_id => .ok (g.addIndirFcn call_id fcn_id)
  | .addUnusedFunction fcn_id ids => .ok (g.addUnusedFunction fcn_id ids)
  | .addDef cfg_id store_id => (g.addDef ndebug cfg_id store_id).map Prod.snd
  | .addUse cfg_id load_dest_id => (g.addUse ndebug cfg_id load_dest_id).map Prod.snd
  | .addGlobalInit glbl_id => (g.addGlobalInit ndebug glbl_id).map Prod.snd
  | .eraseObjToCFG obj_id => (g.eraseObjToCFG ndebug obj_id).map Prod.snd
  | .nextNode => .ok g.nextNode.2
  | .cleanup => g.cleanup cleanGraph

/-- The `CFG` after a sequence of mutator calls, starting from `g`. -/
def runOps (ndebug : Bool) (cleanGraph : ControlFlowGraph → Except Abort ControlFlowGraph)
    (g : CFG) : List Op → Except Abort CFG
  | [] => .ok g
  | op :: ops => do
    let g1 ← op.apply ndebug cleanGraph g
    runOps ndebug cleanGraph g1 ops

/-- The point that a mutator call records as entry of function `f`, if it is a
call `addFunctionStart(f, _)`. -/
def Op.startOf (f : ObjID) : Op → Option NodeID
  | .addFunctionStart fcn_id id => if fcn_id = f then some id else none
  | _ => none

/-- The point that a mutator call records as return of function `f`, if it is
a call `addFunctionReturn(f, _)`. -/
def Op.returnOf (f : ObjID) : Op → Option NodeID
  | .addFunctionReturn fcn_id id => if fcn_id = f then some id else none
  | _ => none

/-- The point given to the most recent `addFunctionStart(f, _)` of a sequence
of mutator calls (the head of the list is called first), if there is such a
call. -/
def Op.lastStart (f : ObjID) : List Op → Option NodeID
  | [] => none
  | op :: ops => (Op.lastStart f ops).orElse (fun _ => Op.startOf f op)

/-- The point given to the most recent `addFunctionReturn(f, _)` of a sequence
of mutator calls (the head of the list is called first), if there is such a
call. -/
def Op.lastReturn (f : ObjID) : List Op → Option NodeID
  | [] => none
  | op :: ops => (Op.lastReturn f ops).orElse (fun _ => Op.returnOf f op)

/-- The copy constructor `CFG(const CFG &other)`: its initialiser list names
`CFG_` alone, so every other member is default-constructed.  `clone` is
`SEG::clone<Node>()` of the graph engine. -/
def copy (clone : ControlFlowGraph → ControlFlowGraph) (other : CFG) : CFG :=
  { blank with CFG_ := clone other.CFG_ }

/-- The states that a freshly constructed `CFG` reaches by successful calls of
`nextNode`, `addDef`, `addUse` and `addGlobalInit`; a registration is
successful when it returns `true`. -/
inductive RegReachable (ndebug : Bool) : CFG → Prop where
  | fresh (g : CFG) (h : CFG.new ndebug = .ok g) : RegReachable ndebug g
  | nextNode (g : CFG) (h : RegReachable ndebug g) : RegReachable ndebug g.nextNode.2
  | addDef (g g2 : CFG) (P : NodeID) (x : ObjID) (h : RegReachable ndebug g)
      (hr : g.addDef ndebug P x = .ok (true, g2)) : RegReachable ndebug g2
  | addUse (g g2 : CFG) (P : NodeID) (x : ObjID) (h : RegReachable ndebug g)
      (hr : g.addUse ndebug P x = .ok (true, g2)) : RegReachable ndebug g2
  | addGlobalInit (g g2 : CFG) (x : ObjID) (h : RegReachable ndebug g)
      (hr : g.addGlobalInit ndebug x = .ok (true, g2)) : RegReachable ndebug g2

end CFG

/-! ## Reading the logs (`DynPtsto.cpp`, `IndirFcnTarget.cpp`) -/

/-- The test `isspace` in the "C" locale: space, `\t`, `\n`, `\v`, `\f`, `\r`. -/
def isSpace (c : Char) : Bool :=
  c = ' ' || c = '\t' || c = '\n' || c = Char.ofNat 11 || c = Char.ofNat 12 || c = '\r'

/-- The value of a run of decimal digits. -/
def decVal (ds : List Char) : Nat :=
  ds.foldl (fun acc c => 10 * acc + (c.toNat - 48)) 0

/-- The optional sign at the start of a number: whether it is `-`, and the text
after it. -/
def scanSign (s : List Char) : Bool × List Char :=
  match s with
  | [] => (false, [])
  | c :: r => if c = '-' then (true, r) else if c = '+' then (false, r) else (false, c :: r)

/-- The conversion `std::stoi(str)`: white space is skipped, then an optional
sign and the longest run of digits are read; what follows is ignored.  Without
a digit `std::invalid_argument` is thrown, with a value that is no `int`
`std::out_of_range`. -/
def stoi (str : List Char) : Except Abort Int :=
  let sg := scanSign (str.dropWhile isSpace)
  let ds := sg.2.takeWhile Char.isDigit
  if ds = [] then .error .invalidArgument
  else
    let v : Int := if sg.1 then - (decVal ds : Int) else (decVal ds : Int)
    if v < -2147483648 ∨ 2147483647 < v then .error .outOfRange else .ok v

/-- The extraction `converter >> obj_int_val` into an `int32_t` from the rest of
a `std::stringstream`: white space is skipped, then an optional sign and the
longest run of digits are read.  The result is the value and the rest of the
stream, or nothing when the extraction sets `failbit` (no digit, or a value
that is no `int32_t`).  Once the end of the text is reached every further
extraction fails, so the flags of the stream need not be kept. -/
def extractInt32 (s : List Char) : Option (Int × List Char) :=
  let sg := scanSign (s.dropWhile isSpace)
  let ds := sg.2.takeWhile Char.isDigit
  if ds = [] then none
  else
    let v : Int := if sg.1 then - (decVal ds : Int) else (decVal ds : Int)
    if v < -2147483648 ∨ 2147483647 < v then none
    else some (v, sg.2.dropWhile Char.isDigit)

/-- The extraction of a `uint32_t`, as `std::istream_iterator<uint32_t>` does
it: like `extractInt32`, with a magnitude of at most `4294967295`; a `-` negates
the value modulo `2^32`. -/
def extractUInt32 (s : List Char) : Option (Nat × List Char) :=
  let sg := scanSign (s.dropWhile isSpace)
  let ds := sg.2.takeWhile Char.isDigit
  if ds = [] then none
  else if 4294967295 < decVal ds then none
  else
    some ((if sg.1 then (4294967296 - decVal ds) % 4294967296 else decVal ds),
      sg.2.dropWhile Char.isDigit)

/-- The values that successive extractions deliver until the first one that
fails; `fuel` bounds their number. -/
def extractAll {α : Type} (ext : List Char → Option (α × List Char)) :
    Nat → List Char → List α
  | 0, _ => []
  | fuel + 1, s =>
    match ext s with
    | none => []
    | some (v, r) => v :: extractAll ext fuel r

/-- The values that the loop `converter >> obj_int_val; while (!converter.fail())`
sees in a line.  Each extraction reads at least one character, so the length
of the line bounds their number. -/
def extractInts (line : List Char) : List Int :=
  extractAll extractInt32 line.length line

/-- The values that the `std::istream_iterator<uint32_t>` loop sees in a line. -/
def extractUInts (line : List Char) : List Nat :=
  extractAll extractUInt32 line.length line

/-- An input stream: the characters not yet read, `eofbit` and `failbit`. -/
structure IStream where
  rest : List Char
  eofbit : Bool
  failbit : Bool
  deriving DecidableEq, Repr

/-- The stream of a file that was opened, before anything is read. -/
def IStream.ofText (text : List Char) : IStream :=
  { rest := text, eofbit := false, failbit := false }

/-- The call `std::getline(is, str, delim)`.  When the stream is not good it
sets `failbit` and leaves `str` as it is.  Otherwise it erases `str` and reads
characters into it up to the delimiter, which it reads and drops, or up to the
end of the input, where it sets `eofbit`; when it has read nothing at all it
sets `failbit`. -/
def IStream.getline (s : IStream) (str : List Char) (delim : Char) : IStream × List Char :=
  if s.eofbit || s.failbit then ({ s with failbit := true }, str)
  else
    match s.rest.dropWhile (fun c => c != delim) with
    | [] =>
      ({ rest := [], eofbit := true, failbit := (s.rest.takeWhile (fun c => c != delim)).isEmpty },
        s.rest.takeWhile (fun c => c != delim))
    | _ :: post =>
      ({ rest := post, eofbit := false, failbit := false },
        s.rest.takeWhile (fun c => c != delim))

/-- The loop
`for (std::string line; std::getline(logfile, line, ':'); ) { ...; std::getline(logfile, line); ... }`
of both loaders.  `body st key line` is what one round does to the table `st`
with the text `key` read up to the colon and the text `line` that the second
`getline` leaves in `line`; an exception thrown in a round ends the loop.
(The value `line` had before a round plays no part: the first `getline`
erases it or ends the loop.)  Each round that is entered reads at least one
character, so `fuel` at least the number of unread characters is enough. -/
def logLoop {σ : Type} (body : σ → List Char → List Char → Except Abort σ) :
    Nat → IStream → σ → Except Abort σ
  | 0, _, st => .ok st
  | fuel + 1, logfile, st =>
    let r1 := logfile.getline [] ':'
    if r1.1.failbit then .ok st
    else
      let r2 := r1.1.getline r1.2 '\n'
      match body st r1.2 r2.2 with
      | .error e => .error e
      | .ok st2 => logLoop body fuel r2.1 st2

/-- The loop of a loader over the text of an opened log file. -/
def parseLog {σ : Type} (body : σ → List Char → List Char → Except Abort σ)
    (text : List Char) (st : σ) : Except Abort σ :=
  logLoop body text.length (IStream.ofText text) st

/-- Ordered position of a new key in a `std::set<ObjID>` whose keys are the
`int32_t` values read from a log. -/
def IntSet.put (x : Int) : List Int → List Int
  | [] => [x]
  | y :: ys => if x < y then x :: y :: ys else y :: IntSet.put x ys

/-- The call `std::set::insert(x)` on such a set: the new set, and whether the
key was inserted. -/
def IntSet.insert (s : List Int) (x : Int) : List Int × Bool :=
  if x ∈ s then (s, false) else (IntSet.put x s, true)

/-- The call `find(k)` of a `std::map` with such keys. -/
def IntMap.find {V : Type} : List (Int × V) → Int → Option V
  | [], _ => none
  | p :: ps, k => if p.1 = k then some p.2 else IntMap.find ps k

/-- Ordered position of a new entry of such a map. -/
def IntMap.put {V : Type} (k : Int) (v : V) : List (Int × V) → List (Int × V)
  | [] => [(k, v)]
  | p :: ps => if k < p.1 then (k, v) :: p :: ps else p :: IntMap.put k v ps

/-- The replacement of the mapped value of the entry with key `k`. -/
def IntMap.replace {V : Type} (k : Int) (v : V) : List (Int × V) → List (Int × V)
  | [] => []
  | p :: ps => if p.1 = k then (p.1, v) :: ps else p :: IntMap.replace k v ps

/-- The state of the map after `auto &ref = m[k];` and writes through `ref`
that leave the mapped value `v`: the entry of `k`, made by `operator[]` when
it was absent, holds `v`. -/
def IntMap.store {V : Type} (m : List (Int × V)) (k : Int) (v : V) : List (Int × V) :=
  match IntMap.find m k with
  | some _ => IntMap.replace k v m
  | none => IntMap.put k v m

/-- Modelled from the spec: the class `DynPtstoLoader` is declared in
`include/lib/DynPtsto.h`, which is not part of the sources at hand.  Its
members that `runOnModule` writes are the flag `hasInfo_` and the table
`valToObjs_`, which maps the `ObjID` of a value to "the `ObjID`s found to be in
its points-to set at runtime". -/
structure DynPtstoLoader where
  hasInfo_ : Bool
  valToObjs_ : List (Int × List Int)
  deriving DecidableEq, Repr

namespace DynPtstoLoader

/-- The body of the `while (!converter.fail())` loop of `runOnModule`, run on
the values that the extractions deliver: a value other than `NullValue` is
inserted into `obj_set`, and the insertion is asserted to be new. -/
def insertObjs (NullValue : Int) (ndebug : Bool) (obj_set : List Int) :
    List Int → Except Abort (List Int)
  | [] => .ok obj_set
  | obj_id :: rest =>
    if obj_id ≠ NullValue then
      match cassert ndebug (IntSet.insert obj_set obj_id).2 with
      | .error e => .error e
      | .ok _ => insertObjs NullValue ndebug (IntSet.insert obj_set obj_id).1 rest
    else insertObjs NullValue ndebug obj_set rest

/-- One round of the loop of `runOnModule`: `stoi` of the key,
`valToObjs_[call_id]`, and the insertion of the values of the line. -/
def record (NullValue : Int) (ndebug : Bool) (valToObjs_ : List (Int × List Int))
    (key line : List Char) : Except Abort (List (Int × List Int)) := do
  let call_id ← stoi key
  let obj_set ← insertObjs NullValue ndebug ((IntMap.find valToObjs_ call_id).getD [])
    (extractInts line)
  pure (IntMap.store valToObjs_ call_id obj_set)

/-- The method `DynPtstoLoader::runOnModule`.  `NullValue` is
`ObjectMap::NullValue`; `setup` is the outcome of `setupSpecSFSids(m)`, which
calls functions that are not part of the sources at hand and calls `abort()`
when one of them reports an error; `logfile` is the text of the log file, or
nothing when the file could not be opened. -/
def runOnModule (NullValue : Int) (ndebug : Bool) (setup : Except Abort Unit)
    (logfile : Option (List Char)) (self : DynPtstoLoader) :
    Except Abort (Bool × DynPtstoLoader) := do
  setup
  match logfile with
  | none => pure (false, { self with hasInfo_ := false })
  | some text => do
    let tbl ← parseLog (record NullValue ndebug) text self.valToObjs_
    pure (false, { hasInfo_ := true, valToObjs_ := tbl })

end DynPtstoLoader

namespace llvm

/-- An `llvm::Instruction` as the two passes of `IndirFcnTarget.cpp` look at
it: its address, whether it is a `CallInst`, whether the called value of the
call is an `InlineAsm`, and the pointer that `LLVMHelper::getFcnFromCall`
returns for the call (the address of the callee known statically, or `0` for
`nullptr`). -/
structure Instruction where
  addr : Nat
  isCallInst : Bool
  calledIsInlineAsm : Bool
  fcnFromCall : Nat
  deriving DecidableEq, Repr

/-- An `llvm::Function` as the two passes look at it: its address, its name,
`isIntrinsic()`, and its instructions in the order of `inst_begin` to
`inst_end`. -/
structure Function where
  addr : Nat
  name : List Char
  isIntrinsic : Bool
  insts : List Instruction
  deriving DecidableEq, Repr

end llvm

/-- The name `__InstrIndirCalls_fcn_call`. -/
def fcnCallName : List Char := "__InstrIndirCalls_fcn_call".toList

/-- The function `isIgnoredFcn`. -/
def isIgnoredFcn (fcn : llvm.Function) : Bool :=
  if fcn.isIntrinsic then true
  else if fcnCallName.isPrefixOf fcn.name then true
  else false

namespace InstrIndirCalls

/-- What the loop over the module in `InstrIndirCalls::runOnModule` builds: the
counter `fcn_id`, the vector `fcn_lookup_initializer`, and the calls of
`__InstrIndirCalls_fcn_call` it has inserted, each with its first argument and
the address of the call instruction before which it stands. -/
structure State where
  fcn_id : Nat
  fcn_lookup_initializer : List Nat
  inserted : List (Nat × Nat)
  deriving DecidableEq, Repr

/-- The `std::for_each` over the instructions of a function, which collects
`insert_list`. -/
def insertList (insts : List llvm.Instruction) : List llvm.Instruction :=
  insts.foldl (fun insert_list inst =>
    if inst.isCallInst then
      if inst.fcnFromCall = 0 then insert_list ++ [inst] else insert_list
    else insert_list) []

/-- The loop `for (auto v : insert_list)`, which skips inline assembly and
inserts a call with the next id before every other call of the list. -/
def instrument (st : State) (insert_list : List llvm.Instruction) : State :=
  insert_list.foldl (fun st ci =>
    if ci.calledIsInlineAsm then st
    else { st with inserted := st.inserted ++ [(st.fcn_id, ci.addr)],
                   fcn_id := st.fcn_id + 1 }) st

/-- One round of the loop `for (auto &fcn : m)`. -/
def visit (st : State) (fcn : llvm.Function) : State :=
  let st1 :=
    if !isIgnoredFcn fcn then
      { st with fcn_lookup_initializer := st.fcn_lookup_initializer ++ [fcn.addr] }
    else st
  instrument st1 (insertList fcn.insts)

/-- The enumeration part of `InstrIndirCalls::runOnModule`.  `m` is the list of
functions of the module when the pass starts; before its loop the pass adds
the declaration `call_fcn` of `__InstrIndirCalls_fcn_call` to the module, at
address `call_fcn_addr`, and the loop visits it with the others. -/
def runOnModule (m : List llvm.Function) (call_fcn_addr : Nat) : State :=
  (m ++ [llvm.Function.mk call_fcn_addr fcnCallName false []]).foldl
    visit { fcn_id := 0, fcn_lookup_initializer := [], inserted := [] }

end InstrIndirCalls

/-- Modelled from the spec: the class `IndirFunctionInfo` is declared in
`include/lib/IndirFcnTarget.h`, which is not part of the sources at hand.  Its
members that `runOnModule` writes are the flag `hasInfo_` and the table
`callToTarget_`, which maps a call site to the list of its target functions;
call sites and functions are pointers, here their addresses, `0` for
`nullptr`. -/
structure IndirFunctionInfo where
  hasInfo_ : Bool
  callToTarget_ : List (Nat × List Nat)
  deriving DecidableEq, Repr

namespace IndirFunctionInfo

/-- The maps `id_to_fcn` and `id_to_call` of `runOnModule`.  Their keys are the
counters `fcn_count` and `call_count`, so each is the list of its mapped
values, the key being the position. -/
structure Ids where
  id_to_fcn : List Nat
  id_to_call : List Nat
  deriving DecidableEq, Repr

/-- The loop over the instructions of a function, which collects
`insert_list`. -/
def insertList (insts : List llvm.Instruction) : List llvm.Instruction :=
  insts.foldl (fun insert_list inst =>
    if inst.isCallInst then
      if inst.calledIsInlineAsm then insert_list
      else if inst.fcnFromCall = 0 then insert_list ++ [inst] else insert_list
    else insert_list) []

/-- One round of the loop `for (auto &fcn : m)`. -/
def visit (ids : Ids) (fcn : llvm.Function) : Ids :=
  let ids1 :=
    if !isIgnoredFcn fcn then { ids with id_to_fcn := ids.id_to_fcn ++ [fcn.addr] }
    else ids
  (insertList fcn.insts).foldl
    (fun ids v => { ids with id_to_call := ids.id_to_call ++ [v.addr] }) ids1

/-- The first loop of `IndirFunctionInfo::runOnModule`. -/
def enumerate (m : List llvm.Function) : Ids :=
  m.foldl visit { id_to_fcn := [], id_to_call := [] }

/-- The expressions `id_to_call[call_id]` and `id_to_fcn[fcn_id]`: the mapped
pointer, or the `nullptr` that `operator[]` makes for a key that is absent. -/
def lookupId (ids : List Nat) (id : Int) : Nat :=
  if 0 ≤ id then ids.getD id.toNat 0 else 0

/-- The conversion of a `uint32_t` to the key type `int32_t`. -/
def toInt32 (v : Nat) : Int :=
  if v < 2147483648 then (v : Int) else (v : Int) - 4294967296

/-- The loop over the function ids of a line: `cast<llvm::Function>` asserts
that the pointer is not null. -/
def targets (ndebug : Bool) (id_to_fcn : List Nat) : List Nat → Except Abort (List Nat)
  | [] => .ok []
  | fcn_id :: rest =>
    match cassert ndebug (decide (lookupId id_to_fcn (toInt32 fcn_id) ≠ 0)) with
    | .error e => .error e
    | .ok _ =>
      match targets ndebug id_to_fcn rest with
      | .error e => .error e
      | .ok fcns => .ok (lookupId id_to_fcn (toInt32 fcn_id) :: fcns)

/-- One round of the parse loop of `runOnModule`: `stoi` of the key, the
`emplace` of the call site with an empty vector, and the `push_back` of the
functions of the line. -/
def record (ndebug : Bool) (ids : Ids) (callToTarget_ : List (Nat × List Nat))
    (key line : List Char) : Except Abort (List (Nat × List Nat)) := do
  let call_id ← stoi key
  let call := lookupId ids.id_to_call call_id
  let fcns ← targets ndebug ids.id_to_fcn (extractUInts line)
  pure (StdMap.modify call (fun fcn_vec => fcn_vec ++ fcns)
    (StdMap.emplace callToTarget_ call []).1)

/-- The method `IndirFunctionInfo::runOnModule`; `logfile` is the text of the
log file, or nothing when the file could not be opened. -/
def runOnModule (ndebug : Bool) (m : List llvm.Function) (logfile : Option (List Char))
    (self : IndirFunctionInfo) : Except Abort (Bool × IndirFunctionInfo) :=
  match logfile with
  | none => .ok (false, { self with hasInfo_ := false })
  | some text =>
    match parseLog (record ndebug (enumerate m)) text self.callToTarget_ with
    | .error e => .error e
    | .ok tbl => .ok (false, { hasInfo_ := true, callToTarget_ := tbl })

end IndirFunctionInfo

/-- The call sites that the spec has both passes count: "in module order then
instruction order, exactly the call instructions with no statically known
callee whose callee is not inline asm". -/
def indirectCallSites (m : List llvm.Function) : List Nat :=
  (m.map (fun fcn =>
    (fcn.insts.filter (fun i => i.isCallInst && decide (i.fcnFromCall = 0) &&
      !i.calledIsInlineAsm)).map (fun i => i.addr))).flatten

/-- The functions that the spec has both passes list: "exactly the functions
for which isIgnoredFcn is false, in module order". -/
def realFunctions (m : List llvm.Function) : List Nat :=
  (m.filter (fun fcn => !isIgnoredFcn fcn)).map (fun fcn => fcn.addr)

/-! ## The text of a log

The records `<id>:<space-separated ids>\n` of the two log formats, to state
what the loaders make of them. -/

/-- A decimal numeral in a log: an optional `-` and its digits. -/
structure Numeral where
  neg : Bool
  digits : List Char
  deriving DecidableEq, Repr

namespace Numeral

/-- The characters of the numeral. -/
def text (n : Numeral) : List Char :=
  if n.neg then '-' :: n.digits else n.digits

/-- The integer the numeral denotes. -/
def val (n : Numeral) : Int :=
  if n.neg then - (decVal n.digits : Int) else (decVal n.digits : Int)

/-- The numeral is a well-formed id: it has a digit, has only digits after the
sign, and denotes an `int32_t`. -/
def wf (n : Numeral) : Bool :=
  !n.digits.isEmpty && n.digits.all Char.isDigit &&
    decide (-2147483648 ≤ n.val) && decide (n.val ≤ 2147483647)

/-- The numeral is a well-formed index: no sign, a digit, only digits, and a
value that is at once an `int32_t` and a `uint32_t`. -/
def wfIndex (n : Numeral) : Bool :=
  !n.neg && !n.digits.isEmpty && n.digits.all Char.isDigit &&
    decide (decVal n.digits ≤ 2147483647)

end Numeral

/-- The tokens of a list, each after one space. -/
def spacedTail : List (List Char) → List Char
  | [] => []
  | t :: ts => ' ' :: t ++ spacedTail ts

/-- The tokens of a list, separated by single spaces. -/
def spaced : List (List Char) → List Char
  | [] => []
  | t :: ts => t ++ spacedTail ts

/-- A token of a line: a text that is not empty and has no white space. -/
def isToken (t : List Char) : Bool :=
  !t.isEmpty && t.all (fun c => !isSpace c)

/-- A record of a log: its first id, and the ids after the colon. -/
structure LogRecord where
  key : Numeral
  ids : List Numeral
  deriving DecidableEq, Repr

/-- The line `<id>:<space-separated ids>\n` of a record. -/
def LogRecord.text (r : LogRecord) : List Char :=
  r.key.text ++ ':' :: (spaced (r.ids.map Numeral.text) ++ ['\n'])

/-- The text of a log with the given records. -/
def logText : List LogRecord → List Char
  | [] => []
  | r :: rs => r.text ++ logText rs

namespace LogRecord

/-- The record is well-formed as a record of the dynamic-sample log: its ids
are well-formed. -/
def wf (r : LogRecord) : Bool :=
  r.key.wf && r.ids.all Numeral.wf

/-- The record of an indirect-target log uses only valid indices: its numerals
are well-formed indices, the first one of a call site that `id_to_call`
enumerates, the others of functions that `id_to_fcn` enumerates. -/
def valid (ids : IndirFunctionInfo.Ids) (r : LogRecord) : Bool :=
  r.key.wfIndex && decide (decVal r.key.digits < ids.id_to_call.length) &&
    r.ids.all (fun f => f.wfIndex && decide (decVal f.digits < ids.id_to_fcn.length))

/-- The call site that the first index of the record names: the entry of
`id_to_call` at that position. -/
def callSite (ids : IndirFunctionInfo.Ids) (r : LogRecord) : Nat :=
  ids.id_to_call.getD (decVal r.key.digits) 0

/-- The functions that the other indices of the record name, in the order
listed: the entries of `id_to_fcn` at those positions. -/
def functions (ids : IndirFunctionInfo.Ids) (r : LogRecord) : List Nat :=
  r.ids.map (fun f => ids.id_to_fcn.getD (decVal f.digits) 0)

end LogRecord

/-! # Theorems -/

/-! ## Containers -/

theorem StdSet.mem_put (x y : Nat) (s : List Nat) :
    y ∈ StdSet.put x s ↔ y = x ∨ y ∈ s := by
  induction s with
  | nil => simp [StdSet.put]
  | cons z zs ih =>
    unfold StdSet.put
    split
    · simp
    · simp only [List.mem_cons, ih]
      tauto

theorem StdSet.mem_insert (s : List Nat) (x y : Nat) :
    y ∈ (StdSet.insert s x).1 ↔ y = x ∨ y ∈ s := by
  unfold StdSet.insert
  split
  · rename_i h
    constructor
    · intro hy
      exact Or.inr hy
    · rintro (rfl | hy)
      · exact h
      · exact hy
  · exact StdSet.mem_put x y s

theorem StdSet.insert_snd (s : List Nat) (x : Nat) :
    (StdSet.insert s x).2 = !decide (x ∈ s) := by
  unfold StdSet.insert
  split <;> simp_all

theorem StdSet.mem_insertRange (xs s : List Nat) (y : Nat) :
    y ∈ StdSet.insertRange s xs ↔ y ∈ s ∨ y ∈ xs := by
  induction xs generalizing s with
  | nil => simp [StdSet.insertRange]
  | cons x xs ih =>
    have h : StdSet.insertRange s (x :: xs) = StdSet.insertRange (StdSet.insert s x).1 xs := rfl
    rw [h, ih, StdSet.mem_insert]
    simp only [List.mem_cons]
    tauto

/-! ## Constraint edges -/

/-- C1: for every source `s`, destination `d` and offset `o` (with `s = d`
allowed), `getTarget` of an `AddressOf` or `Store` edge is the destination `d`,
and `getTarget` of a `Copy` or `Load` edge is the source `s`. -/
theorem Constraint.getTarget_by_type (s d : NodeID) (o : Int) :
    (Constraint.mk4 s d .AddressOf o).getTarget = d ∧
    (Constraint.mk4 s d .Store o).getTarget = d ∧
    (Constraint.mk4 s d .Copy o).getTarget = s ∧
    (Constraint.mk4 s d .Load o).getTarget = s :=
  ⟨rfl, rfl, rfl, rfl⟩

/-- Position of a constraint type in the order `Copy < Load < Store < AddressOf`. -/
theorem ConstraintType.val_eq_indexOf (t : ConstraintType) :
    t.val = List.indexOf t [ConstraintType.Copy, .Load, .Store, .AddressOf] := by
  cases t <;> rfl

theorem ConstraintType.val_injective (t u : ConstraintType) (h : t.val = u.val) : t = u := by
  cases t <;> cases u <;> first | rfl | cases h

/-- C4: `a < b` on constraints is the lexicographic comparison of offset, then
type in the order `Copy < Load < Store < AddressOf`, then the generic edge
order: a smaller offset decides, else a larger offset decides, else an earlier
type decides, else a later type decides, else the generic `SEGEdge` comparison
of the endpoints gives the result. -/
theorem Constraint.lt_lexicographic (segLt : SEGEdge → SEGEdge → Bool) (a b : Constraint) :
    Constraint.lt segLt a b =
      if a.offs < b.offs then true
      else if b.offs < a.offs then false
      else if List.indexOf a.type [ConstraintType.Copy, .Load, .Store, .AddressOf]
          < List.indexOf b.type [ConstraintType.Copy, .Load, .Store, .AddressOf] then true
      else if List.indexOf b.type [ConstraintType.Copy, .Load, .Store, .AddressOf]
          < List.indexOf a.type [ConstraintType.Copy, .Load, .Store, .AddressOf] then false
      else segLt a.toSEGEdge b.toSEGEdge := by
  rw [← ConstraintType.val_eq_indexOf, ← ConstraintType.val_eq_indexOf]
  unfold Constraint.lt
  by_cases h1 : a.offs < b.offs
  · have : a.offs ≠ b.offs := ne_of_lt h1
    simp [h1, this]
  · by_cases h2 : b.offs < a.offs
    · have : a.offs ≠ b.offs := (ne_of_lt h2).symm
      simp [h1, h2, this]
    · have he : a.offs = b.offs := le_antisymm (not_lt.mp h2) (not_lt.mp h1)
      simp only [he, ne_eq, not_true_eq_false, if_false, lt_irrefl]
      by_cases h3 : a.type.val < b.type.val
      · have : a.type ≠ b.type := fun h => by rw [h] at h3; exact lt_irrefl _ h3
        simp [h3, this]
      · by_cases h4 : b.type.val < a.type.val
        · have : a.type ≠ b.type := fun h => by rw [h] at h4; exact lt_irrefl _ h4
          simp [h3, h4, this]
        · have hv : a.type = b.type :=
            ConstraintType.val_injective _ _ (le_antisymm (not_lt.mp h4) (not_lt.mp h3))
          simp [hv]

/-- C5 (as stated, refuted): the edge from node 0 to node 0 with offset 1 comes
before the edge from node 1 to node 1 with offset 0 in the generic order on
node pairs, yet `operator<` of `Constraint` puts it after: the offsets decide
before the node pair is looked at. -/
theorem Constraint.lt_not_generic_first :
    SEGEdge.lt (Constraint.mk4 0 0 .Copy 1).toSEGEdge (Constraint.mk4 1 1 .Copy 0).toSEGEdge = true ∧
    Constraint.lt SEGEdge.lt (Constraint.mk4 0 0 .Copy 1) (Constraint.mk4 1 1 .Copy 0) = false ∧
    Constraint.lt SEGEdge.lt (Constraint.mk4 1 1 .Copy 0) (Constraint.mk4 0 0 .Copy 1) = true := by
  decide

/-- C5 (amended): `a < b` on constraints is decided first by offset and then by
type; the generic edge order on the node pair is consulted only as the last
tie-break, between edges of equal offset and equal type.  A smaller offset
makes `a < b` true and a larger one makes it false, whatever the types and the
node pairs are; with equal offsets an earlier type makes it true and a later
one false, whatever the node pairs are; with equal offsets and types the
result is that of the generic order.  So for edges that differ in offset or
type every generic order `segLt2` gives the same answer as `segLt`. -/
theorem Constraint.lt_generic_order_last (segLt segLt2 : SEGEdge → SEGEdge → Bool)
    (a b : Constraint) :
    (a.offs < b.offs → Constraint.lt segLt a b = true) ∧
    (b.offs < a.offs → Constraint.lt segLt a b = false) ∧
    (a.offs = b.offs → a.type.val < b.type.val → Constraint.lt segLt a b = true) ∧
    (a.offs = b.offs → b.type.val < a.type.val → Constraint.lt segLt a b = false) ∧
    (a.offs = b.offs → a.type = b.type →
      Constraint.lt segLt a b = segLt a.toSEGEdge b.toSEGEdge) ∧
    Constraint.lt segLt a b =
      (if a.offs = b.offs ∧ a.type = b.type then segLt a.toSEGEdge b.toSEGEdge
       else Constraint.lt segLt2 a b) := by
  refine ⟨?_, ?_, ?_, ?_, ?_, ?_⟩
  · intro h
    have hne : a.offs ≠ b.offs := ne_of_lt h
    simp [Constraint.lt, hne, h]
  · intro h
    have hne : a.offs ≠ b.offs := (ne_of_lt h).symm
    simp [Constraint.lt, hne, le_of_lt h]
  · intro ho ht
    have hne : a.type ≠ b.type := fun h => by rw [h] at ht; exact lt_irrefl _ ht
    simp [Constraint.lt, ho, hne, ht]
  · intro ho ht
    have hne : a.type ≠ b.type := fun h => by rw [h] at ht; exact lt_irrefl _ ht
    simp [Constraint.lt, ho, hne, le_of_lt ht]
  · intro ho ht
    simp [Constraint.lt, ho, ht]
  · unfold Constraint.lt
    by_cases h1 : a.offs = b.offs
    · by_cases h2 : a.type = b.type
      · simp [h1, h2]
      · simp [h1, h2]
    · simp [h1]

/-- C6: the converting constructor keeps the type and the offset of the old
constraint whatever endpoints it is given; hence, when the endpoints are the
images of the old endpoints under a relabelling `f`, `getTarget` of the
converted edge is `f` of `getTarget` of the old edge. -/
theorem Constraint.convert_preserves (src dest : NodeID) (c : Constraint) :
    (Constraint.convert src dest c).type = c.type ∧
    (Constraint.convert src dest c).offs = c.offs ∧
    (Constraint.convert src dest c).src = src ∧
    (Constraint.convert src dest c).dest = dest ∧
    ∀ f : NodeID → NodeID,
      (Constraint.convert (f c.src) (f c.dest) c).getTarget = f c.getTarget := by
  refine ⟨rfl, rfl, rfl, rfl, ?_⟩
  intro f
  unfold Constraint.getTarget Constraint.targetIsDest Constraint.convert Constraint.type
  cases c.type_ <;> rfl

/-! ## Control-flow nodes -/

theorem CFG.Node.foldl_unite_m (bs : List CFG.Node) (a : CFG.Node) :
    (bs.foldl CFG.Node.unite a).m = (a.m || bs.any CFG.Node.m) := by
  induction bs generalizing a with
  | nil => simp
  | cons b bs ih =>
    rw [List.foldl_cons, ih]
    simp [CFG.Node.unite, CFG.Node.m, Bool.or_assoc]

theorem CFG.Node.foldl_unite_r (bs : List CFG.Node) (a : CFG.Node) :
    (bs.foldl CFG.Node.unite a).r = (a.r || bs.any CFG.Node.r) := by
  induction bs generalizing a with
  | nil => simp
  | cons b bs ih =>
    rw [List.foldl_cons, ih]
    simp [CFG.Node.unite, CFG.Node.r, Bool.or_assoc]

theorem CFG.Node.foldl_unite_c (bs : List CFG.Node) (a : CFG.Node) :
    (bs.foldl CFG.Node.unite a).c = (a.c || bs.any CFG.Node.c) := by
  induction bs generalizing a with
  | nil => simp
  | cons b bs ih =>
    rw [List.foldl_cons, ih]
    simp [CFG.Node.unite, CFG.Node.c, Bool.or_assoc]

/-- C7: after `a.unite(b)` each of the flags `m`, `r` and `c` of `a` is the
logical or of the values `a` and `b` had before; consequently, after any
sequence `bs` of `unite` operations applied to `a`, each flag is the or of its
value on `a` and on every node of `bs`, so a flag that is set on `a` stays
set. -/
theorem CFG.Node.unite_flags_or (a b : CFG.Node) (bs : List CFG.Node) :
    (a.unite b).m = (a.m || b.m) ∧
    (a.unite b).r = (a.r || b.r) ∧
    (a.unite b).c = (a.c || b.c) ∧
    (bs.foldl CFG.Node.unite a).m = (a.m || bs.any CFG.Node.m) ∧
    (bs.foldl CFG.Node.unite a).r = (a.r || bs.any CFG.Node.r) ∧
    (bs.foldl CFG.Node.unite a).c = (a.c || bs.any CFG.Node.c) ∧
    (a.m = true → (bs.foldl CFG.Node.unite a).m = true) ∧
    (a.r = true → (bs.foldl CFG.Node.unite a).r = true) ∧
    (a.c = true → (bs.foldl CFG.Node.unite a).c = true) := by
  refine ⟨rfl, rfl, rfl, CFG.Node.foldl_unite_m bs a, CFG.Node.foldl_unite_r bs a,
    CFG.Node.foldl_unite_c bs a, ?_, ?_, ?_⟩
  · intro h
    rw [CFG.Node.foldl_unite_m, h, Bool.true_or]
  · intro h
    rw [CFG.Node.foldl_unite_r, h, Bool.true_or]
  · intro h
    rw [CFG.Node.foldl_unite_c, h, Bool.true_or]

/-- C8: after `a.unite(b)` the def set, the use set and the global-init set of
`a` are each exactly the union of the corresponding sets of `a` and `b` before
the call: an `ObjID` is an entry afterwards if and only if it was an entry of
`a` or of `b`. -/
theorem CFG.Node.unite_sets_union (a b : CFG.Node) (x : ObjID) :
    (x ∈ (a.unite b).defs_ ↔ x ∈ a.defs_ ∨ x ∈ b.defs_) ∧
    (x ∈ (a.unite b).uses_ ↔ x ∈ a.uses_ ∨ x ∈ b.uses_) ∧
    (x ∈ (a.unite b).glblInits_ ↔ x ∈ a.glblInits_ ∨ x ∈ b.glblInits_) :=
  ⟨StdSet.mem_insertRange b.defs_ a.defs_ x,
   StdSet.mem_insertRange b.uses_ a.uses_ x,
   StdSet.mem_insertRange b.glblInits_ a.glblInits_ x⟩

/-- C9 (as stated, refuted): `clearM`, `clearR` and `clearC` are public
operations of `CFG::Node`, and each of them clears a flag that was set; so
does the public move assignment from a node whose flags are not set. -/
theorem CFG.Node.clear_resets_flag :
    ((CFG.Node.new 0).setM.setR.setC).m = true ∧
    ((CFG.Node.new 0).setM.setR.setC).r = true ∧
    ((CFG.Node.new 0).setM.setR.setC).c = true ∧
    (CFG.Node.Op.apply false .clearM ((CFG.Node.new 0).setM.setR.setC)).map CFG.Node.m
      = .ok false ∧
    (CFG.Node.Op.apply false .clearR ((CFG.Node.new 0).setM.setR.setC)).map CFG.Node.r
      = .ok false ∧
    (CFG.Node.Op.apply false .clearC ((CFG.Node.new 0).setM.setR.setC)).map CFG.Node.c
      = .ok false ∧
    (CFG.Node.Op.apply false (.moveAssign (CFG.Node.new 1))
      ((CFG.Node.new 0).setM.setR.setC)).map
        (fun n => (n.m, n.r, n.c)) = .ok (false, false, false) := by
  decide

/-- C9 (amended): each of the public member functions `setM`, `setR`, `setC`,
`unite`, `addDef`, `clearDefs`, `removeUse`, `addUse`, `addGlobalInit`,
`clearGlobalInits` and `clearUses` of `CFG::Node`, that is every one other than
`clearM`, `clearR`, `clearC` and the move assignment, keeps a set flag set: when
the operation completes, each of `m`, `r` and `c` that was set before it is set
after it.  The move assignment leaves the node with the flags of its
argument, whatever they were before. -/
theorem CFG.Node.flags_monotone_except_clear (ndebug : Bool) (op : CFG.Node.Op)
    (n n2 : CFG.Node) (hop : op.isClearFlag = false)
    (h : op.apply ndebug n = .ok n2) :
    (op.isMoveAssign = false →
      (n.m = true → n2.m = true) ∧ (n.r = true → n2.r = true) ∧
        (n.c = true → n2.c = true)) ∧
    (∀ other, op = .moveAssign other →
      n2.m = other.m ∧ n2.r = other.r ∧ n2.c = other.c) := by
  refine ⟨?_, ?_⟩
  swap
  · intro other ho
    subst ho
    simp only [CFG.Node.Op.apply, Except.ok.injEq] at h
    subst h
    exact ⟨rfl, rfl, rfl⟩
  intro hmv
  cases op <;>
    simp only [CFG.Node.Op.apply, CFG.Node.Op.isClearFlag, CFG.Node.Op.isMoveAssign,
      Except.ok.injEq] at h hop hmv
  case moveAssign other => cases hmv
  case setM => subst h; simp [CFG.Node.setM, CFG.Node.m, CFG.Node.r, CFG.Node.c]
  case setR => subst h; simp [CFG.Node.setR, CFG.Node.m, CFG.Node.r, CFG.Node.c]
  case setC => subst h; simp [CFG.Node.setC, CFG.Node.m, CFG.Node.r, CFG.Node.c]
  case clearM => cases hop
  case clearR => cases hop
  case clearC => cases hop
  case unite other =>
    subst h
    simp only [CFG.Node.unite, CFG.Node.m, CFG.Node.r, CFG.Node.c, Bool.or_eq_true]
    exact ⟨Or.inl, Or.inl, Or.inl⟩
  case clearDefs => subst h; simp [CFG.Node.clearDefs, CFG.Node.m, CFG.Node.r, CFG.Node.c]
  case clearGlobalInits =>
    subst h; simp [CFG.Node.clearGlobalInits, CFG.Node.m, CFG.Node.r, CFG.Node.c]
  case clearUses => subst h; simp [CFG.Node.clearUses, CFG.Node.m, CFG.Node.r, CFG.Node.c]
  case addDef id =>
    unfold CFG.Node.addDef at h
    cases hc : cassert ndebug (StdSet.insert n.defs_ id).2 <;>
      simp [hc, bind, Except.bind, Except.map, pure, Except.pure] at h
    subst h; simp [CFG.Node.m, CFG.Node.r, CFG.Node.c]
  case addUse id =>
    unfold CFG.Node.addUse at h
    cases hc : cassert ndebug (StdSet.insert n.uses_ id).2 <;>
      simp [hc, bind, Except.bind, Except.map, pure, Except.pure] at h
    subst h; simp [CFG.Node.m, CFG.Node.r, CFG.Node.c]
  case addGlobalInit id =>
    unfold CFG.Node.addGlobalInit at h
    cases hc : cassert ndebug (StdSet.insert n.glblInits_ id).2 <;>
      simp [hc, bind, Except.bind, Except.map, pure, Except.pure] at h
    subst h; simp [CFG.Node.m, CFG.Node.r, CFG.Node.c]
  case removeUse id =>
    unfold CFG.Node.removeUse at h
    cases hc : cassert ndebug (decide ((StdSet.erase n.uses_ id).2 = 1)) <;>
      simp [hc, bind, Except.bind, Except.map, pure, Except.pure] at h
    subst h; simp [CFG.Node.m, CFG.Node.r, CFG.Node.c]

/-- The amended C9 at a concrete input: `addDef(5)` on a node with all three
flags set completes and leaves them set. -/
theorem CFG.Node.flags_monotone_except_clear_witness :
    (CFG.Node.Op.addDef 5).isClearFlag = false ∧
    (CFG.Node.Op.addDef 5).apply false ((CFG.Node.new 0).setM.setR.setC)
      = .ok { (CFG.Node.new 0).setM.setR.setC with defs_ := [5] } ∧
    ({ (CFG.Node.new 0).setM.setR.setC with defs_ := [5] } : CFG.Node).m = true :=
  ⟨rfl, by decide,
   ((CFG.Node.flags_monotone_except_clear false (.addDef 5) ((CFG.Node.new 0).setM.setR.setC)
     { (CFG.Node.new 0).setM.setR.setC with defs_ := [5] } rfl (by decide)).1 rfl).1
       (by decide)⟩

/-! ## Maps -/

theorem StdMap.find_some {V : Type} (m : List (Nat × V)) (k : Nat) (p : Nat × V)
    (h : StdMap.find m k = some p) : p ∈ m ∧ p.1 = k := by
  induction m with
  | nil => simp [StdMap.find] at h
  | cons q qs ih =>
    unfold StdMap.find at h
    split at h
    · rename_i hq
      cases h
      exact ⟨List.mem_cons_self _ _, hq⟩
    · exact ⟨List.mem_cons_of_mem _ (ih h).1, (ih h).2⟩

theorem StdMap.find_put_ne {V : Type} (m : List (Nat × V)) (k k2 : Nat) (v : V)
    (h : k2 ≠ k) : StdMap.find (StdMap.put k v m) k2 = StdMap.find m k2 := by
  induction m with
  | nil => simp [StdMap.put, StdMap.find, Ne.symm h]
  | cons q qs ih =>
    unfold StdMap.put
    split
    · simp only [StdMap.find, Ne.symm h, if_false]
    · simp only [StdMap.find, ih]

theorem StdMap.find_put_self {V : Type} (m : List (Nat × V)) (k : Nat) (v : V)
    (h : StdMap.find m k = none) : StdMap.find (StdMap.put k v m) k = some (k, v) := by
  induction m with
  | nil => simp [StdMap.put, StdMap.find]
  | cons q qs ih =>
    unfold StdMap.find at h
    split at h
    · cases h
    · rename_i hq
      unfold StdMap.put
      split
      · simp [StdMap.find]
      · simp only [StdMap.find, hq, if_false]
        exact ih h

theorem StdMap.mem_put_entry {V : Type} (m : List (Nat × V)) (k : Nat) (v : V) (p : Nat × V) :
    p ∈ StdMap.put k v m ↔ p = (k, v) ∨ p ∈ m := by
  induction m with
  | nil => simp [StdMap.put]
  | cons q qs ih =>
    unfold StdMap.put
    split
    · simp
    · simp only [List.mem_cons, ih]
      tauto

theorem StdMap.equalRange_put {V : Type} (m : List (Nat × V)) (k k2 : Nat) (v : V) :
    (StdMap.equalRange (StdMap.put k v m) k2).length =
      (StdMap.equalRange m k2).length + (if k2 = k then 1 else 0) := by
  induction m with
  | nil =>
    by_cases h : k2 = k
    · simp [StdMap.put, StdMap.equalRange, h]
    · simp [StdMap.put, StdMap.equalRange, h, Ne.symm h]
  | cons q qs ih =>
    unfold StdMap.put
    split
    · by_cases h : k2 = k
      · simp [StdMap.equalRange, h, List.filter_cons]
      · simp [StdMap.equalRange, h, Ne.symm h, List.filter_cons]
    · unfold StdMap.equalRange at ih ⊢
      simp only [List.filter_cons]
      split
      · simp only [List.length_cons, ih]
        omega
      · exact ih

theorem StdMap.find_none_iff {V : Type} (m : List (Nat × V)) (k : Nat) :
    StdMap.find m k = none ↔ StdMap.equalRange m k = [] := by
  induction m with
  | nil => simp [StdMap.find, StdMap.equalRange]
  | cons q qs ih =>
    unfold StdMap.find StdMap.equalRange
    by_cases h : q.1 = k
    · simp [h, List.filter_cons]
    · simp only [h, if_false, List.filter_cons, beq_iff_eq, if_false]
      exact ih

theorem StdMap.equalRange_mem {V : Type} (m : List (Nat × V)) (k : Nat) (p : Nat × V)
    (h : p ∈ StdMap.equalRange m k) : p ∈ m ∧ p.1 = k := by
  unfold StdMap.equalRange at h
  simpa using h

theorem StdMap.emplace_true {V : Type} (m : List (Nat × V)) (k : Nat) (v : V)
    (h : (StdMap.emplace m k v).2 = true) :
    StdMap.find (StdMap.emplace m k v).1 k = some (k, v) := by
  unfold StdMap.emplace at h ⊢
  cases hf : StdMap.find m k with
  | none => simp only [hf]; exact StdMap.find_put_self m k v hf
  | some p => simp [hf] at h

theorem StdMap.emplace_present {V : Type} (m : List (Nat × V)) (k : Nat) (v : V) (p : Nat × V)
    (h : StdMap.find m k = some p) : StdMap.emplace m k v = (m, false) := by
  unfold StdMap.emplace
  simp [h]

/-! ## The constraint graph -/

theorem ConstraintSEG.wf_empty : ConstraintSEG.empty.WF := by
  constructor
  · intro p hp
    simp [ConstraintSEG.empty] at hp
  · intro i n h
    simp [ConstraintSEG.empty] at h

theorem ConstraintSEG.addNode_wf (g : ConstraintSEG) (hwf : g.WF) (k : ObjID) :
    (g.addNode k).2.WF := by
  obtain ⟨h1, h2⟩ := hwf
  constructor
  · intro p hp
    simp only [ConstraintSEG.addNode, StdMap.mem_put_entry] at hp
    simp only [ConstraintSEG.addNode, List.length_append, List.length_singleton]
    rcases hp with rfl | hp
    · exact Nat.lt_succ_self _
    · exact Nat.lt_succ_of_lt (h1 p hp)
  · intro i n hn
    simp only [ConstraintSEG.addNode] at hn
    by_cases hi : i < g.nodes_.length
    · rw [List.getElem?_append_left hi] at hn
      exact h2 i n hn
    · rw [List.getElem?_append_right (not_lt.mp hi)] at hn
      cases hsub : i - g.nodes_.length with
      | zero =>
        rw [hsub] at hn
        simp only [List.getElem?_cons_zero, Option.some.injEq] at hn
        subst hn
        exact Nat.le_antisymm (not_lt.mp hi) (Nat.le_of_sub_eq_zero hsub)
      | succ j =>
        rw [hsub] at hn
        simp at hn

theorem ConstraintSEG.findOrAdd_spec (g : ConstraintSEG) (hwf : g.WF) (k : ObjID) :
    (g.findOrAdd k).1.1 = k ∧
    (g.findOrAdd k).2.findNode k = some (g.findOrAdd k).1 ∧
    (g.findOrAdd k).1.2 < (g.findOrAdd k).2.nodes_.length ∧
    (g.findOrAdd k).2.WF ∧
    (g.findOrAdd k).2.edges_ = g.edges_ ∧
    (∀ k2, k2 ≠ k → (g.findOrAdd k).2.findNode k2 = g.findNode k2) ∧
    (∀ it, g.findNode k = some it → g.findOrAdd k = (it, g)) ∧
    (g.findOrAdd k).2.nodes_.length
      = g.nodes_.length + (if g.findNode k = none then 1 else 0) ∧
    (∀ k2, ((g.findOrAdd k).2.getNodes k2).length
      = (g.getNodes k2).length + (if k2 = k ∧ g.findNode k = none then 1 else 0)) := by
  cases hf : g.findNode k with
  | some it =>
    have hr : g.findOrAdd k = (it, g) := by simp [ConstraintSEG.findOrAdd, hf]
    have hit := StdMap.find_some g.nodeMap_ k it hf
    rw [hr]
    refine ⟨hit.2, hf, hwf.1 it hit.1, hwf, rfl, fun _ _ => rfl, ?_, by simp, by simp⟩
    intro it2 h2
    cases h2
    rfl
  | none =>
    have hr : g.findOrAdd k = g.addNode k := by simp [ConstraintSEG.findOrAdd, hf]
    rw [hr]
    refine ⟨rfl, ?_, ?_, ConstraintSEG.addNode_wf g hwf k, rfl, ?_, ?_, ?_, ?_⟩
    · exact StdMap.find_put_self g.nodeMap_ k _ hf
    · simp [ConstraintSEG.addNode]
    · intro k2 hk2
      exact StdMap.find_put_ne g.nodeMap_ k k2 _ hk2
    · intro it h
      cases h
    · simp [ConstraintSEG.addNode]
    · intro k2
      simp only [ConstraintSEG.getNodes, ConstraintSEG.addNode, StdMap.equalRange_put]
      simp

theorem ConstraintSEG.getNode_of_wf (g : ConstraintSEG) (hwf : g.WF) (i : NodeID)
    (hi : i < g.nodes_.length) : ∃ n, g.getNode i = .ok n ∧ n.id = i := by
  have h : g.nodes_[i]? = some (g.nodes_[i]) := List.getElem?_eq_getElem hi
  refine ⟨g.nodes_[i], ?_, hwf.2 i _ h⟩
  simp [ConstraintSEG.getNode, h]

theorem ConstraintGraph.add_eq (g : ConstraintGraph) (t : ConstraintType) (d s : ObjID)
    (o : Int) :
    g.add t d s o =
      (do
        let src ← ((g.constraintGraph_.findOrAdd s).2.findOrAdd d).2.getNode
          (g.constraintGraph_.findOrAdd s).1.2
        let dest ← ((g.constraintGraph_.findOrAdd s).2.findOrAdd d).2.getNode
          ((g.constraintGraph_.findOrAdd s).2.findOrAdd d).1.2
        let r ← ((g.constraintGraph_.findOrAdd s).2.findOrAdd d).2.addEdge src.id dest.id t o
        pure (r.1, { constraintGraph_ := r.2 })) := by
  unfold ConstraintGraph.add ConstraintSEG.findOrAdd
  cases h1 : g.constraintGraph_.findNode s with
  | some it =>
    cases h2 : g.constraintGraph_.findNode d <;> simp [h2]
  | none =>
    cases h2 : (g.constraintGraph_.addNode s).2.findNode d <;> simp [h2]

theorem ConstraintGraph.add_ok (g : ConstraintGraph) (hwf : g.WF) (t : ConstraintType)
    (d s : ObjID) (o : Int) :
    g.add t d s o = .ok
      (((g.constraintGraph_.findOrAdd s).2.findOrAdd d).2.edges_.length,
       { constraintGraph_ :=
          { ((g.constraintGraph_.findOrAdd s).2.findOrAdd d).2 with
            edges_ := ((g.constraintGraph_.findOrAdd s).2.findOrAdd d).2.edges_ ++
              [some (Constraint.mk4 (g.constraintGraph_.findOrAdd s).1.2
                ((g.constraintGraph_.findOrAdd s).2.findOrAdd d).1.2 t o)] } }) := by
  rw [ConstraintGraph.add_eq]
  obtain ⟨_, _, hs3, hs4, _, _, _, hs8, _⟩ :=
    ConstraintSEG.findOrAdd_spec g.constraintGraph_ hwf s
  obtain ⟨_, _, hd3, hd4, _, _, _, hd8, _⟩ :=
    ConstraintSEG.findOrAdd_spec (g.constraintGraph_.findOrAdd s).2 hs4 d
  have hs3b : (g.constraintGraph_.findOrAdd s).1.2 <
      ((g.constraintGraph_.findOrAdd s).2.findOrAdd d).2.nodes_.length := by
    rw [hd8]; exact Nat.lt_of_lt_of_le hs3 (Nat.le_add_right _ _)
  obtain ⟨n1, hn1, hid1⟩ := ConstraintSEG.getNode_of_wf _ hd4 _ hs3b
  obtain ⟨n2, hn2, hid2⟩ := ConstraintSEG.getNode_of_wf _ hd4 _ hd3
  rw [hn1, hn2]
  simp only [bind, Except.bind, pure, Except.pure, hid1, hid2, ConstraintSEG.addEdge]
  rw [if_pos ⟨hs3b, hd3⟩]

theorem ConstraintGraph.empty_wellFormed : ConstraintGraph.empty.WF :=
  ConstraintSEG.wf_empty

theorem ConstraintSEG.findOrAdd_twice (g : ConstraintSEG) (hwf : g.WF) (s d : ObjID) :
    ((g.findOrAdd s).2.findOrAdd d).2.findNode s = some (g.findOrAdd s).1 ∧
    ((g.findOrAdd s).2.findOrAdd d).2.findNode d = some ((g.findOrAdd s).2.findOrAdd d).1 ∧
    (d = s → ((g.findOrAdd s).2.findOrAdd d).1 = (g.findOrAdd s).1) ∧
    ((g.findOrAdd s).2.findNode d = none ↔ g.findNode d = none ∧ d ≠ s) := by
  obtain ⟨_, hs2, _, hs4, _, hs6, _, _, _⟩ := ConstraintSEG.findOrAdd_spec g hwf s
  obtain ⟨_, hd2, _, _, _, hd6, hd7, _, _⟩ :=
    ConstraintSEG.findOrAdd_spec (g.findOrAdd s).2 hs4 d
  have h3 : d = s → ((g.findOrAdd s).2.findOrAdd d).1 = (g.findOrAdd s).1 := by
    intro hds
    have := hd7 (g.findOrAdd s).1 (by rw [hds]; exact hs2)
    rw [this]
  refine ⟨?_, hd2, h3, ?_⟩
  · by_cases hds : d = s
    · subst hds
      rw [← h3 rfl]
      exact hd2
    · rw [hd6 s (fun h => hds h.symm)]
      exact hs2
  · by_cases hds : d = s
    · rw [hds, hs2]
      simp
    · rw [hs6 d hds]
      simp [hds]

/-- C2: on a well-formed graph `add(t, d, s, o)` returns an edge handle; the
edge stored under it has as `src()` the node that `findNode(s)` resolves to, as
`dest()` the node that `findNode(d)` resolves to (the node already indexed for
the `ObjID` when there is one), `type() = t` and `offs() = o`; the
three-argument `add(t, d, s)` is `add(t, d, s, 0)`.  On the empty graph
`add(AddressOf, 2, 1)` and then `add(Copy, 3, 2)` give two edges whose
`getTarget` is the node of object 2. -/
theorem ConstraintGraph.add_creates_edge (g : ConstraintGraph) (hwf : g.WF)
    (t : ConstraintType) (d s : ObjID) (o : Int) :
    (∃ e g2 c ns nd,
      g.add t d s o = .ok (e, g2) ∧
      g2.getConstraint e = .ok c ∧
      g2.constraintGraph_.findNode s = some (s, ns) ∧
      g2.constraintGraph_.findNode d = some (d, nd) ∧
      c.src = ns ∧ c.dest = nd ∧ c.type = t ∧ c.offs = o ∧
      (∀ n, g.constraintGraph_.findNode s = some (s, n) → ns = n) ∧
      (∀ n, g.constraintGraph_.findNode d = some (d, n) → nd = n)) ∧
    g.add3 t d s = g.add t d s 0 ∧
    (∃ e1 g1 e2 g2 c1 c2 n2,
      ConstraintGraph.empty.add3 .AddressOf 2 1 = .ok (e1, g1) ∧
      g1.add3 .Copy 3 2 = .ok (e2, g2) ∧
      g2.getConstraint e1 = .ok c1 ∧ g2.getConstraint e2 = .ok c2 ∧
      g2.constraintGraph_.findNode 2 = some (2, n2) ∧
      c1.getTarget = n2 ∧ c2.getTarget = n2) := by
  refine ⟨?_, rfl, ?_⟩
  · obtain ⟨hs1, _, _, hs4, _, hs6, hs7, _, _⟩ :=
      ConstraintSEG.findOrAdd_spec g.constraintGraph_ hwf s
    obtain ⟨hd1, _, _, _, _, _, hd7, _, _⟩ :=
      ConstraintSEG.findOrAdd_spec (g.constraintGraph_.findOrAdd s).2 hs4 d
    obtain ⟨ht1, ht2, ht3, _⟩ := ConstraintSEG.findOrAdd_twice g.constraintGraph_ hwf s d
    refine ⟨_, _, Constraint.mk4 (g.constraintGraph_.findOrAdd s).1.2
      ((g.constraintGraph_.findOrAdd s).2.findOrAdd d).1.2 t o,
      (g.constraintGraph_.findOrAdd s).1.2,
      ((g.constraintGraph_.findOrAdd s).2.findOrAdd d).1.2,
      ConstraintGraph.add_ok g hwf t d s o, ?_, ?_, ?_, rfl, rfl, rfl, rfl, ?_, ?_⟩
    · simp [ConstraintGraph.getConstraint, ConstraintSEG.getEdge]
    · show ((g.constraintGraph_.findOrAdd s).2.findOrAdd d).2.findNode s = _
      rw [ht1]
      exact congrArg some (Prod.ext hs1 rfl)
    · show ((g.constraintGraph_.findOrAdd s).2.findOrAdd d).2.findNode d = _
      rw [ht2]
      exact congrArg some (Prod.ext hd1 rfl)
    · intro n hn
      rw [hs7 _ hn]
    · intro n hn
      by_cases hds : d = s
      · rw [ht3 hds]
        rw [hds] at hn
        rw [hs7 _ hn]
      · have h2 : (g.constraintGraph_.findOrAdd s).2.findNode d = some (d, n) := by
          rw [hs6 d hds]; exact hn
        rw [hd7 _ h2]
  · exact ⟨0, _, 1, _, _, _, 1, rfl, rfl, rfl, rfl, rfl, rfl, rfl⟩

/-- C2 at a concrete input: the empty graph is well formed, and there
`add(AddressOf, 2, 1, 0)` creates an edge between the nodes of objects 1 and 2. -/
theorem ConstraintGraph.add_creates_edge_witness :
    ConstraintGraph.empty.WF ∧
    ∃ e g2 c ns nd,
      ConstraintGraph.empty.add .AddressOf 2 1 0 = .ok (e, g2) ∧
      g2.getConstraint e = .ok c ∧
      g2.constraintGraph_.findNode 1 = some (1, ns) ∧
      g2.constraintGraph_.findNode 2 = some (2, nd) ∧
      c.src = ns ∧ c.dest = nd ∧ c.type = .AddressOf ∧ c.offs = 0 ∧
      (∀ n, ConstraintGraph.empty.constraintGraph_.findNode 1 = some (1, n) → ns = n) ∧
      (∀ n, ConstraintGraph.empty.constraintGraph_.findNode 2 = some (2, n) → nd = n) :=
  ⟨ConstraintGraph.empty_wellFormed,
   (ConstraintGraph.add_creates_edge ConstraintGraph.empty ConstraintGraph.empty_wellFormed
     .AddressOf 2 1 0).1⟩

theorem ConstraintSEG.getNodes_pos_of_find (g : ConstraintSEG) (k : ObjID)
    (it : ObjID × NodeID) (h : g.findNode k = some it) : 1 ≤ (g.getNodes k).length := by
  have hne : g.getNodes k ≠ [] := by
    intro he
    have := (StdMap.find_none_iff g.nodeMap_ k).mpr he
    unfold ConstraintSEG.findNode at h
    rw [this] at h
    cases h
  exact List.length_pos.mpr hne

/-- One `add` on a well-formed graph whose index has at most one hit per
`ObjID`: it succeeds, keeps both properties, keeps every hit, and leaves `d`
and `s` with exactly one hit. -/
theorem ConstraintGraph.add_step (g : ConstraintGraph) (hwf : g.WF)
    (hu : ∀ k, (g.constraintGraph_.getNodes k).length ≤ 1)
    (t : ConstraintType) (d s : ObjID) (o : Int) :
    ∃ e g2, g.add t d s o = .ok (e, g2) ∧ g2.WF ∧
      (∀ k, (g2.constraintGraph_.getNodes k).length ≤ 1) ∧
      (∀ k, (g.constraintGraph_.getNodes k).length ≤ (g2.constraintGraph_.getNodes k).length) ∧
      (g2.constraintGraph_.getNodes d).length = 1 ∧
      (g2.constraintGraph_.getNodes s).length = 1 ∧
      g2.constraintGraph_.nodes_.length = g.constraintGraph_.nodes_.length
        + (if g.constraintGraph_.findNode s = none then 1 else 0)
        + (if g.constraintGraph_.findNode d = none ∧ d ≠ s then 1 else 0) ∧
      (∀ it, g.constraintGraph_.findNode s = some it →
        g2.constraintGraph_.findNode s = some it) ∧
      (∀ it, g.constraintGraph_.findNode d = some it →
        g2.constraintGraph_.findNode d = some it) := by
  obtain ⟨_, hs2, _, hs4, _, hs6, hs7, hs8, hs9⟩ :=
    ConstraintSEG.findOrAdd_spec g.constraintGraph_ hwf s
  obtain ⟨_, hd2, _, hd4, _, hd6, hd7, hd8, hd9⟩ :=
    ConstraintSEG.findOrAdd_spec (g.constraintGraph_.findOrAdd s).2 hs4 d
  obtain ⟨ht1, ht2, ht3, ht4⟩ := ConstraintSEG.findOrAdd_twice g.constraintGraph_ hwf s d
  have hu1 : ∀ k, ((g.constraintGraph_.findOrAdd s).2.getNodes k).length ≤ 1 := by
    intro k
    rw [hs9 k]
    split
    · rename_i h
      have h0 := (StdMap.find_none_iff g.constraintGraph_.nodeMap_ s).mp h.2
      rw [h.1]
      unfold ConstraintSEG.getNodes
      rw [h0]
      simp
    · exact hu k
  have hu2 : ∀ k, (((g.constraintGraph_.findOrAdd s).2.findOrAdd d).2.getNodes k).length ≤ 1 := by
    intro k
    rw [hd9 k]
    split
    · rename_i h
      have h0 := (StdMap.find_none_iff (g.constraintGraph_.findOrAdd s).2.nodeMap_ d).mp h.2
      rw [h.1]
      unfold ConstraintSEG.getNodes
      rw [h0]
      simp
    · exact hu1 k
  have hmono : ∀ k, (g.constraintGraph_.getNodes k).length ≤
      (((g.constraintGraph_.findOrAdd s).2.findOrAdd d).2.getNodes k).length := by
    intro k
    rw [hd9 k, hs9 k]
    exact Nat.le_trans (Nat.le_add_right _ _) (Nat.le_add_right _ _)
  refine ⟨_, _, ConstraintGraph.add_ok g hwf t d s o, ⟨hd4.1, hd4.2⟩, hu2, hmono, ?_, ?_, ?_, ?_, ?_⟩
  · exact Nat.le_antisymm (hu2 d) (ConstraintSEG.getNodes_pos_of_find _ d _ ht2)
  · exact Nat.le_antisymm (hu2 s) (ConstraintSEG.getNodes_pos_of_find _ s _ ht1)
  · show ((g.constraintGraph_.findOrAdd s).2.findOrAdd d).2.nodes_.length = _
    rw [hd8, hs8]
    by_cases h : (g.constraintGraph_.findOrAdd s).2.findNode d = none
    · rw [if_pos h, if_pos (ht4.mp h)]
    · rw [if_neg h, if_neg (fun h2 => h (ht4.mpr h2))]
  · intro it hit
    show ((g.constraintGraph_.findOrAdd s).2.findOrAdd d).2.findNode s = _
    rw [ht1, hs7 it hit]
  · intro it hit
    show ((g.constraintGraph_.findOrAdd s).2.findOrAdd d).2.findNode d = _
    rw [ht2]
    by_cases hds : d = s
    · rw [ht3 hds]
      rw [hds] at hit
      rw [hs7 it hit]
    · have h2 : (g.constraintGraph_.findOrAdd s).2.findNode d = some it := by
        rw [hs6 d hds]; exact hit
      rw [hd7 it h2]

theorem ConstraintGraph.addAll_from (calls : List ConstraintGraph.AddCall)
    (g : ConstraintGraph) (hwf : g.WF)
    (hu : ∀ k, (g.constraintGraph_.getNodes k).length ≤ 1) :
    ∃ gN, g.addAll calls = .ok gN ∧ gN.WF ∧
      (∀ k, (gN.constraintGraph_.getNodes k).length ≤ 1) ∧
      (∀ k, (g.constraintGraph_.getNodes k).length ≤ (gN.constraintGraph_.getNodes k).length) ∧
      (∀ c ∈ calls, (gN.constraintGraph_.getNodes c.d).length = 1 ∧
        (gN.constraintGraph_.getNodes c.s).length = 1) := by
  induction calls generalizing g with
  | nil =>
    exact ⟨g, rfl, hwf, hu, fun _ => Nat.le_refl _, by simp⟩
  | cons c cs ih =>
    obtain ⟨e, g1, hadd, hwf1, hu1, hmono1, hd1, hs1, _⟩ :=
      ConstraintGraph.add_step g hwf hu c.type c.d c.s c.o
    obtain ⟨gN, hN, hwfN, huN, hmonoN, hallN⟩ := ih g1 hwf1 hu1
    refine ⟨gN, ?_, hwfN, huN, fun k => Nat.le_trans (hmono1 k) (hmonoN k), ?_⟩
    · simp only [ConstraintGraph.addAll, hadd, bind, Except.bind]
      exact hN
    · intro c2 hc2
      rcases List.mem_cons.mp hc2 with rfl | hc2
      · constructor
        · exact Nat.le_antisymm (huN _) (by rw [← hd1]; exact hmonoN _)
        · exact Nat.le_antisymm (huN _) (by rw [← hs1]; exact hmonoN _)
      · exact hallN c2 hc2

theorem ConstraintGraph.getNodeOfObj_ok (g : ConstraintGraph) (hwf : g.WF) (k : ObjID)
    (h : (g.constraintGraph_.getNodes k).length = 1) :
    ∃ n, g.getNodeOfObj false k = .ok n := by
  cases hl : g.constraintGraph_.getNodes k with
  | nil => rw [hl] at h; cases h
  | cons hit rest =>
    have hmem : hit ∈ g.constraintGraph_.nodeMap_ :=
      (StdMap.equalRange_mem g.constraintGraph_.nodeMap_ k hit
        (by
          have : hit ∈ g.constraintGraph_.getNodes k := by rw [hl]; exact List.mem_cons_self _ _
          exact this)).1
    obtain ⟨n, hn, _⟩ := ConstraintSEG.getNode_of_wf g.constraintGraph_ hwf hit.2
      (hwf.1 hit hmem)
    have hrest : rest = [] := by
      rw [hl] at h
      exact List.length_eq_zero.mp (Nat.succ.inj h)
    subst hrest
    refine ⟨n, ?_⟩
    unfold ConstraintGraph.getNodeOfObj
    simp only [hl, cassert, List.length_singleton, decide_True, List.head?_cons, bind,
      Except.bind]
    simpa [ConstraintGraph.getNode] using hn

/-- C3: every sequence of `add` calls from the empty graph runs to the end, and
in the graph `g` it reaches the index has at most one hit for any `ObjID` and
exactly one for every `ObjID` that appeared as a `d` or an `s`, so that
`getNode(ObjID)` passes its `distance == 1` assertion for them.  A further
`add(t, d, s, o)` on `g` creates a node for `s` only if `findNode(s)` finds
none, and one for `d` only if `findNode(d)` finds none and `d` is not `s`;
an `ObjID` that was indexed keeps its index entry. -/
theorem ConstraintGraph.addAll_unique_node (calls : List ConstraintGraph.AddCall)
    (t : ConstraintType) (d s : ObjID) (o : Int) :
    ∃ g, ConstraintGraph.empty.addAll calls = .ok g ∧
      (∀ k, (g.constraintGraph_.getNodes k).length ≤ 1) ∧
      (∀ c ∈ calls,
        (g.constraintGraph_.getNodes c.d).length = 1 ∧
        (g.constraintGraph_.getNodes c.s).length = 1 ∧
        (∃ n, g.getNodeOfObj false c.d = .ok n) ∧
        (∃ n, g.getNodeOfObj false c.s = .ok n)) ∧
      ∃ e g2, g.add t d s o = .ok (e, g2) ∧
        g2.constraintGraph_.nodes_.length = g.constraintGraph_.nodes_.length
          + (if g.constraintGraph_.findNode s = none then 1 else 0)
          + (if g.constraintGraph_.findNode d = none ∧ d ≠ s then 1 else 0) ∧
        (∀ it, g.constraintGraph_.findNode s = some it →
          g2.constraintGraph_.findNode s = some it) ∧
        (∀ it, g.constraintGraph_.findNode d = some it →
          g2.constraintGraph_.findNode d = some it) ∧
        (g2.constraintGraph_.getNodes d).length = 1 ∧
        (g2.constraintGraph_.getNodes s).length = 1 := by
  obtain ⟨g, hg, hwf, hu, _, hall⟩ :=
    ConstraintGraph.addAll_from calls ConstraintGraph.empty ConstraintGraph.empty_wellFormed
      (by intro k; simp [ConstraintGraph.empty, ConstraintSEG.empty, ConstraintSEG.getNodes,
            StdMap.equalRange])
  obtain ⟨e, g2, hadd, _, _, _, hd, hs, hlen, hks, hkd⟩ :=
    ConstraintGraph.add_step g hwf hu t d s o
  refine ⟨g, hg, hu, ?_, e, g2, hadd, hlen, hks, hkd, hd, hs⟩
  intro c hc
  exact ⟨(hall c hc).1, (hall c hc).2,
    ConstraintGraph.getNodeOfObj_ok g hwf c.d (hall c hc).1,
    ConstraintGraph.getNodeOfObj_ok g hwf c.s (hall c hc).2⟩

/-! ## Registration of definitions in the control-flow graph -/

theorem CFG.ControlFlowGraph.getNode_setNode (g : CFG.ControlFlowGraph) (i : NodeID)
    (n n1 : CFG.Node) (h : g.getNode i = .ok n) : (g.setNode i n1).getNode i = .ok n1 := by
  unfold CFG.ControlFlowGraph.getNode at h ⊢
  unfold CFG.ControlFlowGraph.setNode
  have hi : i < g.nodes_.length := by
    by_contra hc
    rw [List.getElem?_eq_none (not_lt.mp hc)] at h
    cases h
  simp [List.getElem?_set, hi]

theorem CFG.Node.addDef_ok (ndebug : Bool) (n n1 : CFG.Node) (x : ObjID) (b : Bool)
    (h : n.addDef ndebug x = .ok (b, n1)) : x ∈ n1.defs_ := by
  unfold CFG.Node.addDef at h
  cases hc : cassert ndebug (StdSet.insert n.defs_ x).2 with
  | error e => simp [hc, bind, Except.bind] at h
  | ok u =>
    simp only [hc, bind, Except.bind, pure, Except.pure, Except.ok.injEq, Prod.mk.injEq] at h
    rw [← h.2]
    exact (StdSet.mem_insert n.defs_ x x).mpr (Or.inl rfl)

theorem CFG.Node.addDef_error (n : CFG.Node) (x : ObjID) (e : Abort)
    (h : n.addDef false x = .error e) : e = .assertFailed := by
  unfold CFG.Node.addDef cassert at h
  cases hb : (StdSet.insert n.defs_ x).2 <;>
    simp [hb, bind, Except.bind, pure, Except.pure] at h
  exact h.symm

theorem CFG.addDef_ok_inv (ndebug : Bool) (g g1 : CFG) (P : NodeID) (x : ObjID)
    (h : g.addDef ndebug P x = .ok (true, g1)) :
    StdMap.find g1.objToCFG_ x = some (x, P) ∧
    ∃ n, g1.getNode P = .ok n ∧ x ∈ n.defs_ := by
  unfold CFG.addDef at h
  cases hn : g.CFG_.getNode P with
  | error e => simp [hn, bind, Except.bind] at h
  | ok node =>
    cases hd : node.addDef ndebug x with
    | error e => simp [hn, hd, bind, Except.bind] at h
    | ok r =>
      obtain ⟨b, node1⟩ := r
      cases hc : cassert ndebug (StdMap.emplace g.objToCFG_ x P).2 with
      | error e => simp [hn, hd, hc, bind, Except.bind] at h
      | ok u =>
        simp only [hn, hd, hc, bind, Except.bind, pure, Except.pure, Except.ok.injEq,
          Prod.mk.injEq] at h
        obtain ⟨h1, h2⟩ := h
        subst h2
        refine ⟨StdMap.emplace_true g.objToCFG_ x P h1, node1, ?_, ?_⟩
        · exact CFG.ControlFlowGraph.getNode_setNode g.CFG_ P node node1 hn
        · exact CFG.Node.addDef_ok ndebug node node1 x b hd

theorem CFG.addDef_present (ndebug : Bool) (g : CFG) (Q : NodeID) (x : ObjID)
    (p : ObjID × NodeID) (hp : StdMap.find g.objToCFG_ x = some p) :
    (∀ g2, g.addDef ndebug Q x ≠ .ok (true, g2)) ∧
    (ndebug = false → ∀ n, g.getNode Q = .ok n →
      g.addDef ndebug Q x = .error .assertFailed) := by
  have he := StdMap.emplace_present g.objToCFG_ x Q p hp
  constructor
  · intro g2 h
    unfold CFG.addDef at h
    cases hn : g.CFG_.getNode Q with
    | error e => simp [hn, bind, Except.bind] at h
    | ok node =>
      cases hd : node.addDef ndebug x with
      | error e => simp [hn, hd, bind, Except.bind] at h
      | ok r =>
        obtain ⟨b, node1⟩ := r
        cases hc : cassert ndebug false with
        | error e => simp [hn, hd, he, hc, bind, Except.bind] at h
        | ok u =>
          simp [hn, hd, he, hc, bind, Except.bind, pure, Except.pure] at h
  · intro hnd n hn
    subst hnd
    unfold CFG.addDef
    have hn2 : g.CFG_.getNode Q = .ok n := hn
    cases hd : n.addDef false x with
    | error e =>
      have := CFG.Node.addDef_error n x e hd
      subst this
      simp [hn2, hd, bind, Except.bind]
    | ok r =>
      obtain ⟨b, node1⟩ := r
      simp [hn2, hd, he, cassert, bind, Except.bind]

/-- C10: after a successful `CFG.addDef(P, x)` a further `CFG.addDef(Q, x)`
does not succeed, whether `Q` is `P` or another point: it never returns
`true`, and with assertions enabled it ends in the failed invariant check
whenever `Q` is a point of the graph, which `P` is. -/
theorem CFG.addDef_twice_rejected (ndebug : Bool) (g g1 : CFG) (P Q : NodeID) (x : ObjID)
    (h : g.addDef ndebug P x = .ok (true, g1)) :
    (∀ g2, g1.addDef ndebug Q x ≠ .ok (true, g2)) ∧
    (ndebug = false → ∀ n, g1.getNode Q = .ok n →
      g1.addDef ndebug Q x = .error .assertFailed) ∧
    (ndebug = false → g1.addDef ndebug P x = .error .assertFailed) := by
  obtain ⟨hf, n, hn, _⟩ := CFG.addDef_ok_inv ndebug g g1 P x h
  refine ⟨(CFG.addDef_present ndebug g1 Q x _ hf).1,
    (CFG.addDef_present ndebug g1 Q x _ hf).2, ?_⟩
  intro hnd
  exact (CFG.addDef_present ndebug g1 P x _ hf).2 hnd n hn

/-- C10 at a concrete input: on a freshly constructed graph `addDef(1, 5)`
succeeds, and `addDef(1, 5)` once more ends in the failed invariant check. -/
theorem CFG.addDef_twice_rejected_witness :
    ∃ g g1, CFG.new false = .ok g ∧ g.addDef false 1 5 = .ok (true, g1) ∧
      g1.addDef false 1 5 = .error .assertFailed ∧
      ∀ g2, g1.addDef false 2 5 ≠ .ok (true, g2) :=
  (fun (g g1 : CFG) (hg : CFG.new false = .ok g)
      (h1 : g.addDef false 1 5 = .ok (true, g1)) =>
    ⟨g, g1, hg, h1,
      (CFG.addDef_twice_rejected false g g1 1 1 5 h1).2.2 rfl,
      (CFG.addDef_twice_rejected false g g1 1 2 5 h1).1⟩)
    { CFG.blank with
      CFG_ := { nodes_ := (List.range 4).map (fun i => some (CFG.Node.new i).setM.setR) } }
    { CFG.blank with
      CFG_ := { nodes_ := [some (CFG.Node.new 0).setM.setR,
                           some { (CFG.Node.new 1).setM.setR with defs_ := [5] },
                           some (CFG.Node.new 2).setM.setR,
                           some (CFG.Node.new 3).setM.setR] },
      objToCFG_ := [(5, 1)] }
    rfl rfl

/-! ## Writes through `operator[]`, `emplace` and `erase` -/

theorem StdMap.find_modify_self {V : Type} (m : List (Nat × V)) (k : Nat) (f : V → V)
    (p : Nat × V) (h : StdMap.find m k = some p) :
    StdMap.find (StdMap.modify k f m) k = some (k, f p.2) := by
  induction m with
  | nil => simp [StdMap.find] at h
  | cons q qs ih =>
    unfold StdMap.find at h
    unfold StdMap.modify
    by_cases hq : q.1 = k
    · simp only [hq, if_true, Option.some.injEq] at h
      subst h
      simp [StdMap.find, hq]
    · simp only [hq, if_false] at h
      simp only [hq, if_false, StdMap.find]
      exact ih h

theorem StdMap.find_modify_ne {V : Type} (m : List (Nat × V)) (k k2 : Nat) (f : V → V)
    (h : k2 ≠ k) : StdMap.find (StdMap.modify k f m) k2 = StdMap.find m k2 := by
  induction m with
  | nil => rfl
  | cons q qs ih =>
    unfold StdMap.modify
    by_cases hq : q.1 = k
    · have hk : ¬ k = k2 := fun h2 => h h2.symm
      simp [StdMap.find, hq, hk]
    · simp only [hq, if_false, StdMap.find, ih]

theorem StdMap.find_index_some {V : Type} (m : List (Nat × V)) (k : Nat) (dflt : V)
    (f : V → V) (p : Nat × V) (h : StdMap.find m k = some p) :
    StdMap.find (StdMap.index m k dflt f) k = some (k, f p.2) := by
  unfold StdMap.index
  rw [h]
  exact StdMap.find_modify_self m k f p h

theorem StdMap.find_index_none {V : Type} (m : List (Nat × V)) (k : Nat) (dflt : V)
    (f : V → V) (h : StdMap.find m k = none) :
    StdMap.find (StdMap.index m k dflt f) k = some (k, f dflt) := by
  unfold StdMap.index
  rw [h]
  exact StdMap.find_put_self m k _ h

theorem StdMap.find_index_ne {V : Type} (m : List (Nat × V)) (k k2 : Nat) (dflt : V)
    (f : V → V) (h : k2 ≠ k) :
    StdMap.find (StdMap.index m k dflt f) k2 = StdMap.find m k2 := by
  unfold StdMap.index
  cases StdMap.find m k with
  | some p => exact StdMap.find_modify_ne m k k2 f h
  | none => exact StdMap.find_put_ne m k k2 _ h

theorem StdMap.find_assign_self {V : Type} (m : List (Nat × V)) (k : Nat) (v : V) :
    StdMap.find (StdMap.assign m k v) k = some (k, v) := by
  unfold StdMap.assign
  cases h : StdMap.find m k with
  | some p => exact StdMap.find_index_some m k v _ p h
  | none => exact StdMap.find_index_none m k v _ h

theorem StdMap.find_assign_ne {V : Type} (m : List (Nat × V)) (k k2 : Nat) (v : V)
    (h : k2 ≠ k) : StdMap.find (StdMap.assign m k v) k2 = StdMap.find m k2 :=
  StdMap.find_index_ne m k k2 v _ h

theorem StdMap.find_emplace_some {V : Type} (m : List (Nat × V)) (k : Nat) (v : V)
    (p : Nat × V) (h : StdMap.find m k = some p) :
    StdMap.find (StdMap.emplace m k v).1 k = some p := by
  rw [StdMap.emplace_present m k v p h]
  exact h

theorem StdMap.find_emplace_none {V : Type} (m : List (Nat × V)) (k : Nat) (v : V)
    (h : StdMap.find m k = none) :
    StdMap.find (StdMap.emplace m k v).1 k = some (k, v) := by
  unfold StdMap.emplace
  rw [h]
  exact StdMap.find_put_self m k v h

theorem StdMap.find_emplace_ne {V : Type} (m : List (Nat × V)) (k k2 : Nat) (v : V)
    (h : k2 ≠ k) : StdMap.find (StdMap.emplace m k v).1 k2 = StdMap.find m k2 := by
  unfold StdMap.emplace
  cases StdMap.find m k with
  | some p => rfl
  | none => exact StdMap.find_put_ne m k k2 v h

theorem StdMap.find_filter_ne {V : Type} (m : List (Nat × V)) (k k2 : Nat) (h : k2 ≠ k) :
    StdMap.find (m.filter (fun p => p.1 != k)) k2 = StdMap.find m k2 := by
  induction m with
  | nil => rfl
  | cons q qs ih =>
    by_cases hq : q.1 = k
    · have hk : ¬ k = k2 := fun h2 => h h2.symm
      simp [List.filter_cons, StdMap.find, hq, hk, ih]
    · simp [List.filter_cons, StdMap.find, hq, ih]

theorem StdMap.find_erase_ne {V : Type} (m : List (Nat × V)) (k k2 : Nat) (h : k2 ≠ k) :
    StdMap.find (StdMap.erase m k).1 k2 = StdMap.find m k2 := by
  unfold StdMap.erase
  cases StdMap.find m k with
  | some p => exact StdMap.find_filter_ne m k k2 h
  | none => rfl

theorem StdMap.at_eq {V : Type} (m : List (Nat × V)) (k : Nat) (p : Nat × V)
    (h : StdMap.find m k = some p) : StdMap.at m k = .ok p.2 := by
  simp [StdMap.at, h]

/-! ## Call-site tables -/

/-- C14: after `addIndirFcn(c, f)`, `haveIndirFcn(c)` holds and
`getIndirFcns(c)` is the list `c` had before (the empty list when it had none)
with `f` appended at the end, also when `f` is in the list already; the index
entry, and with it the list, of every other call site is unchanged. -/
theorem CFG.addIndirFcn_appends (g : CFG) (c f : ObjID) :
    (g.addIndirFcn c f).haveIndirFcn c = true ∧
    (g.addIndirFcn c f).getIndirFcns c =
      .ok ((match g.getIndirFcns c with
            | .ok l => l
            | .error _ => []) ++ [f]) ∧
    (g.haveIndirFcn c = false → (g.addIndirFcn c f).getIndirFcns c = .ok [f]) ∧
    (∀ c2, c2 ≠ c →
      (g.addIndirFcn c f).haveIndirFcn c2 = g.haveIndirFcn c2 ∧
      (g.addIndirFcn c f).getIndirFcns c2 = g.getIndirFcns c2) := by
  refine ⟨?_, ?_, ?_, ?_⟩
  · cases hf : StdMap.find g.indirFcns_ c with
    | some p =>
      simp [CFG.haveIndirFcn, CFG.addIndirFcn,
        StdMap.find_index_some g.indirFcns_ c [] (fun v => v ++ [f]) p hf]
    | none =>
      simp [CFG.haveIndirFcn, CFG.addIndirFcn,
        StdMap.find_index_none g.indirFcns_ c [] (fun v => v ++ [f]) hf]
  · cases hf : StdMap.find g.indirFcns_ c with
    | some p =>
      simp [CFG.getIndirFcns, CFG.addIndirFcn, StdMap.at, hf,
        StdMap.find_index_some g.indirFcns_ c [] (fun v => v ++ [f]) p hf]
    | none =>
      simp [CFG.getIndirFcns, CFG.addIndirFcn, StdMap.at, hf,
        StdMap.find_index_none g.indirFcns_ c [] (fun v => v ++ [f]) hf]
  · intro h
    cases hf : StdMap.find g.indirFcns_ c with
    | some p => simp [CFG.haveIndirFcn, hf] at h
    | none =>
      simp [CFG.getIndirFcns, CFG.addIndirFcn, StdMap.at,
        StdMap.find_index_none g.indirFcns_ c [] (fun v => v ++ [f]) hf]
  · intro c2 hc2
    have hne := StdMap.find_index_ne g.indirFcns_ c c2 [] (fun v => v ++ [f]) hc2
    simp [CFG.haveIndirFcn, CFG.getIndirFcns, CFG.addIndirFcn, StdMap.at, hne]

/-- C16: after `addCallsite(c, f, r)`, `getCallSuccessor(c)` is `r` whatever
successor `c` had, and the direct-callee list of `c` is its previous list (the
empty list when it had none) with `f` appended; the direct-callee list and the
successor of every other call point are unchanged.  After
`addIndirectCall(c, obj, r)`, `getCallSuccessor(c)` is `r`, the indirect-call
sequence is the previous one with `(obj, c)` added at the end, and the
successor of every other call point is unchanged. -/
theorem CFG.addCallsite_records (g : CFG) (c : NodeID) (f obj : ObjID) (r : NodeID) :
    (g.addCallsite c f r).getCallSuccessor c = .ok r ∧
    StdMap.find (g.addCallsite c f r).cfgDirCallsites_ c =
      some (c, (match StdMap.find g.cfgDirCallsites_ c with
                | some p => p.2
                | none => []) ++ [f]) ∧
    (∀ c2, c2 ≠ c →
      StdMap.find (g.addCallsite c f r).cfgDirCallsites_ c2
        = StdMap.find g.cfgDirCallsites_ c2 ∧
      (g.addCallsite c f r).getCallSuccessor c2 = g.getCallSuccessor c2) ∧
    (g.addIndirectCall c obj r).getCallSuccessor c = .ok r ∧
    (g.addIndirectCall c obj r).indirectCalls_ = g.indirectCalls_ ++ [(obj, c)] ∧
    (g.addIndirectCall c obj r).indirectCalls_.getLast? = some (obj, c) ∧
    (∀ c2, c2 ≠ c →
      (g.addIndirectCall c obj r).getCallSuccessor c2 = g.getCallSuccessor c2) := by
  have hs := StdMap.find_assign_self g.cfgCallSuccessors_ c r
  refine ⟨?_, ?_, ?_, ?_, rfl, ?_, ?_⟩
  · simp [CFG.getCallSuccessor, CFG.addCallsite, StdMap.at, hs]
  · cases hf : StdMap.find g.cfgDirCallsites_ c with
    | some p =>
      simp [CFG.addCallsite,
        StdMap.find_index_some g.cfgDirCallsites_ c [] (fun v => v ++ [f]) p hf]
    | none =>
      simp [CFG.addCallsite,
        StdMap.find_index_none g.cfgDirCallsites_ c [] (fun v => v ++ [f]) hf]
  · intro c2 hc2
    constructor
    · simp [CFG.addCallsite, StdMap.find_index_ne g.cfgDirCallsites_ c c2 [] _ hc2]
    · simp [CFG.getCallSuccessor, CFG.addCallsite, StdMap.at,
        StdMap.find_assign_ne g.cfgCallSuccessors_ c c2 r hc2]
  · simp [CFG.getCallSuccessor, CFG.addIndirectCall, StdMap.at, hs]
  · simp [CFG.addIndirectCall]
  · intro c2 hc2
    simp [CFG.getCallSuccessor, CFG.addIndirectCall, StdMap.at,
      StdMap.find_assign_ne g.cfgCallSuccessors_ c c2 r hc2]

/-- C18 (as stated, refuted): `addUnusedFunction(7, [2])` on a registry that
already maps function 7 to the list `[1]` leaves function 7 with `[1]`, not
with `[2]`. -/
theorem CFG.addUnusedFunction_keeps_first :
    StdMap.find (CFG.blank.addUnusedFunction 7 [1]).unusedFunctions_ 7 = some (7, [1]) ∧
    StdMap.find ((CFG.blank.addUnusedFunction 7 [1]).addUnusedFunction 7 [2]).unusedFunctions_ 7
      = some (7, [1]) := by
  decide

/-- C18 (amended): after `addUnusedFunction(f, ids)` the registry associates
`f` with exactly the list `ids` when `f` had no entry before, and with the
list it already had otherwise; the entries of all other functions are
unchanged. -/
theorem CFG.addUnusedFunction_emplaces (g : CFG) (f : ObjID) (ids : List EdgeID) :
    StdMap.find (g.addUnusedFunction f ids).unusedFunctions_ f =
      (match StdMap.find g.unusedFunctions_ f with
       | some p => some p
       | none => some (f, ids)) ∧
    (∀ f2, f2 ≠ f →
      StdMap.find (g.addUnusedFunction f ids).unusedFunctions_ f2
        = StdMap.find g.unusedFunctions_ f2) := by
  constructor
  · cases hf : StdMap.find g.unusedFunctions_ f with
    | some p =>
      simp [CFG.addUnusedFunction, StdMap.find_emplace_some g.unusedFunctions_ f ids p hf]
    | none =>
      simp [CFG.addUnusedFunction, StdMap.find_emplace_none g.unusedFunctions_ f ids hf]
  · intro f2 h
    simp [CFG.addUnusedFunction, StdMap.find_emplace_ne g.unusedFunctions_ f f2 ids h]

/-! ## What one mutator call leaves behind -/

theorem Except.map_snd_ok {α β : Type} (r : Except Abort (α × β)) (y : β)
    (h : r.map Prod.snd = .ok y) : ∃ x, r = .ok (x, y) := by
  cases r with
  | error e => simp [Except.map] at h
  | ok v =>
    obtain ⟨a, b⟩ := v
    simp only [Except.map, Except.ok.injEq] at h
    subst h
    exact ⟨a, rfl⟩

theorem CFG.addDef_shape (ndebug : Bool) (g g2 : CFG) (P : NodeID) (x : ObjID) (b : Bool)
    (h : g.addDef ndebug P x = .ok (b, g2)) :
    ∃ node b1 node1, g.CFG_.getNode P = .ok node ∧
      node.addDef ndebug x = .ok (b1, node1) ∧
      b = (StdMap.emplace g.objToCFG_ x P).2 ∧
      (ndebug = false → b = true) ∧
      g2 = { g with CFG_ := g.CFG_.setNode P node1,
                    objToCFG_ := (StdMap.emplace g.objToCFG_ x P).1 } := by
  unfold CFG.addDef at h
  cases hn : g.CFG_.getNode P with
  | error e => simp [hn, bind, Except.bind] at h
  | ok node =>
    cases hd : node.addDef ndebug x with
    | error e => simp [hn, hd, bind, Except.bind] at h
    | ok r =>
      obtain ⟨b1, node1⟩ := r
      cases hc : cassert ndebug (StdMap.emplace g.objToCFG_ x P).2 with
      | error e => simp [hn, hd, hc, bind, Except.bind] at h
      | ok u =>
        simp only [hn, hd, hc, bind, Except.bind, pure, Except.pure, Except.ok.injEq,
          Prod.mk.injEq] at h
        refine ⟨node, b1, node1, rfl, hd, h.1.symm, ?_, h.2.symm⟩
        intro hnd
        subst hnd
        rw [← h.1]
        unfold cassert at hc
        cases hb : (StdMap.emplace g.objToCFG_ x P).2
        · simp [hb] at hc
        · rfl

theorem CFG.Node.addUse_ok (ndebug : Bool) (n n1 : CFG.Node) (x : ObjID) (b : Bool)
    (h : n.addUse ndebug x = .ok (b, n1)) : x ∈ n1.uses_ := by
  unfold CFG.Node.addUse at h
  cases hc : cassert ndebug (StdSet.insert n.uses_ x).2 with
  | error e => simp [hc, bind, Except.bind] at h
  | ok u =>
    simp only [hc, bind, Except.bind, pure, Except.pure, Except.ok.injEq, Prod.mk.injEq] at h
    rw [← h.2]
    exact (StdSet.mem_insert n.uses_ x x).mpr (Or.inl rfl)

theorem CFG.Node.addUse_error (n : CFG.Node) (x : ObjID) (e : Abort)
    (h : n.addUse false x = .error e) : e = .assertFailed := by
  unfold CFG.Node.addUse cassert at h
  cases hb : (StdSet.insert n.uses_ x).2 <;>
    simp [hb, bind, Except.bind, pure, Except.pure] at h
  exact h.symm

theorem CFG.addUse_shape (ndebug : Bool) (g g2 : CFG) (P : NodeID) (x : ObjID) (b : Bool)
    (h : g.addUse ndebug P x = .ok (b, g2)) :
    ∃ node b1 node1, g.CFG_.getNode P = .ok node ∧
      node.addUse ndebug x = .ok (b1, node1) ∧
      b = (StdMap.emplace g.objToCFG_ x P).2 ∧
      (ndebug = false → b = true) ∧
      g2 = { g with CFG_ := g.CFG_.setNode P node1,
                    objToCFG_ := (StdMap.emplace g.objToCFG_ x P).1 } := by
  unfold CFG.addUse at h
  cases hn : g.CFG_.getNode P with
  | error e => simp [hn, bind, Except.bind] at h
  | ok node =>
    cases hd : node.addUse ndebug x with
    | error e => simp [hn, hd, bind, Except.bind] at h
    | ok r =>
      obtain ⟨b1, node1⟩ := r
      cases hc : cassert ndebug (StdMap.emplace g.objToCFG_ x P).2 with
      | error e => simp [hn, hd, hc, bind, Except.bind] at h
      | ok u =>
        simp only [hn, hd, hc, bind, Except.bind, pure, Except.pure, Except.ok.injEq,
          Prod.mk.injEq] at h
        refine ⟨node, b1, node1, rfl, hd, h.1.symm, ?_, h.2.symm⟩
        intro hnd
        subst hnd
        rw [← h.1]
        unfold cassert at hc
        cases hb : (StdMap.emplace g.objToCFG_ x P).2
        · simp [hb] at hc
        · rfl

theorem CFG.addGlobalInit_shape (ndebug : Bool) (g g2 : CFG) (x : ObjID) (b : Bool)
    (h : g.addGlobalInit ndebug x = .ok (b, g2)) :
    b = (StdMap.emplace g.objToCFG_ x CFG.CFGInit).2 ∧
    (ndebug = false → b = true) ∧
    g2 = { g with globalInits_ := g.globalInits_ ++ [x],
                  objToCFG_ := (StdMap.emplace g.objToCFG_ x CFG.CFGInit).1 } := by
  unfold CFG.addGlobalInit at h
  cases hc : cassert ndebug (StdMap.emplace g.objToCFG_ x CFG.CFGInit).2 with
  | error e => simp [hc, bind, Except.bind] at h
  | ok u =>
    simp only [hc, bind, Except.bind, pure, Except.pure, Except.ok.injEq,
      Prod.mk.injEq] at h
    refine ⟨h.1.symm, ?_, h.2.symm⟩
    intro hnd
    subst hnd
    rw [← h.1]
    unfold cassert at hc
    cases hb : (StdMap.emplace g.objToCFG_ x CFG.CFGInit).2
    · simp [hb] at hc
    · rfl

theorem CFG.eraseObjToCFG_shape (ndebug : Bool) (g g2 : CFG) (x : ObjID) (b : Bool)
    (h : g.eraseObjToCFG ndebug x = .ok (b, g2)) :
    g2 = { g with objToCFG_ := (StdMap.erase g.objToCFG_ x).1 } := by
  unfold CFG.eraseObjToCFG at h
  cases hc : cassert ndebug (decide ((StdMap.erase g.objToCFG_ x).2 = 1)) with
  | error e => simp [hc, bind, Except.bind] at h
  | ok u =>
    simp only [hc, bind, Except.bind, pure, Except.pure, Except.ok.injEq,
      Prod.mk.injEq] at h
    exact h.2.symm

theorem CFG.addPred_shape (g g2 : CFG) (n p : NodeID) (h : g.addPred n p = .ok g2) :
    ∃ seg, g.CFG_.addPred n p = .ok seg ∧ g2 = { g with CFG_ := seg } := by
  unfold CFG.addPred at h
  cases hs : g.CFG_.addPred n p with
  | error e => simp [hs, bind, Except.bind] at h
  | ok seg =>
    simp only [hs, bind, Except.bind, pure, Except.pure, Except.ok.injEq] at h
    exact ⟨seg, rfl, h.symm⟩

theorem CFG.cleanup_shape (cg : CFG.ControlFlowGraph → Except Abort CFG.ControlFlowGraph)
    (g g2 : CFG) (h : g.cleanup cg = .ok g2) :
    ∃ seg, cg g.CFG_ = .ok seg ∧ g2 = { g with CFG_ := seg } := by
  unfold CFG.cleanup at h
  cases hs : cg g.CFG_ with
  | error e => simp [hs, bind, Except.bind] at h
  | ok seg =>
    simp only [hs, bind, Except.bind, pure, Except.pure, Except.ok.injEq] at h
    exact ⟨seg, rfl, h.symm⟩

/-- The side tables after one mutator call. -/
theorem CFG.Op.apply_tables (ndebug : Bool)
    (cg : CFG.ControlFlowGraph → Except Abort CFG.ControlFlowGraph)
    (op : CFG.Op) (g g2 : CFG) (h : op.apply ndebug cg g = .ok g2) :
    g2.indirFcns_ =
      (match op with
       | .addIndirFcn c f => (g.addIndirFcn c f).indirFcns_
       | _ => g.indirFcns_) ∧
    g2.cfgFunctionEntries_ =
      (match op with
       | .addFunctionStart f id => (g.addFunctionStart f id).cfgFunctionEntries_
       | _ => g.cfgFunctionEntries_) ∧
    g2.cfgFunctionReturns_ =
      (match op with
       | .addFunctionReturn f id => (g.addFunctionReturn f id).cfgFunctionReturns_
       | _ => g.cfgFunctionReturns_) ∧
    g2.objToCFG_ =
      (match op with
       | .addDef P x => (StdMap.emplace g.objToCFG_ x P).1
       | .addUse P x => (StdMap.emplace g.objToCFG_ x P).1
       | .addGlobalInit x => (StdMap.emplace g.objToCFG_ x CFG.CFGInit).1
       | .eraseObjToCFG x => (StdMap.erase g.objToCFG_ x).1
       | _ => g.objToCFG_) := by
  cases op <;> simp only [CFG.Op.apply] at h
  case addPred n p =>
    obtain ⟨seg, _, rfl⟩ := CFG.addPred_shape g g2 n p h
    exact ⟨rfl, rfl, rfl, rfl⟩
  case addCallsite c f r => cases h; exact ⟨rfl, rfl, rfl, rfl⟩
  case addIndirectCall c f r => cases h; exact ⟨rfl, rfl, rfl, rfl⟩
  case addFunctionStart f id => cases h; exact ⟨rfl, rfl, rfl, rfl⟩
  case addFunctionReturn f id => cases h; exact ⟨rfl, rfl, rfl, rfl⟩
  case addCallRetInfo f c r => cases h; exact ⟨rfl, rfl, rfl, rfl⟩
  case addIndirFcn c f => cases h; exact ⟨rfl, rfl, rfl, rfl⟩
  case addUnusedFunction f ids => cases h; exact ⟨rfl, rfl, rfl, rfl⟩
  case addDef P x =>
    obtain ⟨b, hb⟩ := Except.map_snd_ok _ _ h
    obtain ⟨_, _, _, _, _, _, _, rfl⟩ := CFG.addDef_shape ndebug g g2 P x b hb
    exact ⟨rfl, rfl, rfl, rfl⟩
  case addUse P x =>
    obtain ⟨b, hb⟩ := Except.map_snd_ok _ _ h
    obtain ⟨_, _, _, _, _, _, _, rfl⟩ := CFG.addUse_shape ndebug g g2 P x b hb
    exact ⟨rfl, rfl, rfl, rfl⟩
  case addGlobalInit x =>
    obtain ⟨b, hb⟩ := Except.map_snd_ok _ _ h
    obtain ⟨_, _, rfl⟩ := CFG.addGlobalInit_shape ndebug g g2 x b hb
    exact ⟨rfl, rfl, rfl, rfl⟩
  case eraseObjToCFG x =>
    obtain ⟨b, hb⟩ := Except.map_snd_ok _ _ h
    have := CFG.eraseObjToCFG_shape ndebug g g2 x b hb
    subst this
    exact ⟨rfl, rfl, rfl, rfl⟩
  case nextNode => cases h; exact ⟨rfl, rfl, rfl, rfl⟩
  case cleanup =>
    obtain ⟨seg, _, rfl⟩ := CFG.cleanup_shape cg g g2 h
    exact ⟨rfl, rfl, rfl, rfl⟩

/-! ## Registration in the `ObjID`-to-point index -/

theorem StdMap.find_emplace_keeps {V : Type} (m : List (Nat × V)) (k x : Nat) (v : V)
    (p : Nat × V) (h : StdMap.find m x = some p) :
    StdMap.find (StdMap.emplace m k v).1 x = some p := by
  by_cases hk : x = k
  · subst hk
    exact StdMap.find_emplace_some m x v p h
  · rw [StdMap.find_emplace_ne m k x v hk]
    exact h

theorem CFG.addUse_present (ndebug : Bool) (g : CFG) (Q : NodeID) (x : ObjID)
    (p : ObjID × NodeID) (hp : StdMap.find g.objToCFG_ x = some p) :
    (∀ g2, g.addUse ndebug Q x ≠ .ok (true, g2)) ∧
    (ndebug = false → ∀ n, g.getNode Q = .ok n →
      g.addUse ndebug Q x = .error .assertFailed) := by
  have he := StdMap.emplace_present g.objToCFG_ x Q p hp
  constructor
  · intro g2 h
    obtain ⟨_, _, _, _, _, hb, _, _⟩ := CFG.addUse_shape ndebug g g2 Q x true h
    rw [he] at hb
    cases hb
  · intro hnd n hn
    subst hnd
    unfold CFG.addUse
    have hn2 : g.CFG_.getNode Q = .ok n := hn
    cases hd : n.addUse false x with
    | error e =>
      have := CFG.Node.addUse_error n x e hd
      subst this
      simp [hn2, hd, bind, Except.bind]
    | ok r =>
      obtain ⟨b, node1⟩ := r
      simp [hn2, hd, he, cassert, bind, Except.bind]

theorem CFG.addGlobalInit_present (ndebug : Bool) (g : CFG) (x : ObjID)
    (p : ObjID × NodeID) (hp : StdMap.find g.objToCFG_ x = some p) :
    (∀ g2, g.addGlobalInit ndebug x ≠ .ok (true, g2)) ∧
    (ndebug = false → g.addGlobalInit ndebug x = .error .assertFailed) := by
  have he := StdMap.emplace_present g.objToCFG_ x CFG.CFGInit p hp
  constructor
  · intro g2 h
    obtain ⟨hb, _, _⟩ := CFG.addGlobalInit_shape ndebug g g2 x true h
    rw [he] at hb
    cases hb
  · intro hnd
    subst hnd
    unfold CFG.addGlobalInit
    simp [he, cassert, bind, Except.bind]

/-- A mutator call other than `eraseObjToCFG(x)` keeps the index entry of `x`. -/
theorem CFG.Op.apply_keeps_index (ndebug : Bool)
    (cg : CFG.ControlFlowGraph → Except Abort CFG.ControlFlowGraph)
    (op : CFG.Op) (g g2 : CFG) (x : ObjID) (p : ObjID × NodeID)
    (h : op.apply ndebug cg g = .ok g2) (hne : op ≠ .eraseObjToCFG x)
    (hp : StdMap.find g.objToCFG_ x = some p) :
    StdMap.find g2.objToCFG_ x = some p := by
  cases op
  case addDef P y =>
    rw [(CFG.Op.apply_tables ndebug cg _ g g2 h).2.2.2]
    exact StdMap.find_emplace_keeps g.objToCFG_ y x P p hp
  case addUse P y =>
    rw [(CFG.Op.apply_tables ndebug cg _ g g2 h).2.2.2]
    exact StdMap.find_emplace_keeps g.objToCFG_ y x P p hp
  case addGlobalInit y =>
    rw [(CFG.Op.apply_tables ndebug cg _ g g2 h).2.2.2]
    exact StdMap.find_emplace_keeps g.objToCFG_ y x _ p hp
  case eraseObjToCFG y =>
    have hxy : x ≠ y := fun hxy => hne (by rw [hxy])
    rw [(CFG.Op.apply_tables ndebug cg _ g g2 h).2.2.2]
    show StdMap.find (StdMap.erase g.objToCFG_ y).1 x = some p
    rw [StdMap.find_erase_ne g.objToCFG_ y x hxy]
    exact hp
  all_goals
    rw [(CFG.Op.apply_tables ndebug cg _ g g2 h).2.2.2]
    exact hp

theorem CFG.runOps_keeps_index (ndebug : Bool)
    (cg : CFG.ControlFlowGraph → Except Abort CFG.ControlFlowGraph)
    (ops : List CFG.Op) (g g2 : CFG) (x : ObjID) (p : ObjID × NodeID)
    (h : CFG.runOps ndebug cg g ops = .ok g2)
    (hne : ∀ op ∈ ops, op ≠ CFG.Op.eraseObjToCFG x)
    (hp : StdMap.find g.objToCFG_ x = some p) :
    StdMap.find g2.objToCFG_ x = some p := by
  induction ops generalizing g with
  | nil =>
    simp only [CFG.runOps, Except.ok.injEq] at h
    subst h
    exact hp
  | cons op ops ih =>
    unfold CFG.runOps at h
    cases h1 : op.apply ndebug cg g with
    | error e => simp [h1, bind, Except.bind] at h
    | ok g1 =>
      simp only [h1, bind, Except.bind] at h
      exact ih g1 h (fun o ho => hne o (List.mem_cons_of_mem _ ho))
        (CFG.Op.apply_keeps_index ndebug cg op g g1 x p h1
          (hne op (List.mem_cons_self _ _)) hp)

/-- C12: a successful `CFG.addDef(P, x)` leaves `getCFGid(x) = P` and `x` in the
def set of `P`; a successful `CFG.addUse(P, x)` leaves `getCFGid(x) = P` and `x`
in the use set of `P`; a successful `CFG.addGlobalInit(x)` leaves `x` as the
last element of the global-init list and `getCFGid(x) = CFGInit`, the point
with id 1; in each case the index entry of every other `ObjID` is unchanged. -/
theorem CFG.registration_updates_index (ndebug : Bool) (g g2 : CFG) (P : NodeID)
    (x : ObjID) :
    (g.addDef ndebug P x = .ok (true, g2) →
      g2.getCFGid x = .ok P ∧ (∃ n, g2.getNode P = .ok n ∧ x ∈ n.defs_) ∧
      ∀ y, y ≠ x → StdMap.find g2.objToCFG_ y = StdMap.find g.objToCFG_ y) ∧
    (g.addUse ndebug P x = .ok (true, g2) →
      g2.getCFGid x = .ok P ∧ (∃ n, g2.getNode P = .ok n ∧ x ∈ n.uses_) ∧
      ∀ y, y ≠ x → StdMap.find g2.objToCFG_ y = StdMap.find g.objToCFG_ y) ∧
    (g.addGlobalInit ndebug x = .ok (true, g2) →
      g2.globalInits_ = g.globalInits_ ++ [x] ∧ g2.globalInits_.getLast? = some x ∧
      g2.getCFGid x = .ok CFG.CFGInit ∧ CFG.CFGInit = 1 ∧
      ∀ y, y ≠ x → StdMap.find g2.objToCFG_ y = StdMap.find g.objToCFG_ y) := by
  refine ⟨?_, ?_, ?_⟩
  · intro h
    obtain ⟨node, b1, node1, hn, hd, hb, _, rfl⟩ := CFG.addDef_shape ndebug g g2 P x true h
    refine ⟨?_, ⟨node1, ?_, CFG.Node.addDef_ok ndebug node node1 x b1 hd⟩, ?_⟩
    · exact StdMap.at_eq _ x _ (StdMap.emplace_true g.objToCFG_ x P hb.symm)
    · exact CFG.ControlFlowGraph.getNode_setNode g.CFG_ P node node1 hn
    · intro y hy
      exact StdMap.find_emplace_ne g.objToCFG_ x y P hy
  · intro h
    obtain ⟨node, b1, node1, hn, hd, hb, _, rfl⟩ := CFG.addUse_shape ndebug g g2 P x true h
    refine ⟨?_, ⟨node1, ?_, CFG.Node.addUse_ok ndebug node node1 x b1 hd⟩, ?_⟩
    · exact StdMap.at_eq _ x _ (StdMap.emplace_true g.objToCFG_ x P hb.symm)
    · exact CFG.ControlFlowGraph.getNode_setNode g.CFG_ P node node1 hn
    · intro y hy
      exact StdMap.find_emplace_ne g.objToCFG_ x y P hy
  · intro h
    obtain ⟨hb, _, rfl⟩ := CFG.addGlobalInit_shape ndebug g g2 x true h
    refine ⟨rfl, by simp, ?_, rfl, ?_⟩
    · exact StdMap.at_eq _ x _ (StdMap.emplace_true g.objToCFG_ x _ hb.symm)
    · intro y hy
      exact StdMap.find_emplace_ne g.objToCFG_ x y _ hy

/-- C12 at a concrete input: on a graph with the point 0, `addDef(0, 5)`
succeeds and leaves `getCFGid(5) = 0`. -/
theorem CFG.registration_updates_index_witness :
    CFG.blank.nextNode.2.addDef false 0 5 = .ok (true,
      { CFG.blank with
        CFG_ := { nodes_ := [some { CFG.Node.new 0 with defs_ := [5] }] },
        objToCFG_ := [(5, 0)] }) ∧
    ({ CFG.blank with
        CFG_ := { nodes_ := [some { CFG.Node.new 0 with defs_ := [5] }] },
        objToCFG_ := [(5, 0)] } : CFG).getCFGid 5 = .ok 0 :=
  ⟨rfl, ((CFG.registration_updates_index false CFG.blank.nextNode.2 _ 0 5).1 rfl).1⟩

/-! ## The candidate lists of indirect calls -/

/-- C15: for every mutator of the class `CFG` and every call site that has a
candidate list, the list before the call is a prefix of the list after it:
the call site still has a list, and that list is the old one followed by
zero or more further candidates. -/
theorem CFG.Op.candidates_only_grow (ndebug : Bool)
    (cg : CFG.ControlFlowGraph → Except Abort CFG.ControlFlowGraph)
    (op : CFG.Op) (g g2 : CFG) (c : ObjID) (l : List ObjID)
    (h : op.apply ndebug cg g = .ok g2) (hl : g.getIndirFcns c = .ok l) :
    g2.haveIndirFcn c = true ∧
    ∃ ext, g2.getIndirFcns c = .ok (l ++ ext) ∧ l <+: l ++ ext := by
  have hfind : ∃ p, StdMap.find g.indirFcns_ c = some p ∧ p.2 = l := by
    unfold CFG.getIndirFcns StdMap.at at hl
    cases hf : StdMap.find g.indirFcns_ c with
    | none => simp [hf] at hl
    | some p =>
      simp only [hf, Except.ok.injEq] at hl
      exact ⟨p, rfl, hl⟩
  obtain ⟨p, hp, hpl⟩ := hfind
  have hsame : g2.indirFcns_ = g.indirFcns_ →
      g2.haveIndirFcn c = true ∧
      ∃ ext, g2.getIndirFcns c = .ok (l ++ ext) ∧ l <+: l ++ ext := by
    intro he
    refine ⟨?_, [], ?_, List.prefix_append l []⟩
    · simp [CFG.haveIndirFcn, he, hp]
    · simp [CFG.getIndirFcns, StdMap.at, he, hp, hpl]
  cases op
  case addIndirFcn c2 f =>
    have ht : g2.indirFcns_ = (g.addIndirFcn c2 f).indirFcns_ :=
      (CFG.Op.apply_tables ndebug cg _ g g2 h).1
    by_cases hc : c = c2
    · subst hc
      have hf := StdMap.find_index_some g.indirFcns_ c [] (fun v => v ++ [f]) p hp
      refine ⟨?_, [f], ?_, List.prefix_append l [f]⟩
      · simp [CFG.haveIndirFcn, ht, CFG.addIndirFcn, hf]
      · simp [CFG.getIndirFcns, StdMap.at, ht, CFG.addIndirFcn, hf, hpl]
    · have hf := StdMap.find_index_ne g.indirFcns_ c2 c [] (fun v => v ++ [f]) hc
      refine ⟨?_, [], ?_, List.prefix_append l []⟩
      · simp [CFG.haveIndirFcn, ht, CFG.addIndirFcn, hf, hp]
      · simp [CFG.getIndirFcns, StdMap.at, ht, CFG.addIndirFcn, hf, hp, hpl]
  all_goals exact hsame (CFG.Op.apply_tables ndebug cg _ g g2 h).1

/-- C15 at a concrete input: call site 7 has the candidate list `[1]`, and
`addIndirFcn(7, 2)` leaves it with a list that starts with `[1]`. -/
theorem CFG.Op.candidates_only_grow_witness :
    (CFG.blank.addIndirFcn 7 1).getIndirFcns 7 = .ok [1] ∧
    (CFG.blank.addIndirFcn 7 1 |>.addIndirFcn 7 2).haveIndirFcn 7 = true :=
  ⟨rfl,
   (CFG.Op.candidates_only_grow false
      (fun seg => .ok (seg.cleanGraph (fun id => decide (id < 4)))) (.addIndirFcn 7 2)
     (CFG.blank.addIndirFcn 7 1) (CFG.blank.addIndirFcn 7 1 |>.addIndirFcn 7 2) 7 [1]
     rfl rfl).1⟩

/-! ## Construction and `nextNode` -/

theorem CFG.new_eq (ndebug : Bool) :
    CFG.new ndebug = .ok
      { CFG.blank with
        CFG_ := { nodes_ := [some (CFG.Node.new 0).setM.setR, some (CFG.Node.new 1).setM.setR,
                             some (CFG.Node.new 2).setM.setR, some (CFG.Node.new 3).setM.setR] } } := by
  cases ndebug <;> rfl

theorem CFG.ControlFlowGraph.addPred_length (g g2 : CFG.ControlFlowGraph) (n p : NodeID)
    (h : g.addPred n p = .ok g2) : g2.nodes_.length = g.nodes_.length := by
  unfold CFG.ControlFlowGraph.addPred at h
  cases h1 : g.getNode n with
  | error e => simp [h1, bind, Except.bind] at h
  | ok node =>
    simp only [h1, bind, Except.bind] at h
    split at h
    · cases h
    · simp only [pure, Except.pure, Except.ok.injEq] at h
      subst h
      simp [CFG.ControlFlowGraph.setNode]

/-- A mutator call does not shorten the node arena when the structural cleanup
does not. -/
theorem CFG.Op.apply_nodes_length (ndebug : Bool)
    (cg : CFG.ControlFlowGraph → Except Abort CFG.ControlFlowGraph)
    (hcg : ∀ seg seg2, cg seg = .ok seg2 → seg.nodes_.length ≤ seg2.nodes_.length)
    (op : CFG.Op) (g g2 : CFG) (h : op.apply ndebug cg g = .ok g2) :
    g.CFG_.nodes_.length ≤ g2.CFG_.nodes_.length := by
  cases op <;> simp only [CFG.Op.apply] at h
  case addPred n p =>
    obtain ⟨seg, hs, rfl⟩ := CFG.addPred_shape g g2 n p h
    exact Nat.le_of_eq (CFG.ControlFlowGraph.addPred_length g.CFG_ seg n p hs).symm
  case addDef P x =>
    obtain ⟨b, hb⟩ := Except.map_snd_ok _ _ h
    obtain ⟨_, _, _, _, _, _, _, rfl⟩ := CFG.addDef_shape ndebug g g2 P x b hb
    simp [CFG.ControlFlowGraph.setNode]
  case addUse P x =>
    obtain ⟨b, hb⟩ := Except.map_snd_ok _ _ h
    obtain ⟨_, _, _, _, _, _, _, rfl⟩ := CFG.addUse_shape ndebug g g2 P x b hb
    simp [CFG.ControlFlowGraph.setNode]
  case addGlobalInit x =>
    obtain ⟨b, hb⟩ := Except.map_snd_ok _ _ h
    obtain ⟨_, _, rfl⟩ := CFG.addGlobalInit_shape ndebug g g2 x b hb
    exact Nat.le_refl _
  case eraseObjToCFG x =>
    obtain ⟨b, hb⟩ := Except.map_snd_ok _ _ h
    have := CFG.eraseObjToCFG_shape ndebug g g2 x b hb
    subst this
    exact Nat.le_refl _
  case nextNode =>
    cases h
    simp [CFG.nextNode, CFG.ControlFlowGraph.addNode]
  case cleanup =>
    obtain ⟨seg, hs, rfl⟩ := CFG.cleanup_shape cg g g2 h
    exact hcg _ _ hs
  all_goals
    cases h
    exact Nat.le_refl _

theorem CFG.runOps_nodes_length (ndebug : Bool)
    (cg : CFG.ControlFlowGraph → Except Abort CFG.ControlFlowGraph)
    (hcg : ∀ seg seg2, cg seg = .ok seg2 → seg.nodes_.length ≤ seg2.nodes_.length)
    (ops : List CFG.Op) (g g2 : CFG) (h : CFG.runOps ndebug cg g ops = .ok g2) :
    g.CFG_.nodes_.length ≤ g2.CFG_.nodes_.length := by
  induction ops generalizing g with
  | nil =>
    simp only [CFG.runOps, Except.ok.injEq] at h
    subst h
    exact Nat.le_refl _
  | cons op ops ih =>
    unfold CFG.runOps at h
    cases h1 : op.apply ndebug cg g with
    | error e => simp [h1, bind, Except.bind] at h
    | ok g1 =>
      simp only [h1, bind, Except.bind] at h
      exact Nat.le_trans (CFG.Op.apply_nodes_length ndebug cg hcg op g g1 h1) (ih g1 h)

/-- C13: the constructor `CFG()` completes, and the graph it leaves has
exactly four nodes, with the ids 0 (`CFGGlobalInit`), 1 (`CFGInit`),
2 (`CFGArgvBegin`) and 3 (`CFGArgvEnd`); each has `m` and `r` set, `c` clear and
empty def, use and global-init sets, and every side table is empty.  After any
sequence of mutator calls on it, `nextNode()` returns an id that is none of
these four, provided the structural cleanup of the graph engine keeps the
slots of the nodes it removes allocated. -/
theorem CFG.new_has_four_nodes (ndebug : Bool)
    (cg : CFG.ControlFlowGraph → Except Abort CFG.ControlFlowGraph)
    (hcg : ∀ seg seg2, cg seg = .ok seg2 → seg.nodes_.length ≤ seg2.nodes_.length)
    (ops : List CFG.Op) :
    ∃ g0, CFG.new ndebug = .ok g0 ∧
      g0.CFG_.nodes_.length = 4 ∧
      CFG.CFGGlobalInit = 0 ∧ CFG.CFGInit = 1 ∧ CFG.CFGArgvBegin = 2 ∧ CFG.CFGArgvEnd = 3 ∧
      (∀ i, i < 4 → ∃ n, g0.getNode i = .ok n ∧ n.id = i ∧
        n.m = true ∧ n.r = true ∧ n.c = false ∧
        n.defs_ = [] ∧ n.uses_ = [] ∧ n.glblInits_ = []) ∧
      (∀ i, 4 ≤ i → g0.getNode i = .error .badHandle) ∧
      (g0.cfgFcnToCallRet_ = [] ∧ g0.cfgDirCallsites_ = [] ∧ g0.indirectCalls_ = [] ∧
        g0.indirFcns_ = [] ∧ g0.cfgCallSuccessors_ = [] ∧ g0.cfgFunctionEntries_ = [] ∧
        g0.cfgFunctionReturns_ = [] ∧ g0.globalInits_ = [] ∧ g0.objToCFG_ = [] ∧
        g0.unusedFunctions_ = []) ∧
      ∀ g, CFG.runOps ndebug cg g0 ops = .ok g →
        4 ≤ g.nextNode.1 ∧
        g.nextNode.1 ≠ CFG.CFGGlobalInit ∧ g.nextNode.1 ≠ CFG.CFGInit ∧
        g.nextNode.1 ≠ CFG.CFGArgvBegin ∧ g.nextNode.1 ≠ CFG.CFGArgvEnd := by
  refine ⟨_, CFG.new_eq ndebug, rfl, rfl, rfl, rfl, rfl, ?_, ?_,
    ⟨rfl, rfl, rfl, rfl, rfl, rfl, rfl, rfl, rfl, rfl⟩, ?_⟩
  · intro i hi
    have h4 : i = 0 ∨ i = 1 ∨ i = 2 ∨ i = 3 := by
      rcases i with _ | _ | _ | _ | i
      · exact Or.inl rfl
      · exact Or.inr (Or.inl rfl)
      · exact Or.inr (Or.inr (Or.inl rfl))
      · exact Or.inr (Or.inr (Or.inr rfl))
      · exact absurd hi (by simp)
    rcases h4 with rfl | rfl | rfl | rfl
    · exact ⟨_, rfl, rfl, rfl, rfl, rfl, rfl, rfl, rfl⟩
    · exact ⟨_, rfl, rfl, rfl, rfl, rfl, rfl, rfl, rfl⟩
    · exact ⟨_, rfl, rfl, rfl, rfl, rfl, rfl, rfl, rfl⟩
    · exact ⟨_, rfl, rfl, rfl, rfl, rfl, rfl, rfl, rfl⟩
  · intro i hi
    rcases i with _ | _ | _ | _ | i
    · exact absurd hi (by decide)
    · exact absurd hi (by decide)
    · exact absurd hi (by decide)
    · exact absurd hi (by decide)
    · rfl
  · intro g hg
    have hlen := CFG.runOps_nodes_length ndebug cg hcg ops _ g hg
    have h4 : 4 ≤ g.nextNode.1 := hlen
    refine ⟨h4, ?_, ?_, ?_, ?_⟩
    · intro h; rw [h] at h4; exact absurd h4 (by decide)
    · intro h; rw [h] at h4; exact absurd h4 (by decide)
    · intro h; rw [h] at h4; exact absurd h4 (by decide)
    · intro h; rw [h] at h4; exact absurd h4 (by decide)

/-- C13 at a concrete input: the structural cleanup that removes nodes without
incident edges other than the four reserved points keeps the slots allocated,
and with it and the calls
`nextNode()`, `cleanup()`, `addIndirFcn(7, 2)` the constructor is seen to leave
four nodes. -/
theorem CFG.new_has_four_nodes_witness :
    (∀ seg seg2 : CFG.ControlFlowGraph,
      (fun s : CFG.ControlFlowGraph =>
        (Except.ok (s.cleanGraph (fun id => decide (id < 4))) : Except Abort _)) seg
        = .ok seg2 → seg.nodes_.length ≤ seg2.nodes_.length) ∧
    ∃ g0, CFG.new false = .ok g0 ∧ g0.CFG_.nodes_.length = 4 :=
  ⟨fun seg seg2 h => by
      simp only [Except.ok.injEq] at h
      subst h
      simp [CFG.ControlFlowGraph.cleanGraph],
   (CFG.new_has_four_nodes false (fun s => .ok (s.cleanGraph (fun id => decide (id < 4))))
      (fun seg seg2 h => by
        simp only [Except.ok.injEq] at h
        subst h
        simp [CFG.ControlFlowGraph.cleanGraph])
      [.nextNode, .cleanup, .addIndirFcn 7 2]).imp (fun _ h => ⟨h.1, h.2.1⟩)⟩

/-! ## Function entry and return points -/

theorem CFG.Op.lastStart_some_iff (f : ObjID) (ops : List CFG.Op) :
    (CFG.Op.lastStart f ops).isSome = true ↔ ∃ id, CFG.Op.addFunctionStart f id ∈ ops := by
  induction ops with
  | nil => simp [CFG.Op.lastStart]
  | cons op ops ih =>
    show ((CFG.Op.lastStart f ops).orElse (fun _ => CFG.Op.startOf f op)).isSome = true ↔ _
    cases hl : CFG.Op.lastStart f ops with
    | some id =>
      rw [hl] at ih
      obtain ⟨id2, hid2⟩ := ih.mp rfl
      simp only [Option.orElse, Option.isSome_some, true_iff]
      exact ⟨id2, List.mem_cons_of_mem _ hid2⟩
    | none =>
      rw [hl] at ih
      have hno : ¬ ∃ id, CFG.Op.addFunctionStart f id ∈ ops := fun h => by
        have := ih.mpr h
        simp at this
      simp only [Option.orElse]
      cases op <;> simp only [CFG.Op.startOf, List.mem_cons, Option.isSome_none,
        Bool.false_eq_true, false_iff, reduceCtorEq, false_or] <;> try exact hno
      case addFunctionStart f2 id2 =>
        by_cases hf : f2 = f
        · subst hf
          simp only [if_true, Option.isSome_some, true_iff]
          exact ⟨id2, Or.inl rfl⟩
        · simp only [hf, if_false, Option.isSome_none, Bool.false_eq_true, false_iff]
          rintro ⟨id, h | h⟩
          · simp only [CFG.Op.addFunctionStart.injEq] at h
            exact hf h.1.symm
          · exact hno ⟨id, h⟩

theorem CFG.Op.lastReturn_some_iff (f : ObjID) (ops : List CFG.Op) :
    (CFG.Op.lastReturn f ops).isSome = true ↔ ∃ id, CFG.Op.addFunctionReturn f id ∈ ops := by
  induction ops with
  | nil => simp [CFG.Op.lastReturn]
  | cons op ops ih =>
    show ((CFG.Op.lastReturn f ops).orElse (fun _ => CFG.Op.returnOf f op)).isSome = true ↔ _
    cases hl : CFG.Op.lastReturn f ops with
    | some id =>
      rw [hl] at ih
      obtain ⟨id2, hid2⟩ := ih.mp rfl
      simp only [Option.orElse, Option.isSome_some, true_iff]
      exact ⟨id2, List.mem_cons_of_mem _ hid2⟩
    | none =>
      rw [hl] at ih
      have hno : ¬ ∃ id, CFG.Op.addFunctionReturn f id ∈ ops := fun h => by
        have := ih.mpr h
        simp at this
      simp only [Option.orElse]
      cases op <;> simp only [CFG.Op.returnOf, List.mem_cons, Option.isSome_none,
        Bool.false_eq_true, false_iff, reduceCtorEq, false_or] <;> try exact hno
      case addFunctionReturn f2 id2 =>
        by_cases hf : f2 = f
        · subst hf
          simp only [if_true, Option.isSome_some, true_iff]
          exact ⟨id2, Or.inl rfl⟩
        · simp only [hf, if_false, Option.isSome_none, Bool.false_eq_true, false_iff]
          rintro ⟨id, h | h⟩
          · simp only [CFG.Op.addFunctionReturn.injEq] at h
            exact hf h.1.symm
          · exact hno ⟨id, h⟩

/-- The entry table after a sequence of mutator calls. -/
theorem CFG.runOps_entries (ndebug : Bool)
    (cg : CFG.ControlFlowGraph → Except Abort CFG.ControlFlowGraph)
    (f : ObjID) (ops : List CFG.Op) (g g2 : CFG)
    (h : CFG.runOps ndebug cg g ops = .ok g2) :
    (∀ id, CFG.Op.lastStart f ops = some id →
      StdMap.find g2.cfgFunctionEntries_ f = some (f, id)) ∧
    (CFG.Op.lastStart f ops = none →
      StdMap.find g2.cfgFunctionEntries_ f = StdMap.find g.cfgFunctionEntries_ f) := by
  induction ops generalizing g with
  | nil =>
    simp only [CFG.runOps, Except.ok.injEq] at h
    subst h
    simp [CFG.Op.lastStart]
  | cons op ops ih =>
    unfold CFG.runOps at h
    cases h1 : op.apply ndebug cg g with
    | error e => simp [h1, bind, Except.bind] at h
    | ok g1 =>
      simp only [h1, bind, Except.bind] at h
      obtain ⟨ihs, ihn⟩ := ih g1 h
      have ht := (CFG.Op.apply_tables ndebug cg op g g1 h1).2.1
      have hcons : CFG.Op.lastStart f (op :: ops) =
          (CFG.Op.lastStart f ops).orElse (fun _ => CFG.Op.startOf f op) := rfl
      rw [hcons]
      cases hl : CFG.Op.lastStart f ops with
      | some id0 =>
        constructor
        · intro id hid
          simp only [Option.orElse, Option.some.injEq] at hid
          subst hid
          exact ihs id0 hl
        · intro hn
          simp [Option.orElse] at hn
      | none =>
        rw [ihn hl, ht]
        simp only [Option.orElse]
        cases op
        case addFunctionStart f2 id2 =>
          by_cases hf : f2 = f
          · subst hf
            simp only [CFG.Op.startOf, if_true, Option.some.injEq, reduceCtorEq, false_implies,
              and_true]
            intro id hid
            subst hid
            exact StdMap.find_assign_self g.cfgFunctionEntries_ f2 id2
          · simp only [CFG.Op.startOf, hf, if_false, reduceCtorEq, false_implies, implies_true,
              true_and]
            intro _
            exact StdMap.find_assign_ne g.cfgFunctionEntries_ f2 f id2 (fun h => hf h.symm)
        all_goals simp [CFG.Op.startOf]

/-- The return table after a sequence of mutator calls. -/
theorem CFG.runOps_returns (ndebug : Bool)
    (cg : CFG.ControlFlowGraph → Except Abort CFG.ControlFlowGraph)
    (f : ObjID) (ops : List CFG.Op) (g g2 : CFG)
    (h : CFG.runOps ndebug cg g ops = .ok g2) :
    (∀ id, CFG.Op.lastReturn f ops = some id →
      StdMap.find g2.cfgFunctionReturns_ f = some (f, id)) ∧
    (CFG.Op.lastReturn f ops = none →
      StdMap.find g2.cfgFunctionReturns_ f = StdMap.find g.cfgFunctionReturns_ f) := by
  induction ops generalizing g with
  | nil =>
    simp only [CFG.runOps, Except.ok.injEq] at h
    subst h
    simp [CFG.Op.lastReturn]
  | cons op ops ih =>
    unfold CFG.runOps at h
    cases h1 : op.apply ndebug cg g with
    | error e => simp [h1, bind, Except.bind] at h
    | ok g1 =>
      simp only [h1, bind, Except.bind] at h
      obtain ⟨ihs, ihn⟩ := ih g1 h
      have ht := (CFG.Op.apply_tables ndebug cg op g g1 h1).2.2.1
      have hcons : CFG.Op.lastReturn f (op :: ops) =
          (CFG.Op.lastReturn f ops).orElse (fun _ => CFG.Op.returnOf f op) := rfl
      rw [hcons]
      cases hl : CFG.Op.lastReturn f ops with
      | some id0 =>
        constructor
        · intro id hid
          simp only [Option.orElse, Option.some.injEq] at hid
          subst hid
          exact ihs id0 hl
        · intro hn
          simp [Option.orElse] at hn
      | none =>
        rw [ihn hl, ht]
        simp only [Option.orElse]
        cases op
        case addFunctionReturn f2 id2 =>
          by_cases hf : f2 = f
          · subst hf
            simp only [CFG.Op.returnOf, if_true, Option.some.injEq, reduceCtorEq, false_implies,
              and_true]
            intro id hid
            subst hid
            exact StdMap.find_assign_self g.cfgFunctionReturns_ f2 id2
          · simp only [CFG.Op.returnOf, hf, if_false, reduceCtorEq, false_implies, implies_true,
              true_and]
            intro _
            exact StdMap.find_assign_ne g.cfgFunctionReturns_ f2 f id2 (fun h => hf h.symm)
        all_goals simp [CFG.Op.returnOf]

/-- C17: in the graph `g` that a sequence `ops` of mutator calls leaves when run
on a freshly constructed `CFG`, `hasFunctionStart(f)` is true if and only if
`addFunctionStart(f, _)` is among the calls; `getFunctionStart(f)` then returns
the point of the most recent such call, and it fails when `hasFunctionStart(f)`
is false.  The same holds for `addFunctionReturn`, `hasFunctionReturn` and
`getFunctionReturn`.  A further `addFunctionStart(f, id)` changes no return
point and no entry of another function, and a further `addFunctionReturn`
changes no entry point and no return point of another function. -/
theorem CFG.function_entry_tables (ndebug : Bool)
    (cg : CFG.ControlFlowGraph → Except Abort CFG.ControlFlowGraph)
    (ops : List CFG.Op) (g0 g : CFG) (f : ObjID)
    (h0 : CFG.new ndebug = .ok g0) (hrun : CFG.runOps ndebug cg g0 ops = .ok g) :
    (g.hasFunctionStart f = true ↔ ∃ id, CFG.Op.addFunctionStart f id ∈ ops) ∧
    (∀ id, CFG.Op.lastStart f ops = some id → g.getFunctionStart f = .ok id) ∧
    (g.hasFunctionStart f = false → g.getFunctionStart f = .error .outOfRange) ∧
    (g.hasFunctionReturn f = true ↔ ∃ id, CFG.Op.addFunctionReturn f id ∈ ops) ∧
    (∀ id, CFG.Op.lastReturn f ops = some id → g.getFunctionReturn f = .ok id) ∧
    (g.hasFunctionReturn f = false → g.getFunctionReturn f = .error .outOfRange) ∧
    (∀ id f2,
      (g.addFunctionStart f id).getFunctionStart f = .ok id ∧
      (g.addFunctionStart f id).getFunctionReturn f2 = g.getFunctionReturn f2 ∧
      (g.addFunctionStart f id).hasFunctionReturn f2 = g.hasFunctionReturn f2 ∧
      (f2 ≠ f →
        (g.addFunctionStart f id).getFunctionStart f2 = g.getFunctionStart f2 ∧
        (g.addFunctionStart f id).hasFunctionStart f2 = g.hasFunctionStart f2)) ∧
    (∀ id f2,
      (g.addFunctionReturn f id).getFunctionReturn f = .ok id ∧
      (g.addFunctionReturn f id).getFunctionStart f2 = g.getFunctionStart f2 ∧
      (g.addFunctionReturn f id).hasFunctionStart f2 = g.hasFunctionStart f2 ∧
      (f2 ≠ f →
        (g.addFunctionReturn f id).getFunctionReturn f2 = g.getFunctionReturn f2 ∧
        (g.addFunctionReturn f id).hasFunctionReturn f2 = g.hasFunctionReturn f2)) := by
  have hg0 : g0.cfgFunctionEntries_ = [] ∧ g0.cfgFunctionReturns_ = [] := by
    rw [CFG.new_eq] at h0
    simp only [Except.ok.injEq] at h0
    subst h0
    exact ⟨rfl, rfl⟩
  obtain ⟨hes, hen⟩ := CFG.runOps_entries ndebug cg f ops g0 g hrun
  obtain ⟨hrs, hrn⟩ := CFG.runOps_returns ndebug cg f ops g0 g hrun
  have hstart : g.hasFunctionStart f = (CFG.Op.lastStart f ops).isSome := by
    unfold CFG.hasFunctionStart
    cases hl : CFG.Op.lastStart f ops with
    | some id => rw [hes id hl]; rfl
    | none => rw [hen hl, hg0.1]; rfl
  have hret : g.hasFunctionReturn f = (CFG.Op.lastReturn f ops).isSome := by
    unfold CFG.hasFunctionReturn
    cases hl : CFG.Op.lastReturn f ops with
    | some id => rw [hrs id hl]; rfl
    | none => rw [hrn hl, hg0.2]; rfl
  refine ⟨?_, ?_, ?_, ?_, ?_, ?_, ?_, ?_⟩
  · rw [hstart]
    exact CFG.Op.lastStart_some_iff f ops
  · intro id hid
    exact StdMap.at_eq _ f _ (hes id hid)
  · intro hf
    unfold CFG.hasFunctionStart at hf
    unfold CFG.getFunctionStart StdMap.at
    cases hx : StdMap.find g.cfgFunctionEntries_ f with
    | some p => simp [hx] at hf
    | none => rfl
  · rw [hret]
    exact CFG.Op.lastReturn_some_iff f ops
  · intro id hid
    exact StdMap.at_eq _ f _ (hrs id hid)
  · intro hf
    unfold CFG.hasFunctionReturn at hf
    unfold CFG.getFunctionReturn StdMap.at
    cases hx : StdMap.find g.cfgFunctionReturns_ f with
    | some p => simp [hx] at hf
    | none => rfl
  · intro id f2
    refine ⟨?_, rfl, rfl, ?_⟩
    · exact StdMap.at_eq _ f _ (StdMap.find_assign_self g.cfgFunctionEntries_ f id)
    · intro hf2
      have := StdMap.find_assign_ne g.cfgFunctionEntries_ f f2 id hf2
      simp [CFG.getFunctionStart, CFG.hasFunctionStart, CFG.addFunctionStart, StdMap.at, this]
  · intro id f2
    refine ⟨?_, rfl, rfl, ?_⟩
    · exact StdMap.at_eq _ f _ (StdMap.find_assign_self g.cfgFunctionReturns_ f id)
    · intro hf2
      have := StdMap.find_assign_ne g.cfgFunctionReturns_ f f2 id hf2
      simp [CFG.getFunctionReturn, CFG.hasFunctionReturn, CFG.addFunctionReturn, StdMap.at,
        this]

/-- C17 at a concrete input: after `addFunctionStart(7, 4)`, `nextNode()` and
`addFunctionStart(7, 2)` on a fresh graph, `getFunctionStart(7)` is the point 2
of the later call. -/
theorem CFG.function_entry_tables_witness :
    ∃ g0 g, CFG.new false = .ok g0 ∧
      CFG.runOps false (fun s => .ok (s.cleanGraph (fun id => decide (id < 4)))) g0
        [.addFunctionStart 7 4, .nextNode, .addFunctionStart 7 2] = .ok g ∧
      g.getFunctionStart 7 = .ok 2 ∧ g.hasFunctionReturn 7 = false :=
  (fun (g0 g : CFG) (h0 : CFG.new false = .ok g0)
      (hrun : CFG.runOps false (fun s => .ok (s.cleanGraph (fun id => decide (id < 4)))) g0
        [.addFunctionStart 7 4, .nextNode, .addFunctionStart 7 2] = .ok g)
      (hr : g.hasFunctionReturn 7 = false) =>
    ⟨g0, g, h0, hrun,
      (CFG.function_entry_tables false (fun s => .ok (s.cleanGraph (fun id => decide (id < 4))))
        [.addFunctionStart 7 4, .nextNode, .addFunctionStart 7 2] g0 g 7 h0 hrun).2.1 2 rfl,
      hr⟩)
    { CFG.blank with
      CFG_ := { nodes_ := (List.range 4).map (fun i => some (CFG.Node.new i).setM.setR) } }
    { CFG.blank with
      CFG_ := { nodes_ := (List.range 4).map (fun i => some (CFG.Node.new i).setM.setR)
                  ++ [some (CFG.Node.new 4)] },
      cfgFunctionEntries_ := [(7, 2)] }
    rfl rfl rfl

/-! ## Cleanup -/

/-- C19 (as stated, refuted): on a fresh graph `nextNode()` adds the point 4,
which has no incident edge; then `addFunctionStart(7, 4)` and
`addCallsite(4, 7, 4)` make the function-entry table and the call tables name
it, and leave the node graph as it was.  The structural cleanup of the spec,
which keeps the four reserved points, removes the point 4 from the graph in
which no table names it.  `cleanup()` hands the node graph alone to the
structural cleanup, so whatever the structural cleanup is, when it removes the
point 4 there it removes the point 4 as well where the tables name it, and the
tables name it still. -/
theorem CFG.cleanup_prunes_referenced_node :
    ∃ g0 gB gA, CFG.new false = .ok g0 ∧ g0.nextNode = (4, gB) ∧
      gA = (gB.addFunctionStart 7 4).addCallsite 4 7 4 ∧
      gA.getFunctionStart 7 = .ok 4 ∧ gA.getCallSuccessor 4 = .ok 4 ∧
      gA.CFG_ = gB.CFG_ ∧
      gB = { CFG.blank with CFG_ := gB.CFG_ } ∧
      (∃ n, gA.getNode 4 = .ok n ∧ n.preds_ = [] ∧ n.succs_ = []) ∧
      (∃ g2, gB.cleanup (fun seg => .ok (seg.cleanGraph (fun id => decide (id < 4)))) = .ok g2 ∧
        g2.getNode 4 = .error .badHandle ∧
        (∀ i, i < 4 → (g2.getNode i).toBool = true)) ∧
      (∀ (cg : CFG.ControlFlowGraph → Except Abort CFG.ControlFlowGraph) (g2 : CFG),
        gB.cleanup cg = .ok g2 → g2.getNode 4 = .error .badHandle →
        ∃ g3, gA.cleanup cg = .ok g3 ∧ g3.getNode 4 = .error .badHandle ∧
          g3.getFunctionStart 7 = .ok 4 ∧ g3.getCallSuccessor 4 = .ok 4) :=
  ⟨{ CFG.blank with
      CFG_ := { nodes_ := (List.range 4).map (fun i => some (CFG.Node.new i).setM.setR) } },
   { CFG.blank with
      CFG_ := { nodes_ := (List.range 4).map (fun i => some (CFG.Node.new i).setM.setR)
                  ++ [some (CFG.Node.new 4)] } },
   { CFG.blank with
      CFG_ := { nodes_ := (List.range 4).map (fun i => some (CFG.Node.new i).setM.setR)
                  ++ [some (CFG.Node.new 4)] },
      cfgDirCallsites_ := [(4, [7])],
      cfgCallSuccessors_ := [(4, 4)],
      cfgFunctionEntries_ := [(7, 4)] },
   rfl, rfl, rfl, rfl, rfl, rfl, rfl, ⟨CFG.Node.new 4, rfl, rfl, rfl⟩,
   ⟨{ CFG.blank with
      CFG_ := { nodes_ := (List.range 4).map (fun i => some (CFG.Node.new i).setM.setR)
                  ++ [none] } }, rfl, rfl, by decide⟩,
   fun cg g2 h2 hn => by
     unfold CFG.cleanup at h2 ⊢
     simp only at h2 ⊢
     cases hc : cg { nodes_ := (List.range 4).map (fun i => some (CFG.Node.new i).setM.setR)
                  ++ [some (CFG.Node.new 4)] } with
     | error e =>
       rw [hc] at h2
       cases h2
     | ok seg =>
       rw [hc] at h2
       simp only [bind, Except.bind, pure, Except.pure, Except.ok.injEq] at h2
       subst h2
       exact ⟨_, rfl, hn, rfl, rfl⟩⟩

/-- C19 (amended): `cleanup()` hands the node graph to the structural cleanup
of the graph engine and does nothing else.  It consults no side table: it
fails exactly when the structural cleanup fails, every side table is the same
after it, the node graph after it is the structural cleanup of the node graph
before it, and two `CFG`s with the same node graph get the same node graph
whatever their side tables hold.  So a node named by a side table is live
after `cleanup()` exactly when the structural cleanup keeps it. -/
theorem CFG.cleanup_delegates
    (cg : CFG.ControlFlowGraph → Except Abort CFG.ControlFlowGraph) (g gB : CFG) :
    g.cleanup cg = (cg g.CFG_).map (fun seg => { g with CFG_ := seg }) ∧
    (∀ e, cg g.CFG_ = .error e → g.cleanup cg = .error e) ∧
    (∀ seg, cg g.CFG_ = .ok seg →
      ∃ g2, g.cleanup cg = .ok g2 ∧ g2.CFG_ = seg ∧
        (∀ i, g2.getNode i = seg.getNode i) ∧
        g2.cfgFcnToCallRet_ = g.cfgFcnToCallRet_ ∧
        g2.cfgDirCallsites_ = g.cfgDirCallsites_ ∧
        g2.indirectCalls_ = g.indirectCalls_ ∧
        g2.indirFcns_ = g.indirFcns_ ∧
        g2.cfgCallSuccessors_ = g.cfgCallSuccessors_ ∧
        g2.cfgFunctionEntries_ = g.cfgFunctionEntries_ ∧
        g2.cfgFunctionReturns_ = g.cfgFunctionReturns_ ∧
        g2.globalInits_ = g.globalInits_ ∧
        g2.objToCFG_ = g.objToCFG_ ∧
        g2.unusedFunctions_ = g.unusedFunctions_) ∧
    (gB.CFG_ = g.CFG_ →
      (gB.cleanup cg).map (fun r => r.CFG_) = (g.cleanup cg).map (fun r => r.CFG_)) := by
  have hmap : ∀ x : CFG, x.cleanup cg = (cg x.CFG_).map (fun seg => { x with CFG_ := seg }) := by
    intro x
    unfold CFG.cleanup
    cases cg x.CFG_ <;> rfl
  refine ⟨hmap g, ?_, ?_, ?_⟩
  · intro e he
    rw [hmap, he]
    rfl
  · intro seg hs
    refine ⟨{ g with CFG_ := seg }, ?_, rfl, fun _ => rfl, rfl, rfl, rfl, rfl, rfl, rfl, rfl,
      rfl, rfl, rfl⟩
    rw [hmap, hs]
    rfl
  · intro hB
    rw [hmap, hmap, hB]
    cases cg g.CFG_ <;> rfl

/-! ## The order on constraints -/

theorem Constraint.lt_iff (segLt : SEGEdge → SEGEdge → Bool) (a b : Constraint) :
    Constraint.lt segLt a b = true ↔
      a.offs < b.offs ∨ (a.offs = b.offs ∧
        (a.type.val < b.type.val ∨
          (a.type = b.type ∧ segLt a.toSEGEdge b.toSEGEdge = true))) := by
  unfold Constraint.lt
  by_cases h1 : a.offs = b.offs
  · by_cases h2 : a.type = b.type
    · simp [h1, h2]
    · have hv : a.type.val ≠ b.type.val := fun h => h2 (ConstraintType.val_injective _ _ h)
      simp [h1, h2]
  · simp only [ne_eq, h1, not_false_eq_true, if_true, decide_eq_true_eq, false_and, or_false]

theorem Constraint.eq_iff (segEq : SEGEdge → SEGEdge → Bool) (a b : Constraint) :
    Constraint.eq segEq a b = true ↔
      a.offs = b.offs ∧ a.type = b.type ∧ segEq a.toSEGEdge b.toSEGEdge = true := by
  unfold Constraint.eq
  by_cases h1 : a.offs = b.offs
  · by_cases h2 : a.type = b.type
    · simp [h1, h2]
    · simp [h1, h2]
  · simp [h1]

/-- C27: when the generic `SEGEdge` order is irreflexive and transitive and two
generic edges are equal exactly when neither is less than the other,
`operator<` of `Constraint` is a strict total order (irreflexive, asymmetric,
transitive, and of two edges one is less or they are equal), and `operator==`
holds exactly when neither edge is less than the other, which is exactly when
offsets, types and generic edges are equal. -/
theorem Constraint.lt_strict_total (segLt segEq : SEGEdge → SEGEdge → Bool)
    (hirr : ∀ e, segLt e e = false)
    (htrans : ∀ e1 e2 e3, segLt e1 e2 = true → segLt e2 e3 = true → segLt e1 e3 = true)
    (heq : ∀ e1 e2, segEq e1 e2 = true ↔ (segLt e1 e2 = false ∧ segLt e2 e1 = false))
    (a b c : Constraint) :
    Constraint.lt segLt a a = false ∧
    (Constraint.lt segLt a b = true → Constraint.lt segLt b a = false) ∧
    (Constraint.lt segLt a b = true → Constraint.lt segLt b c = true →
      Constraint.lt segLt a c = true) ∧
    (Constraint.lt segLt a b = true ∨ Constraint.lt segLt b a = true ∨
      Constraint.eq segEq a b = true) ∧
    (Constraint.eq segEq a b = true ↔
      (Constraint.lt segLt a b = false ∧ Constraint.lt segLt b a = false)) ∧
    (Constraint.eq segEq a b = true ↔
      a.offs = b.offs ∧ a.type = b.type ∧ segEq a.toSEGEdge b.toSEGEdge = true) := by
  have hasym : ∀ e1 e2, segLt e1 e2 = true → segLt e2 e1 = false := by
    intro e1 e2 h12
    cases h21 : segLt e2 e1
    · rfl
    · have := htrans e1 e2 e1 h12 h21
      rw [hirr] at this
      cases this
  have hnot : ∀ x y : Constraint, Constraint.lt segLt x y = false ↔
      ¬ (x.offs < y.offs ∨ (x.offs = y.offs ∧
        (x.type.val < y.type.val ∨
          (x.type = y.type ∧ segLt x.toSEGEdge y.toSEGEdge = true)))) := by
    intro x y
    rw [← Constraint.lt_iff]
    simp
  refine ⟨?_, ?_, ?_, ?_, ?_, Constraint.eq_iff segEq a b⟩
  · rw [hnot]
    rintro (h | ⟨_, h | ⟨_, h⟩⟩)
    · exact lt_irrefl _ h
    · exact lt_irrefl _ h
    · rw [hirr] at h
      cases h
  · intro hab
    rw [Constraint.lt_iff] at hab
    rw [hnot]
    rintro (h | ⟨ho, h | ⟨ht, h⟩⟩)
    · rcases hab with h2 | ⟨h2, _⟩
      · exact lt_asymm h h2
      · rw [h2] at h
        exact lt_irrefl _ h
    · rcases hab with h2 | ⟨_, h2 | ⟨h2, _⟩⟩
      · rw [ho] at h2
        exact lt_irrefl _ h2
      · exact lt_asymm h h2
      · rw [h2] at h
        exact lt_irrefl _ h
    · rcases hab with h2 | ⟨_, h2 | ⟨_, h2⟩⟩
      · rw [ho] at h2
        exact lt_irrefl _ h2
      · rw [ht] at h2
        exact lt_irrefl _ h2
      · rw [hasym _ _ h2] at h
        cases h
  · intro hab hbc
    rw [Constraint.lt_iff] at hab hbc ⊢
    rcases hab with h1 | ⟨ho1, h1⟩
    · rcases hbc with h2 | ⟨ho2, _⟩
      · exact Or.inl (lt_trans h1 h2)
      · exact Or.inl (ho2 ▸ h1)
    · rcases hbc with h2 | ⟨ho2, h2⟩
      · exact Or.inl (ho1 ▸ h2)
      · refine Or.inr ⟨ho1.trans ho2, ?_⟩
        rcases h1 with h1 | ⟨ht1, h1⟩
        · rcases h2 with h2 | ⟨ht2, _⟩
          · exact Or.inl (lt_trans h1 h2)
          · exact Or.inl (ht2 ▸ h1)
        · rcases h2 with h2 | ⟨ht2, h2⟩
          · exact Or.inl (ht1 ▸ h2)
          · exact Or.inr ⟨ht1.trans ht2, htrans _ _ _ h1 h2⟩
  · rw [Constraint.lt_iff, Constraint.lt_iff, Constraint.eq_iff]
    rcases lt_trichotomy a.offs b.offs with ho | ho | ho
    · exact Or.inl (Or.inl ho)
    · rcases lt_trichotomy a.type.val b.type.val with ht | ht | ht
      · exact Or.inl (Or.inr ⟨ho, Or.inl ht⟩)
      · have hty := ConstraintType.val_injective _ _ ht
        cases h1 : segLt a.toSEGEdge b.toSEGEdge
        · cases h2 : segLt b.toSEGEdge a.toSEGEdge
          · exact Or.inr (Or.inr ⟨ho, hty, (heq _ _).mpr ⟨h1, h2⟩⟩)
          · exact Or.inr (Or.inl (Or.inr ⟨ho.symm, Or.inr ⟨hty.symm, rfl⟩⟩))
        · exact Or.inl (Or.inr ⟨ho, Or.inr ⟨hty, rfl⟩⟩)
      · exact Or.inr (Or.inl (Or.inr ⟨ho.symm, Or.inl ht⟩))
    · exact Or.inr (Or.inl (Or.inl ho))
  · rw [Constraint.eq_iff, hnot, hnot]
    constructor
    · rintro ⟨ho, ht, he⟩
      obtain ⟨h1, h2⟩ := (heq _ _).mp he
      constructor
      · rintro (h | ⟨_, h | ⟨_, h⟩⟩)
        · rw [ho] at h
          exact lt_irrefl _ h
        · rw [ht] at h
          exact lt_irrefl _ h
        · rw [h1] at h
          cases h
      · rintro (h | ⟨_, h | ⟨_, h⟩⟩)
        · rw [ho] at h
          exact lt_irrefl _ h
        · rw [ht] at h
          exact lt_irrefl _ h
        · rw [h2] at h
          cases h
    · rintro ⟨hab, hba⟩
      have ho : a.offs = b.offs := by
        rcases lt_trichotomy a.offs b.offs with h | h | h
        · exact absurd (Or.inl h) hab
        · exact h
        · exact absurd (Or.inl h) hba
      have ht : a.type = b.type := by
        rcases lt_trichotomy a.type.val b.type.val with h | h | h
        · exact absurd (Or.inr ⟨ho, Or.inl h⟩) hab
        · exact ConstraintType.val_injective _ _ h
        · exact absurd (Or.inr ⟨ho.symm, Or.inl h⟩) hba
      refine ⟨ho, ht, (heq _ _).mpr ⟨?_, ?_⟩⟩
      · cases h : segLt a.toSEGEdge b.toSEGEdge
        · rfl
        · exact absurd (Or.inr ⟨ho, Or.inr ⟨ht, h⟩⟩) hab
      · cases h : segLt b.toSEGEdge a.toSEGEdge
        · rfl
        · exact absurd (Or.inr ⟨ho.symm, Or.inr ⟨ht.symm, h⟩⟩) hba

theorem SEGEdge.lt_iff_key (a b : SEGEdge) :
    SEGEdge.lt a b = true ↔ a.src < b.src ∨ (a.src = b.src ∧ a.dest < b.dest) := by
  unfold SEGEdge.lt
  by_cases h : a.src = b.src
  · simp [h]
  · simp [h]

theorem SEGEdge.lt_irrefl_generic (e : SEGEdge) : SEGEdge.lt e e = false := by
  simp [SEGEdge.lt]

theorem SEGEdge.lt_trans_generic (e1 e2 e3 : SEGEdge) (h1 : SEGEdge.lt e1 e2 = true)
    (h2 : SEGEdge.lt e2 e3 = true) : SEGEdge.lt e1 e3 = true := by
  rw [SEGEdge.lt_iff_key] at h1 h2 ⊢
  rcases h1 with h1 | ⟨hs1, h1⟩
  · rcases h2 with h2 | ⟨hs2, _⟩
    · exact Or.inl (Nat.lt_trans h1 h2)
    · exact Or.inl (hs2 ▸ h1)
  · rcases h2 with h2 | ⟨hs2, h2⟩
    · exact Or.inl (hs1 ▸ h2)
    · exact Or.inr ⟨hs1.trans hs2, Nat.lt_trans h1 h2⟩

theorem SEGEdge.eq_iff_not_lt (e1 e2 : SEGEdge) :
    SEGEdge.eq e1 e2 = true ↔ (SEGEdge.lt e1 e2 = false ∧ SEGEdge.lt e2 e1 = false) := by
  have hn : ∀ x y : SEGEdge, SEGEdge.lt x y = false ↔
      ¬ (x.src < y.src ∨ (x.src = y.src ∧ x.dest < y.dest)) := by
    intro x y
    rw [← SEGEdge.lt_iff_key]
    simp
  rw [hn, hn]
  simp only [SEGEdge.eq, Bool.and_eq_true, decide_eq_true_eq]
  constructor
  · rintro ⟨hs, hd⟩
    constructor
    · rintro (h | ⟨_, h⟩)
      · exact absurd (hs ▸ h) (Nat.lt_irrefl _)
      · exact absurd (hd ▸ h) (Nat.lt_irrefl _)
    · rintro (h | ⟨_, h⟩)
      · exact absurd (hs ▸ h) (Nat.lt_irrefl _)
      · exact absurd (hd ▸ h) (Nat.lt_irrefl _)
  · rintro ⟨h1, h2⟩
    have hs : e1.src = e2.src := by
      rcases Nat.lt_trichotomy e1.src e2.src with h | h | h
      · exact absurd (Or.inl h) h1
      · exact h
      · exact absurd (Or.inl h) h2
    refine ⟨hs, ?_⟩
    rcases Nat.lt_trichotomy e1.dest e2.dest with h | h | h
    · exact absurd (Or.inr ⟨hs, h⟩) h1
    · exact h
    · exact absurd (Or.inr ⟨hs.symm, h⟩) h2

/-- C27 at a concrete input: the generic order on node pairs satisfies the
three conditions, and with it the edge from 0 to 1 with type `Copy` and offset
0 is less than the same edge with type `Load`. -/
theorem Constraint.lt_strict_total_witness :
    (∀ e, SEGEdge.lt e e = false) ∧
    Constraint.lt SEGEdge.lt (Constraint.mk4 0 1 .Copy 0) (Constraint.mk4 0 1 .Load 0) = true ∧
    Constraint.lt SEGEdge.lt (Constraint.mk4 0 1 .Load 0) (Constraint.mk4 0 1 .Copy 0) = false :=
  ⟨SEGEdge.lt_irrefl_generic, by decide,
   (Constraint.lt_strict_total SEGEdge.lt SEGEdge.eq SEGEdge.lt_irrefl_generic
     SEGEdge.lt_trans_generic SEGEdge.eq_iff_not_lt
     (Constraint.mk4 0 1 .Copy 0) (Constraint.mk4 0 1 .Load 0) (Constraint.mk4 0 1 .Load 0)).2.1
     (by decide)⟩

/-! ## Copy construction -/

/-- C30: the copy `CFG(g)` has the node graph that `clone` makes of the node
graph of `g`, and every side table of it is empty whatever the side tables of
`g` hold: the index, the direct and indirect call sites, the call successors,
the function entries and returns, the candidate lists, the call/return pairs,
the global-init list and the unused-function registry.  So `hasFunctionStart`,
`hasFunctionReturn` and `haveIndirFcn` are false on the copy for every `f`, and
`getCFGid(f)` finds nothing. -/
theorem CFG.copy_side_tables_empty
    (clone : CFG.ControlFlowGraph → CFG.ControlFlowGraph) (g : CFG) (f : ObjID) :
    (CFG.copy clone g).CFG_ = clone g.CFG_ ∧
    (CFG.copy clone g).objToCFG_ = [] ∧
    (CFG.copy clone g).cfgDirCallsites_ = [] ∧
    (CFG.copy clone g).indirectCalls_ = [] ∧
    (CFG.copy clone g).cfgCallSuccessors_ = [] ∧
    (CFG.copy clone g).cfgFunctionEntries_ = [] ∧
    (CFG.copy clone g).cfgFunctionReturns_ = [] ∧
    (CFG.copy clone g).indirFcns_ = [] ∧
    (CFG.copy clone g).cfgFcnToCallRet_ = [] ∧
    (CFG.copy clone g).globalInits_ = [] ∧
    (CFG.copy clone g).unusedFunctions_ = [] ∧
    (CFG.copy clone g).hasFunctionStart f = false ∧
    (CFG.copy clone g).hasFunctionReturn f = false ∧
    (CFG.copy clone g).haveIndirFcn f = false ∧
    (CFG.copy clone g).getCFGid f = .error .outOfRange :=
  ⟨rfl, rfl, rfl, rfl, rfl, rfl, rfl, rfl, rfl, rfl, rfl, rfl, rfl, rfl, rfl⟩

/-! ## Def and use sets against the index -/

theorem CFG.ControlFlowGraph.getNode_setNode_ne (g : CFG.ControlFlowGraph) (i j : NodeID)
    (n1 : CFG.Node) (h : j ≠ i) : (g.setNode i n1).getNode j = g.getNode j := by
  unfold CFG.ControlFlowGraph.getNode CFG.ControlFlowGraph.setNode
  simp only []
  rw [List.getElem?_set_ne (fun h2 => h h2.symm)]

theorem CFG.ControlFlowGraph.list_set_same {α : Type} (l : List α) (i : Nat) (a : α)
    (h : l[i]? = some a) : l.set i a = l := by
  induction l generalizing i with
  | nil => rfl
  | cons x xs ih =>
    cases i with
    | zero =>
      simp only [List.getElem?_cons_zero, Option.some.injEq] at h
      subst h
      rfl
    | succ j =>
      simp only [List.getElem?_cons_succ] at h
      simp only [List.set_cons_succ, ih j h]

theorem CFG.ControlFlowGraph.setNode_same (g : CFG.ControlFlowGraph) (i : NodeID)
    (n : CFG.Node) (h : g.getNode i = .ok n) : g.setNode i n = g := by
  unfold CFG.ControlFlowGraph.getNode at h
  unfold CFG.ControlFlowGraph.setNode
  have hs : g.nodes_[i]? = some (some n) := by
    cases hx : g.nodes_[i]? with
    | none => simp [hx] at h
    | some o =>
      cases o with
      | none => simp [hx] at h
      | some m =>
        simp only [hx, Except.ok.injEq] at h
        rw [h]
  rw [CFG.ControlFlowGraph.list_set_same g.nodes_ i (some n) hs]

theorem CFG.Node.addDef_node (ndebug : Bool) (n n1 : CFG.Node) (x : ObjID) (b : Bool)
    (h : n.addDef ndebug x = .ok (b, n1)) :
    n1 = { n with defs_ := (StdSet.insert n.defs_ x).1 } ∧ b = (StdSet.insert n.defs_ x).2 := by
  unfold CFG.Node.addDef at h
  cases hc : cassert ndebug (StdSet.insert n.defs_ x).2 with
  | error e => simp [hc, bind, Except.bind] at h
  | ok u =>
    simp only [hc, bind, Except.bind, pure, Except.pure, Except.ok.injEq, Prod.mk.injEq] at h
    exact ⟨h.2.symm, h.1.symm⟩

theorem CFG.Node.addUse_node (ndebug : Bool) (n n1 : CFG.Node) (x : ObjID) (b : Bool)
    (h : n.addUse ndebug x = .ok (b, n1)) :
    n1 = { n with uses_ := (StdSet.insert n.uses_ x).1 } ∧ b = (StdSet.insert n.uses_ x).2 := by
  unfold CFG.Node.addUse at h
  cases hc : cassert ndebug (StdSet.insert n.uses_ x).2 with
  | error e => simp [hc, bind, Except.bind] at h
  | ok u =>
    simp only [hc, bind, Except.bind, pure, Except.pure, Except.ok.injEq, Prod.mk.injEq] at h
    exact ⟨h.2.symm, h.1.symm⟩

theorem StdMap.emplace_true_absent {V : Type} (m : List (Nat × V)) (k : Nat) (v : V)
    (h : (StdMap.emplace m k v).2 = true) : StdMap.find m k = none := by
  cases hf : StdMap.find m k with
  | none => rfl
  | some p =>
    rw [StdMap.emplace_present m k v p hf] at h
    cases h

theorem StdMap.emplace_false {V : Type} (m : List (Nat × V)) (k : Nat) (v : V)
    (h : (StdMap.emplace m k v).2 = false) : (StdMap.emplace m k v).1 = m := by
  unfold StdMap.emplace at h ⊢
  cases hf : StdMap.find m k with
  | none => simp [hf] at h
  | some p => rfl

/-- The invariant of C28: an `ObjID` in the def or use set of a point is indexed
at that point, and no `ObjID` is in both sets of one point. -/
theorem CFG.RegReachable.sets_indexed (ndebug : Bool) (g : CFG)
    (hr : CFG.RegReachable ndebug g) :
    (∀ P n x, g.getNode P = .ok n → (x ∈ n.defs_ ∨ x ∈ n.uses_) →
      StdMap.find g.objToCFG_ x = some (x, P)) ∧
    (∀ P n x, g.getNode P = .ok n → x ∈ n.defs_ → x ∉ n.uses_) := by
  induction hr with
  | fresh g h =>
    rw [CFG.new_eq] at h
    simp only [Except.ok.injEq] at h
    subst h
    constructor
    · intro P n x hn hx
      rcases P with _ | _ | _ | _ | P
      all_goals
        simp only [CFG.getNode, CFG.ControlFlowGraph.getNode] at hn
        first
        | (simp at hn; subst hn; simp [CFG.Node.new, CFG.Node.setM, CFG.Node.setR] at hx)
        | simp at hn
    · intro P n x hn hx
      rcases P with _ | _ | _ | _ | P
      all_goals
        simp only [CFG.getNode, CFG.ControlFlowGraph.getNode] at hn
        first
        | (simp at hn; subst hn; simp [CFG.Node.new, CFG.Node.setM, CFG.Node.setR] at hx)
        | simp at hn
  | nextNode g _ ih =>
    obtain ⟨ih1, ih2⟩ := ih
    have hold : ∀ P n, g.nextNode.2.getNode P = .ok n →
        g.getNode P = .ok n ∨ n = CFG.Node.new g.CFG_.nodes_.length := by
      intro P n hn
      simp only [CFG.getNode, CFG.nextNode, CFG.ControlFlowGraph.addNode,
        CFG.ControlFlowGraph.getNode] at hn ⊢
      by_cases hP : P < g.CFG_.nodes_.length
      · rw [List.getElem?_append_left hP] at hn
        exact Or.inl hn
      · rw [List.getElem?_append_right (not_lt.mp hP)] at hn
        cases hsub : P - g.CFG_.nodes_.length with
        | zero =>
          rw [hsub] at hn
          simp only [List.getElem?_cons_zero, Except.ok.injEq] at hn
          exact Or.inr hn.symm
        | succ j =>
          rw [hsub] at hn
          simp at hn
    constructor
    · intro P n x hn hx
      rcases hold P n hn with h | h
      · exact ih1 P n x h hx
      · subst h
        simp [CFG.Node.new] at hx
    · intro P n x hn hx
      rcases hold P n hn with h | h
      · exact ih2 P n x h hx
      · subst h
        simp [CFG.Node.new] at hx
  | addDef g g2 P x _ hcall ih =>
    obtain ⟨ih1, ih2⟩ := ih
    obtain ⟨node, b1, node1, hn, hd, hb, _, rfl⟩ := CFG.addDef_shape ndebug g g2 P x true hcall
    obtain ⟨hnode1, _⟩ := CFG.Node.addDef_node ndebug node node1 x b1 hd
    have habs := StdMap.emplace_true_absent g.objToCFG_ x P hb.symm
    have hxnot : ∀ Q m, g.getNode Q = .ok m → x ∉ m.defs_ ∧ x ∉ m.uses_ := by
      intro Q m hm
      constructor
      · intro hx
        rw [ih1 Q m x hm (Or.inl hx)] at habs
        cases habs
      · intro hx
        rw [ih1 Q m x hm (Or.inr hx)] at habs
        cases habs
    have hget : ∀ Q m, (g.CFG_.setNode P node1).getNode Q = .ok m →
        (Q = P ∧ m = node1) ∨ (Q ≠ P ∧ g.getNode Q = .ok m) := by
      intro Q m hm
      by_cases hQ : Q = P
      · subst hQ
        rw [CFG.ControlFlowGraph.getNode_setNode g.CFG_ Q node node1 hn] at hm
        exact Or.inl ⟨rfl, (Except.ok.inj hm).symm⟩
      · rw [CFG.ControlFlowGraph.getNode_setNode_ne g.CFG_ P Q node1 hQ] at hm
        exact Or.inr ⟨hQ, hm⟩
    constructor
    · intro Q m y hm hy
      rcases hget Q m hm with ⟨rfl, rfl⟩ | ⟨_, hold⟩
      · by_cases hyx : y = x
        · subst hyx
          exact StdMap.emplace_true g.objToCFG_ y Q hb.symm
        · have hy2 : y ∈ node.defs_ ∨ y ∈ node.uses_ := by
            rw [hnode1] at hy
            rcases hy with hy | hy
            · rcases (StdSet.mem_insert node.defs_ x y).mp hy with h | h
              · exact absurd h hyx
              · exact Or.inl h
            · exact Or.inr hy
          exact StdMap.find_emplace_keeps g.objToCFG_ x y Q _ (ih1 Q node y hn hy2)
      · exact StdMap.find_emplace_keeps g.objToCFG_ x y P _ (ih1 Q m y hold hy)
    · intro Q m y hm hy
      rcases hget Q m hm with ⟨rfl, rfl⟩ | ⟨_, hold⟩
      · rw [hnode1] at hy ⊢
        rcases (StdSet.mem_insert node.defs_ x y).mp hy with h | h
        · subst h
          exact (hxnot Q node hn).2
        · exact ih2 Q node y hn h
      · exact ih2 Q m y hold hy
  | addUse g g2 P x _ hcall ih =>
    obtain ⟨ih1, ih2⟩ := ih
    obtain ⟨node, b1, node1, hn, hd, hb, _, rfl⟩ := CFG.addUse_shape ndebug g g2 P x true hcall
    obtain ⟨hnode1, _⟩ := CFG.Node.addUse_node ndebug node node1 x b1 hd
    have habs := StdMap.emplace_true_absent g.objToCFG_ x P hb.symm
    have hxnot : ∀ Q m, g.getNode Q = .ok m → x ∉ m.defs_ ∧ x ∉ m.uses_ := by
      intro Q m hm
      constructor
      · intro hx
        rw [ih1 Q m x hm (Or.inl hx)] at habs
        cases habs
      · intro hx
        rw [ih1 Q m x hm (Or.inr hx)] at habs
        cases habs
    have hget : ∀ Q m, (g.CFG_.setNode P node1).getNode Q = .ok m →
        (Q = P ∧ m = node1) ∨ (Q ≠ P ∧ g.getNode Q = .ok m) := by
      intro Q m hm
      by_cases hQ : Q = P
      · subst hQ
        rw [CFG.ControlFlowGraph.getNode_setNode g.CFG_ Q node node1 hn] at hm
        exact Or.inl ⟨rfl, (Except.ok.inj hm).symm⟩
      · rw [CFG.ControlFlowGraph.getNode_setNode_ne g.CFG_ P Q node1 hQ] at hm
        exact Or.inr ⟨hQ, hm⟩
    constructor
    · intro Q m y hm hy
      rcases hget Q m hm with ⟨rfl, rfl⟩ | ⟨_, hold⟩
      · by_cases hyx : y = x
        · subst hyx
          exact StdMap.emplace_true g.objToCFG_ y Q hb.symm
        · have hy2 : y ∈ node.defs_ ∨ y ∈ node.uses_ := by
            rw [hnode1] at hy
            rcases hy with hy | hy
            · exact Or.inl hy
            · rcases (StdSet.mem_insert node.uses_ x y).mp hy with h | h
              · exact absurd h hyx
              · exact Or.inr h
          exact StdMap.find_emplace_keeps g.objToCFG_ x y Q _ (ih1 Q node y hn hy2)
      · exact StdMap.find_emplace_keeps g.objToCFG_ x y P _ (ih1 Q m y hold hy)
    · intro Q m y hm hy
      rcases hget Q m hm with ⟨rfl, rfl⟩ | ⟨_, hold⟩
      · rw [hnode1] at hy ⊢
        intro hu
        rcases (StdSet.mem_insert node.uses_ x y).mp hu with h | h
        · subst h
          exact (hxnot Q node hn).1 hy
        · exact ih2 Q node y hn hy h
      · exact ih2 Q m y hold hy
  | addGlobalInit g g2 x _ hcall ih =>
    obtain ⟨ih1, ih2⟩ := ih
    obtain ⟨_, _, rfl⟩ := CFG.addGlobalInit_shape ndebug g g2 x true hcall
    constructor
    · intro Q m y hm hy
      exact StdMap.find_emplace_keeps g.objToCFG_ x y _ _ (ih1 Q m y hm hy)
    · intro Q m y hm hy
      exact ih2 Q m y hm hy

/-- C28: in every state that a fresh `CFG` reaches by successful calls of
`nextNode`, `addDef`, `addUse` and `addGlobalInit`, an `ObjID` that is in the
def or use set of the points `P` and `Q` has `P = Q`, no `ObjID` is in both the
def set and the use set of a point, and `getCFGid(x) = P` for every `x` in the
def or use set of `P`. -/
theorem CFG.RegReachable.def_use_unique (ndebug : Bool) (g : CFG)
    (hr : CFG.RegReachable ndebug g) (P Q : NodeID) (nP nQ : CFG.Node) (x : ObjID)
    (hP : g.getNode P = .ok nP) (hQ : g.getNode Q = .ok nQ)
    (hx : x ∈ nP.defs_ ∨ x ∈ nP.uses_) :
    g.getCFGid x = .ok P ∧
    ((x ∈ nQ.defs_ ∨ x ∈ nQ.uses_) → P = Q) ∧
    ¬ (x ∈ nP.defs_ ∧ x ∈ nP.uses_) := by
  obtain ⟨h1, h2⟩ := CFG.RegReachable.sets_indexed ndebug g hr
  refine ⟨StdMap.at_eq _ x _ (h1 P nP x hP hx), ?_, ?_⟩
  · intro hxQ
    have hfP := h1 P nP x hP hx
    have hfQ := h1 Q nQ x hQ hxQ
    rw [hfP] at hfQ
    simp only [Option.some.injEq, Prod.mk.injEq, true_and] at hfQ
    exact hfQ
  · rintro ⟨hd, hu⟩
    exact h2 P nP x hP hd hu

/-- C28 at a concrete input: the state after `addDef(1, 5)` on a fresh graph is
reachable, 5 is in the def set of point 1 there, and `getCFGid(5)` is 1. -/
theorem CFG.RegReachable.def_use_unique_witness :
    ∃ g1 n1, CFG.RegReachable false g1 ∧ g1.getNode 1 = .ok n1 ∧ 5 ∈ n1.defs_ ∧
      g1.getCFGid 5 = .ok 1 :=
  (fun (g g1 : CFG) (n1 : CFG.Node) (h0 : CFG.new false = .ok g)
      (h1 : g.addDef false 1 5 = .ok (true, g1)) (hn : g1.getNode 1 = .ok n1)
      (hx : 5 ∈ n1.defs_) =>
    ⟨g1, n1, CFG.RegReachable.addDef g g1 1 5 (CFG.RegReachable.fresh g h0) h1, hn, hx,
      (CFG.RegReachable.def_use_unique false g1
        (CFG.RegReachable.addDef g g1 1 5 (CFG.RegReachable.fresh g h0) h1)
        1 1 n1 n1 5 hn hn (Or.inl hx)).1⟩)
    { CFG.blank with
      CFG_ := { nodes_ := (List.range 4).map (fun i => some (CFG.Node.new i).setM.setR) } }
    { CFG.blank with
      CFG_ := { nodes_ := [some (CFG.Node.new 0).setM.setR,
                           some { (CFG.Node.new 1).setM.setR with defs_ := [5] },
                           some (CFG.Node.new 2).setM.setR,
                           some (CFG.Node.new 3).setM.setR] },
      objToCFG_ := [(5, 1)] }
    { (CFG.Node.new 1).setM.setR with defs_ := [5] }
    rfl rfl rfl (by decide)

/-- C11 (as stated, refuted): with assertions compiled out, after the
successful `addDef(1, 5)` the call `addUse(1, 5)` is rejected (it returns
`false`), and yet 5 is in the def set and in the use set of point 1
afterwards: an `ObjID` that is both a def and a use. -/
theorem CFG.rejected_addUse_def_and_use :
    ∃ g g1 g2 n2, CFG.new true = .ok g ∧
      g.addDef true 1 5 = .ok (true, g1) ∧
      g1.addUse true 1 5 = .ok (false, g2) ∧
      g2.getNode 1 = .ok n2 ∧ 5 ∈ n2.defs_ ∧ 5 ∈ n2.uses_ :=
  ⟨{ CFG.blank with
      CFG_ := { nodes_ := (List.range 4).map (fun i => some (CFG.Node.new i).setM.setR) } },
   { CFG.blank with
      CFG_ := { nodes_ := [some (CFG.Node.new 0).setM.setR,
                           some { (CFG.Node.new 1).setM.setR with defs_ := [5] },
                           some (CFG.Node.new 2).setM.setR,
                           some (CFG.Node.new 3).setM.setR] },
      objToCFG_ := [(5, 1)] },
   { CFG.blank with
      CFG_ := { nodes_ := [some (CFG.Node.new 0).setM.setR,
                           some { (CFG.Node.new 1).setM.setR with defs_ := [5], uses_ := [5] },
                           some (CFG.Node.new 2).setM.setR,
                           some (CFG.Node.new 3).setM.setR] },
      objToCFG_ := [(5, 1)] },
   { (CFG.Node.new 1).setM.setR with defs_ := [5], uses_ := [5] },
   rfl, rfl, rfl, rfl, by decide, by decide⟩

/-- C11 (amended): once `x` was registered by a successful `CFG.addDef`,
`CFG.addUse` or `CFG.addGlobalInit`, and whatever mutators other than
`eraseObjToCFG(x)` ran since, every further `CFG.addDef(Q, x)`,
`CFG.addUse(Q, x)` and `CFG.addGlobalInit(x)` is rejected: none returns `true`,
and with assertions enabled each ends in the failed invariant check (for
`addDef` and `addUse`, at every point `Q` of the graph).  In every state that a
fresh `CFG` reaches by `nextNode` and registrations that returned `true`, no
`ObjID` is in the def set of a point and in the use set of a point. -/
theorem CFG.second_registration_rejected (ndebug : Bool)
    (cg : CFG.ControlFlowGraph → Except Abort CFG.ControlFlowGraph)
    (g0 g1 g2 : CFG) (P : NodeID) (x : ObjID) (ops : List CFG.Op)
    (hreg : g0.addDef ndebug P x = .ok (true, g1) ∨ g0.addUse ndebug P x = .ok (true, g1) ∨
      g0.addGlobalInit ndebug x = .ok (true, g1))
    (hops : ∀ op ∈ ops, op ≠ CFG.Op.eraseObjToCFG x)
    (hrun : CFG.runOps ndebug cg g1 ops = .ok g2) :
    (∀ Q r, g2.addDef ndebug Q x ≠ .ok (true, r)) ∧
    (∀ Q r, g2.addUse ndebug Q x ≠ .ok (true, r)) ∧
    (∀ r, g2.addGlobalInit ndebug x ≠ .ok (true, r)) ∧
    (ndebug = false →
      (∀ Q n, g2.getNode Q = .ok n →
        g2.addDef ndebug Q x = .error .assertFailed ∧
        g2.addUse ndebug Q x = .error .assertFailed) ∧
      g2.addGlobalInit ndebug x = .error .assertFailed) ∧
    (∀ g : CFG, CFG.RegReachable ndebug g →
      ∀ (A B : NodeID) (nA nB : CFG.Node) (y : ObjID),
        g.getNode A = .ok nA → g.getNode B = .ok nB → y ∈ nA.defs_ → y ∉ nB.uses_) := by
  have h1 : ∃ p, StdMap.find g1.objToCFG_ x = some p := by
    rcases hreg with h | h | h
    · obtain ⟨_, _, _, _, _, hb, _, rfl⟩ := CFG.addDef_shape ndebug g0 g1 P x true h
      exact ⟨_, StdMap.emplace_true g0.objToCFG_ x P hb.symm⟩
    · obtain ⟨_, _, _, _, _, hb, _, rfl⟩ := CFG.addUse_shape ndebug g0 g1 P x true h
      exact ⟨_, StdMap.emplace_true g0.objToCFG_ x P hb.symm⟩
    · obtain ⟨hb, _, rfl⟩ := CFG.addGlobalInit_shape ndebug g0 g1 x true h
      exact ⟨_, StdMap.emplace_true g0.objToCFG_ x _ hb.symm⟩
  obtain ⟨p, hp1⟩ := h1
  have hp := CFG.runOps_keeps_index ndebug cg ops g1 g2 x p hrun hops hp1
  refine ⟨fun Q r => (CFG.addDef_present ndebug g2 Q x p hp).1 r,
    fun Q r => (CFG.addUse_present ndebug g2 Q x p hp).1 r,
    fun r => (CFG.addGlobalInit_present ndebug g2 x p hp).1 r, ?_, ?_⟩
  · intro hnd
    exact ⟨fun Q n hn => ⟨(CFG.addDef_present ndebug g2 Q x p hp).2 hnd n hn,
        (CFG.addUse_present ndebug g2 Q x p hp).2 hnd n hn⟩,
      (CFG.addGlobalInit_present ndebug g2 x p hp).2 hnd⟩
  · intro g hr A B nA nB y hA hB hd hu
    obtain ⟨hs1, hs2⟩ := CFG.RegReachable.sets_indexed ndebug g hr
    have hfA := hs1 A nA y hA (Or.inl hd)
    have hfB := hs1 B nB y hB (Or.inr hu)
    rw [hfA] at hfB
    simp only [Option.some.injEq, Prod.mk.injEq, true_and] at hfB
    subst hfB
    rw [hA] at hB
    cases hB
    exact hs2 A nA y hA hd hu

/-- C11 (amended) at a concrete input: on a graph with one point, `addDef(0, 5)`
succeeds; after `addIndirFcn(7, 2)` and `nextNode()`, `addUse(1, 5)` ends in
the failed invariant check. -/
theorem CFG.second_registration_rejected_witness :
    CFG.blank.nextNode.2.addDef false 0 5 = .ok (true,
      { CFG.blank with
        CFG_ := { nodes_ := [some { CFG.Node.new 0 with defs_ := [5] }] },
        objToCFG_ := [(5, 0)] }) ∧
    CFG.runOps false (fun seg => .ok (seg.cleanGraph (fun id => decide (id < 4))))
      { CFG.blank with
        CFG_ := { nodes_ := [some { CFG.Node.new 0 with defs_ := [5] }] },
        objToCFG_ := [(5, 0)] }
      [.addIndirFcn 7 2, .nextNode] = .ok
      { CFG.blank with
        CFG_ := { nodes_ := [some { CFG.Node.new 0 with defs_ := [5] },
                             some (CFG.Node.new 1)] },
        indirFcns_ := [(7, [2])],
        objToCFG_ := [(5, 0)] } ∧
    ({ CFG.blank with
        CFG_ := { nodes_ := [some { CFG.Node.new 0 with defs_ := [5] },
                             some (CFG.Node.new 1)] },
        indirFcns_ := [(7, [2])],
        objToCFG_ := [(5, 0)] } : CFG).addUse false 1 5 = .error .assertFailed :=
  ⟨rfl, rfl,
   ((CFG.second_registration_rejected false
      (fun seg => .ok (seg.cleanGraph (fun id => decide (id < 4))))
      CFG.blank.nextNode.2 _ _ 0 5 [.addIndirFcn 7 2, .nextNode]
      (Or.inl rfl) (by decide) rfl).2.2.2.1 rfl).1 1 (CFG.Node.new 1) rfl |>.2⟩

/-! ## Rejected registrations -/

/-- C29 (as stated, refuted): with assertions compiled out, `addDef(2, 5)` after
a successful `addDef(1, 5)` is rejected (it returns `false`), and yet the def
set of point 2, empty before the call, holds 5 after it. -/
theorem CFG.rejected_addDef_not_atomic :
    ∃ g g1 g2 n n2, CFG.new true = .ok g ∧
      g.addDef true 1 5 = .ok (true, g1) ∧
      g1.addDef true 2 5 = .ok (false, g2) ∧
      g1.getNode 2 = .ok n ∧ n.defs_ = [] ∧
      g2.getNode 2 = .ok n2 ∧ n2.defs_ = [5] ∧
      g2.objToCFG_ = g1.objToCFG_ :=
  ⟨{ CFG.blank with
      CFG_ := { nodes_ := (List.range 4).map (fun i => some (CFG.Node.new i).setM.setR) } },
   { CFG.blank with
      CFG_ := { nodes_ := [some (CFG.Node.new 0).setM.setR,
                           some { (CFG.Node.new 1).setM.setR with defs_ := [5] },
                           some (CFG.Node.new 2).setM.setR,
                           some (CFG.Node.new 3).setM.setR] },
      objToCFG_ := [(5, 1)] },
   { CFG.blank with
      CFG_ := { nodes_ := [some (CFG.Node.new 0).setM.setR,
                           some { (CFG.Node.new 1).setM.setR with defs_ := [5] },
                           some { (CFG.Node.new 2).setM.setR with defs_ := [5] },
                           some (CFG.Node.new 3).setM.setR] },
      objToCFG_ := [(5, 1)] },
   (CFG.Node.new 2).setM.setR,
   { (CFG.Node.new 2).setM.setR with defs_ := [5] },
   rfl, rfl, rfl, rfl, rfl, rfl, rfl, rfl⟩

/-- C29 (amended): a `CFG.addDef(Q, x)` that returns `false` (which it can do
only with assertions compiled out; with assertions enabled the failed check
ends the run and leaves no state) leaves the index and every other table
unchanged, and leaves the def set of `Q` as `insert(x)` made it: unchanged
when `x` was in the def set of `Q` already, in which case the whole `CFG` is
unchanged, and with `x` added otherwise.  The same holds for
`CFG.addUse(Q, x)` and the use set of `Q`. -/
theorem CFG.rejected_registration_effect (ndebug : Bool) (g g2 : CFG) (Q : NodeID)
    (x : ObjID) :
    (g.addDef ndebug Q x = .ok (false, g2) →
      ndebug = true ∧ g2.objToCFG_ = g.objToCFG_ ∧
      (∀ P, P ≠ Q → g2.getNode P = g.getNode P) ∧
      ∃ n n2, g.getNode Q = .ok n ∧ g2.getNode Q = .ok n2 ∧
        n2 = { n with defs_ := (StdSet.insert n.defs_ x).1 } ∧
        (x ∈ n.defs_ → g2 = g) ∧
        (x ∉ n.defs_ → x ∈ n2.defs_ ∧ n2.defs_ ≠ n.defs_)) ∧
    (g.addUse ndebug Q x = .ok (false, g2) →
      ndebug = true ∧ g2.objToCFG_ = g.objToCFG_ ∧
      (∀ P, P ≠ Q → g2.getNode P = g.getNode P) ∧
      ∃ n n2, g.getNode Q = .ok n ∧ g2.getNode Q = .ok n2 ∧
        n2 = { n with uses_ := (StdSet.insert n.uses_ x).1 } ∧
        (x ∈ n.uses_ → g2 = g) ∧
        (x ∉ n.uses_ → x ∈ n2.uses_ ∧ n2.uses_ ≠ n.uses_)) := by
  constructor
  · intro h
    obtain ⟨node, b1, node1, hn, hd, hb, hnd, rfl⟩ := CFG.addDef_shape ndebug g g2 Q x false h
    obtain ⟨hnode1, _⟩ := CFG.Node.addDef_node ndebug node node1 x b1 hd
    have hidx := StdMap.emplace_false g.objToCFG_ x Q hb.symm
    refine ⟨?_, hidx, ?_, node, node1, hn, ?_, hnode1, ?_, ?_⟩
    · cases ndebug
      · exact absurd (hnd rfl) (by decide)
      · rfl
    · intro P hP
      exact CFG.ControlFlowGraph.getNode_setNode_ne g.CFG_ Q P node1 hP
    · exact CFG.ControlFlowGraph.getNode_setNode g.CFG_ Q node node1 hn
    · intro hx
      have hsame : node1 = node := by
        rw [hnode1]
        simp [StdSet.insert, hx]
      rw [hsame, hidx, CFG.ControlFlowGraph.setNode_same g.CFG_ Q node hn]
    · intro hx
      rw [hnode1]
      have hmem : x ∈ (StdSet.insert node.defs_ x).1 :=
        (StdSet.mem_insert node.defs_ x x).mpr (Or.inl rfl)
      refine ⟨hmem, ?_⟩
      intro he
      simp only at he
      rw [he] at hmem
      exact hx hmem
  · intro h
    obtain ⟨node, b1, node1, hn, hd, hb, hnd, rfl⟩ := CFG.addUse_shape ndebug g g2 Q x false h
    obtain ⟨hnode1, _⟩ := CFG.Node.addUse_node ndebug node node1 x b1 hd
    have hidx := StdMap.emplace_false g.objToCFG_ x Q hb.symm
    refine ⟨?_, hidx, ?_, node, node1, hn, ?_, hnode1, ?_, ?_⟩
    · cases ndebug
      · exact absurd (hnd rfl) (by decide)
      · rfl
    · intro P hP
      exact CFG.ControlFlowGraph.getNode_setNode_ne g.CFG_ Q P node1 hP
    · exact CFG.ControlFlowGraph.getNode_setNode g.CFG_ Q node node1 hn
    · intro hx
      have hsame : node1 = node := by
        rw [hnode1]
        simp [StdSet.insert, hx]
      rw [hsame, hidx, CFG.ControlFlowGraph.setNode_same g.CFG_ Q node hn]
    · intro hx
      rw [hnode1]
      have hmem : x ∈ (StdSet.insert node.uses_ x).1 :=
        (StdSet.mem_insert node.uses_ x x).mpr (Or.inl rfl)
      refine ⟨hmem, ?_⟩
      intro he
      simp only at he
      rw [he] at hmem
      exact hx hmem

/-- C29 (amended) at a concrete input: with assertions compiled out, the
rejected `addDef(1, 5)` on a graph where 5 is a def of point 1 already leaves
the index as it was. -/
theorem CFG.rejected_registration_effect_witness :
    ∃ g : CFG, g.addDef true 1 5 = .ok (false, g) ∧ g.objToCFG_ = [(5, 1)] :=
  (fun (g : CFG) (h : g.addDef true 1 5 = .ok (false, g)) (hi : g.objToCFG_ = [(5, 1)]) =>
    ⟨g, h, ((CFG.rejected_registration_effect true g g 1 5).1 h).2.1.trans hi⟩)
    { CFG.blank with
      CFG_ := { nodes_ := [some (CFG.Node.new 0), some { CFG.Node.new 1 with defs_ := [5] }] },
      objToCFG_ := [(5, 1)] }
    rfl rfl

/-! ## Reading numbers and lines -/

theorem isDigit_not_isSpace (c : Char) (h : c.isDigit = true) : isSpace c = false := by
  have h1 : (48 : Nat) ≤ c.toNat := by
    simp only [Char.isDigit, Bool.and_eq_true, decide_eq_true_eq] at h
    exact h.1
  unfold isSpace
  simp only [Bool.or_eq_false_iff, decide_eq_false_iff_not]
  refine ⟨⟨⟨⟨⟨?_, ?_⟩, ?_⟩, ?_⟩, ?_⟩, ?_⟩ <;>
  · intro hc
    rw [hc] at h1
    revert h1
    decide

theorem isDigit_not_sign (c : Char) (h : c.isDigit = true) : c ≠ '-' ∧ c ≠ '+' := by
  have h1 : (48 : Nat) ≤ c.toNat := by
    simp only [Char.isDigit, Bool.and_eq_true, decide_eq_true_eq] at h
    exact h.1
  constructor <;>
  · intro hc
    rw [hc] at h1
    revert h1
    decide

theorem takeWhile_append_stop {α : Type} (p : α → Bool) (a X : List α)
    (hX : ∀ c ∈ X.head?, p c = false) : (a ++ X).takeWhile p = a.takeWhile p := by
  induction a with
  | nil =>
    cases X with
    | nil => rfl
    | cons c X2 =>
      have := hX c (by simp)
      simp [List.takeWhile_cons, this]
  | cons b a ih =>
    simp only [List.cons_append, List.takeWhile_cons, ih]

theorem dropWhile_append_stop {α : Type} (p : α → Bool) (a X : List α)
    (hX : ∀ c ∈ X.head?, p c = false) : (a ++ X).dropWhile p = a.dropWhile p ++ X := by
  induction a with
  | nil =>
    cases X with
    | nil => rfl
    | cons c X2 =>
      have := hX c (by simp)
      simp [List.dropWhile_cons, this]
  | cons b a ih =>
    simp only [List.cons_append, List.dropWhile_cons, ih]
    split <;> rfl

theorem takeWhile_all {α : Type} (p : α → Bool) (a : List α) (h : ∀ c ∈ a, p c = true) :
    a.takeWhile p = a ∧ a.dropWhile p = [] := by
  induction a with
  | nil => exact ⟨rfl, rfl⟩
  | cons b a ih =>
    have hb := h b (by simp)
    have := ih (fun c hc => h c (by simp [hc]))
    simp [List.takeWhile_cons, List.dropWhile_cons, hb, this.1, this.2]

theorem scanSign_length_le (s : List Char) : (scanSign s).2.length ≤ s.length := by
  unfold scanSign
  cases s with
  | nil => simp
  | cons c r =>
    simp only
    split
    · simp
    · split <;> simp

theorem scanSign_append (t X : List Char) (ht : t ≠ []) :
    scanSign (t ++ X) = ((scanSign t).1, (scanSign t).2 ++ X) := by
  cases t with
  | nil => exact absurd rfl ht
  | cons c r =>
    unfold scanSign
    simp only [List.cons_append]
    split_ifs <;> rfl

theorem extractInt32_lt (s : List Char) (v : Int) (r : List Char)
    (h : extractInt32 s = some (v, r)) : r.length < s.length := by
  unfold extractInt32 at h
  simp only at h
  by_cases hds : List.takeWhile Char.isDigit (scanSign (s.dropWhile isSpace)).2 = []
  · rw [if_pos hds] at h
    cases h
  · rw [if_neg hds] at h
    split_ifs at h
    all_goals
      simp only [Option.some.injEq, Prod.mk.injEq] at h
      have h1 := scanSign_length_le (s.dropWhile isSpace)
      have h2 := (List.dropWhile_sublist isSpace (l := s)).length_le
      have h3 := congrArg List.length
        (List.takeWhile_append_dropWhile Char.isDigit (scanSign (s.dropWhile isSpace)).2)
      rw [List.length_append] at h3
      have h4 : 0 < (List.takeWhile Char.isDigit (scanSign (s.dropWhile isSpace)).2).length :=
        List.length_pos.mpr hds
      rw [← h.2]
      omega

theorem extractUInt32_lt (s : List Char) (v : Nat) (r : List Char)
    (h : extractUInt32 s = some (v, r)) : r.length < s.length := by
  unfold extractUInt32 at h
  simp only at h
  by_cases hds : List.takeWhile Char.isDigit (scanSign (s.dropWhile isSpace)).2 = []
  · rw [if_pos hds] at h
    cases h
  · rw [if_neg hds] at h
    split_ifs at h
    all_goals
      simp only [Option.some.injEq, Prod.mk.injEq] at h
      have h1 := scanSign_length_le (s.dropWhile isSpace)
      have h2 := (List.dropWhile_sublist isSpace (l := s)).length_le
      have h3 := congrArg List.length
        (List.takeWhile_append_dropWhile Char.isDigit (scanSign (s.dropWhile isSpace)).2)
      rw [List.length_append] at h3
      have h4 : 0 < (List.takeWhile Char.isDigit (scanSign (s.dropWhile isSpace)).2).length :=
        List.length_pos.mpr hds
      rw [← h.2]
      omega

theorem extractAll_fuel {α : Type} (ext : List Char → Option (α × List Char))
    (hext : ∀ s v r, ext s = some (v, r) → r.length < s.length) :
    ∀ (n m : Nat) (s : List Char), s.length ≤ n → s.length ≤ m →
      extractAll ext n s = extractAll ext m s := by
  have hnil : ext [] = none := by
    cases h : ext [] with
    | none => rfl
    | some p =>
      obtain ⟨v, r⟩ := p
      have := hext [] v r h
      simp at this
  intro n
  induction n with
  | zero =>
    intro m s hn hm
    have hs : s = [] := List.length_eq_zero.mp (Nat.le_zero.mp hn)
    subst hs
    cases m with
    | zero => rfl
    | succ m => simp [extractAll, hnil]
  | succ n ih =>
    intro m s hn hm
    cases m with
    | zero =>
      have hs : s = [] := List.length_eq_zero.mp (Nat.le_zero.mp hm)
      subst hs
      simp [extractAll, hnil]
    | succ m =>
      unfold extractAll
      cases h : ext s with
      | none => rfl
      | some p =>
        obtain ⟨v, r⟩ := p
        have := hext s v r h
        simp only
        rw [ih m r (by omega) (by omega)]

theorem extractAll_some {α : Type} (ext : List Char → Option (α × List Char))
    (hext : ∀ s v r, ext s = some (v, r) → r.length < s.length)
    (s : List Char) (v : α) (r : List Char) (h : ext s = some (v, r)) :
    extractAll ext s.length s = v :: extractAll ext r.length r := by
  have hl := hext s v r h
  cases hs : s.length with
  | zero => omega
  | succ k =>
    rw [extractAll, h]
    simp only
    rw [extractAll_fuel ext hext k r.length r (by omega) (Nat.le_refl _)]

theorem extractAll_none {α : Type} (ext : List Char → Option (α × List Char))
    (s : List Char) (h : ext s = none) : extractAll ext s.length s = [] := by
  cases s.length with
  | zero => rfl
  | succ k => rw [extractAll, h]

theorem extractInts_some (s : List Char) (v : Int) (r : List Char)
    (h : extractInt32 s = some (v, r)) : extractInts s = v :: extractInts r :=
  extractAll_some extractInt32 extractInt32_lt s v r h

theorem extractInts_none (s : List Char) (h : extractInt32 s = none) : extractInts s = [] :=
  extractAll_none extractInt32 s h

theorem extractUInts_some (s : List Char) (v : Nat) (r : List Char)
    (h : extractUInt32 s = some (v, r)) : extractUInts s = v :: extractUInts r :=
  extractAll_some extractUInt32 extractUInt32_lt s v r h

theorem extractUInts_none (s : List Char) (h : extractUInt32 s = none) :
    extractUInts s = [] :=
  extractAll_none extractUInt32 s h

/-- A token that is read at the start of a text is read alike whatever
follows it, when what follows does not start with a digit. -/
theorem extractInt32_token (t X : List Char) (ht : isToken t = true)
    (hX : ∀ c ∈ X.head?, c.isDigit = false) :
    extractInt32 (t ++ X) = (extractInt32 t).map (fun p => (p.1, p.2 ++ X)) := by
  cases t with
  | nil => simp [isToken] at ht
  | cons c r =>
    have hc : isSpace c = false := by
      simp only [isToken, List.all_cons, Bool.and_eq_true, Bool.not_eq_true'] at ht
      exact ht.2.1
    have hd1 : List.dropWhile isSpace (c :: r ++ X) = c :: r ++ X := by
      simp [List.dropWhile_cons, hc]
    have hd2 : List.dropWhile isSpace (c :: r) = c :: r := by
      simp [List.dropWhile_cons, hc]
    unfold extractInt32
    simp only [hd1, hd2]
    rw [scanSign_append (c :: r) X (by simp)]
    simp only [takeWhile_append_stop Char.isDigit _ X hX,
      dropWhile_append_stop Char.isDigit _ X hX]
    split_ifs <;> rfl

theorem extractUInt32_token (t X : List Char) (ht : isToken t = true)
    (hX : ∀ c ∈ X.head?, c.isDigit = false) :
    extractUInt32 (t ++ X) = (extractUInt32 t).map (fun p => (p.1, p.2 ++ X)) := by
  cases t with
  | nil => simp [isToken] at ht
  | cons c r =>
    have hc : isSpace c = false := by
      simp only [isToken, List.all_cons, Bool.and_eq_true, Bool.not_eq_true'] at ht
      exact ht.2.1
    have hd1 : List.dropWhile isSpace (c :: r ++ X) = c :: r ++ X := by
      simp [List.dropWhile_cons, hc]
    have hd2 : List.dropWhile isSpace (c :: r) = c :: r := by
      simp [List.dropWhile_cons, hc]
    unfold extractUInt32
    simp only [hd1, hd2]
    rw [scanSign_append (c :: r) X (by simp)]
    simp only [takeWhile_append_stop Char.isDigit _ X hX,
      dropWhile_append_stop Char.isDigit _ X hX]
    split_ifs <;> rfl

theorem extractInt32_space (X : List Char) : extractInt32 (' ' :: X) = extractInt32 X := by
  unfold extractInt32
  have : List.dropWhile isSpace (' ' :: X) = List.dropWhile isSpace X := by
    rw [List.dropWhile_cons]
    rfl
  rw [this]

theorem extractUInt32_space (X : List Char) : extractUInt32 (' ' :: X) = extractUInt32 X := by
  unfold extractUInt32
  have : List.dropWhile isSpace (' ' :: X) = List.dropWhile isSpace X := by
    rw [List.dropWhile_cons]
    rfl
  rw [this]

theorem extractInts_space (X : List Char) : extractInts (' ' :: X) = extractInts X := by
  cases h : extractInt32 X with
  | none =>
    rw [extractInts_none X h, extractInts_none _ ((extractInt32_space X).trans h)]
  | some p =>
    obtain ⟨v, r⟩ := p
    rw [extractInts_some X v r h, extractInts_some _ v r ((extractInt32_space X).trans h)]

theorem extractUInts_space (X : List Char) : extractUInts (' ' :: X) = extractUInts X := by
  cases h : extractUInt32 X with
  | none =>
    rw [extractUInts_none X h, extractUInts_none _ ((extractUInt32_space X).trans h)]
  | some p =>
    obtain ⟨v, r⟩ := p
    rw [extractUInts_some X v r h, extractUInts_some _ v r ((extractUInt32_space X).trans h)]

theorem IStream.getline_found (a b str : List Char) (d : Char) (h : d ∉ a) :
    (IStream.ofText (a ++ d :: b)).getline str d = (IStream.ofText b, a) := by
  have hall : ∀ c ∈ a, (fun c => c != d) c = true := by
    intro c hc
    simp only [bne_iff_ne, ne_eq]
    intro hcd
    exact h (hcd ▸ hc)
  have hstop : ∀ c ∈ (d :: b).head?, (fun c => c != d) c = false := by
    intro c hc
    simp only [List.head?_cons, Option.mem_def, Option.some.injEq] at hc
    subst hc
    simp
  have h1 := takeWhile_append_stop (fun c => c != d) a (d :: b) hstop
  have h2 := dropWhile_append_stop (fun c => c != d) a (d :: b) hstop
  rw [(takeWhile_all _ a hall).1] at h1
  rw [(takeWhile_all _ a hall).2] at h2
  unfold IStream.getline IStream.ofText
  simp only [Bool.or_self, Bool.false_eq_true, if_false, h1, h2, List.nil_append]

theorem IStream.getline_rest_lt (s : IStream) (str : List Char) (d : Char)
    (h : (s.getline str d).1.failbit = false) :
    (s.getline str d).1.rest.length < s.rest.length := by
  unfold IStream.getline at h ⊢
  split
  · rename_i hf
    rw [if_pos hf] at h
    simp at h
  · rename_i hf
    rw [if_neg hf] at h
    have hlen := congrArg List.length
      (List.takeWhile_append_dropWhile (fun c => c != d) s.rest)
    rw [List.length_append] at hlen
    cases hd : List.dropWhile (fun c => c != d) s.rest with
    | nil =>
      rw [hd] at h
      have hne : List.takeWhile (fun c => c != d) s.rest ≠ [] := by
        intro h0
        rw [h0] at h
        simp at h
      have : 0 < (List.takeWhile (fun c => c != d) s.rest).length :=
        List.length_pos.mpr hne
      simp only [List.length_nil]
      omega
    | cons c post =>
      rw [hd] at hlen
      simp only [List.length_cons] at hlen ⊢
      omega

theorem IStream.getline_rest_le (s : IStream) (str : List Char) (d : Char) :
    (s.getline str d).1.rest.length ≤ s.rest.length := by
  unfold IStream.getline
  split
  · exact Nat.le_refl _
  · have hlen := congrArg List.length
      (List.takeWhile_append_dropWhile (fun c => c != d) s.rest)
    rw [List.length_append] at hlen
    cases hd : List.dropWhile (fun c => c != d) s.rest with
    | nil => simp
    | cons c post =>
      rw [hd] at hlen
      simp only [List.length_cons] at hlen ⊢
      omega

theorem logLoop_succ {σ : Type} (body : σ → List Char → List Char → Except Abort σ) :
    ∀ (n : Nat) (s : IStream) (st : σ), s.rest.length ≤ n →
      logLoop body n s st = logLoop body (n + 1) s st := by
  intro n
  induction n with
  | zero =>
    intro s st hn
    have hs : s.rest = [] := List.length_eq_zero.mp (Nat.le_zero.mp hn)
    have hf : (s.getline [] ':').1.failbit = true := by
      cases hb : (s.getline [] ':').1.failbit with
      | true => rfl
      | false =>
        have := IStream.getline_rest_lt s [] ':' hb
        omega
    simp only [logLoop, hf, if_true]
  | succ n ih =>
    intro s st hn
    rw [logLoop, logLoop]
    simp only
    split
    · rfl
    · rename_i hf
      have hf2 : (s.getline [] ':').1.failbit = false := by
        simpa using hf
      have h1 := IStream.getline_rest_lt s [] ':' hf2
      have h2 := IStream.getline_rest_le (s.getline [] ':').1 (s.getline [] ':').2 '\n'
      cases body st (s.getline [] ':').2
          (((s.getline [] ':').1.getline (s.getline [] ':').2 '\n').2) with
      | error e => rfl
      | ok st2 =>
        simp only
        exact ih _ st2 (by omega)

theorem logLoop_stable {σ : Type} (body : σ → List Char → List Char → Except Abort σ)
    (k : Nat) (s : IStream) (st : σ) :
    logLoop body (s.rest.length + k) s st = logLoop body s.rest.length s st := by
  induction k with
  | zero => rfl
  | succ k ih =>
    rw [← ih]
    exact (logLoop_succ body (s.rest.length + k) s st (Nat.le_add_right _ _)).symm

theorem parseLog_nil {σ : Type} (body : σ → List Char → List Char → Except Abort σ)
    (st : σ) : parseLog body [] st = .ok st := rfl

/-- One round of the loop on a text that starts with a complete record. -/
theorem parseLog_record {σ : Type} (body : σ → List Char → List Char → Except Abort σ)
    (key line more : List Char) (st : σ) (hk : ':' ∉ key) (hl : '\n' ∉ line) :
    parseLog body (key ++ ':' :: (line ++ '\n' :: more)) st =
      (body st key line).bind (fun st2 => parseLog body more st2) := by
  have hlen : (key ++ ':' :: (line ++ '\n' :: more)).length =
      (more.length + (key.length + line.length + 1)) + 1 := by
    simp only [List.length_append, List.length_cons]
    omega
  unfold parseLog
  rw [hlen, logLoop]
  simp only [IStream.getline_found key _ [] ':' hk, IStream.getline_found line more key '\n' hl]
  have hs := logLoop_stable body (key.length + line.length + 1) (IStream.ofText more)
  cases body st key line with
  | error e => rfl
  | ok st2 =>
    simp only [IStream.ofText, Bool.false_eq_true, if_false, Except.bind]
    exact hs st2

/-- An error of the loop is an error of one of its rounds. -/
theorem logLoop_error {σ : Type} (body : σ → List Char → List Char → Except Abort σ)
    (P : Abort → Prop) (hbody : ∀ st k l e, body st k l = .error e → P e) :
    ∀ (n : Nat) (s : IStream) (st : σ) (e : Abort),
      logLoop body n s st = .error e → P e := by
  intro n
  induction n with
  | zero =>
    intro s st e h
    simp [logLoop] at h
  | succ n ih =>
    intro s st e h
    rw [logLoop] at h
    simp only at h
    split at h
    · cases h
    · cases hb : body st (s.getline [] ':').2
          (((s.getline [] ':').1.getline (s.getline [] ':').2 '\n').2) with
      | error e2 =>
        rw [hb] at h
        simp only [Except.error.injEq] at h
        subst h
        exact hbody _ _ _ _ hb
      | ok st2 =>
        rw [hb] at h
        exact ih _ st2 e h

/-! ## Numerals -/

theorem Numeral.wf_digits (n : Numeral) (h : n.wf = true) :
    n.digits ≠ [] ∧ (∀ c ∈ n.digits, c.isDigit = true) ∧
      -2147483648 ≤ n.val ∧ n.val ≤ 2147483647 := by
  simp only [Numeral.wf, Bool.and_eq_true, Bool.not_eq_true', List.isEmpty_eq_false,
    List.all_eq_true, decide_eq_true_eq] at h
  exact ⟨h.1.1.1, h.1.1.2, h.1.2, h.2⟩

theorem Numeral.wfIndex_digits (n : Numeral) (h : n.wfIndex = true) :
    n.neg = false ∧ n.digits ≠ [] ∧ (∀ c ∈ n.digits, c.isDigit = true) ∧
      decVal n.digits ≤ 2147483647 := by
  simp only [Numeral.wfIndex, Bool.and_eq_true, Bool.not_eq_true', List.isEmpty_eq_false,
    List.all_eq_true, decide_eq_true_eq] at h
  exact ⟨h.1.1.1, h.1.1.2, h.1.2, h.2⟩

theorem Numeral.wfIndex_wf (n : Numeral) (h : n.wfIndex = true) : n.wf = true := by
  obtain ⟨h1, h2, h3, h4⟩ := Numeral.wfIndex_digits n h
  simp only [Numeral.wf, Bool.and_eq_true, Bool.not_eq_true', List.isEmpty_eq_false,
    List.all_eq_true, decide_eq_true_eq, Numeral.val, h1, Bool.false_eq_true, if_false]
  refine ⟨⟨⟨h2, h3⟩, ?_⟩, ?_⟩ <;> omega

theorem Numeral.text_isToken (n : Numeral) (h : n.wf = true) : isToken n.text = true := by
  obtain ⟨h1, h2, _, _⟩ := Numeral.wf_digits n h
  have hd : ∀ c ∈ n.digits, (!isSpace c) = true := by
    intro c hc
    rw [isDigit_not_isSpace c (h2 c hc)]
    rfl
  unfold isToken Numeral.text
  cases n.neg with
  | true =>
    simp only [if_true, List.isEmpty_cons, Bool.not_false, Bool.true_and, List.all_cons,
      Bool.and_eq_true, List.all_eq_true]
    exact ⟨by decide, hd⟩
  | false =>
    simp only [Bool.false_eq_true, if_false, Bool.and_eq_true, Bool.not_eq_true',
      List.isEmpty_eq_false, List.all_eq_true]
    exact ⟨h1, fun c hc => by simpa using hd c hc⟩

theorem Numeral.scanSign_text (n : Numeral) (h : n.wf = true) :
    scanSign n.text = (n.neg, n.digits) := by
  obtain ⟨h1, h2, _, _⟩ := Numeral.wf_digits n h
  unfold Numeral.text
  cases hn : n.neg with
  | true =>
    simp only [if_true]
    cases hd : n.digits <;> simp [scanSign]
  | false =>
    simp only [Bool.false_eq_true, if_false]
    cases hd : n.digits with
    | nil => exact absurd hd h1
    | cons c r =>
      have hc := isDigit_not_sign c (h2 c (by simp [hd]))
      simp [scanSign, hc.1, hc.2]

theorem Numeral.dropSpace_text (n : Numeral) (h : n.wf = true) :
    List.dropWhile isSpace n.text = n.text := by
  have ht := Numeral.text_isToken n h
  cases hx : n.text with
  | nil => rfl
  | cons c r =>
    rw [hx] at ht
    simp only [isToken, List.all_cons, Bool.and_eq_true, Bool.not_eq_true'] at ht
    simp [List.dropWhile_cons, ht.2.1]

/-- A well-formed id is read as its value, and all of it is read. -/
theorem Numeral.extractInt32_text (n : Numeral) (h : n.wf = true) :
    extractInt32 n.text = some (n.val, []) := by
  obtain ⟨h1, h2, h3, h4⟩ := Numeral.wf_digits n h
  have ht := takeWhile_all Char.isDigit n.digits h2
  unfold extractInt32
  simp only [Numeral.dropSpace_text n h, Numeral.scanSign_text n h, ht.1, ht.2, h1, if_false]
  have hr : ¬ (n.val < -2147483648 ∨ 2147483647 < n.val) := by omega
  unfold Numeral.val at hr
  rw [if_neg hr]
  rfl

theorem Numeral.extractUInt32_text (n : Numeral) (h : n.wfIndex = true) :
    extractUInt32 n.text = some (decVal n.digits, []) := by
  obtain ⟨h0, h1, h2, h3⟩ := Numeral.wfIndex_digits n h
  have hw := Numeral.wfIndex_wf n h
  have ht := takeWhile_all Char.isDigit n.digits h2
  unfold extractUInt32
  simp only [Numeral.dropSpace_text n hw, Numeral.scanSign_text n hw, ht.1, ht.2, h1, if_false,
    h0, Bool.false_eq_true]
  rw [if_neg (by omega)]

theorem Numeral.stoi_text (n : Numeral) (h : n.wf = true) : stoi n.text = .ok n.val := by
  obtain ⟨h1, h2, h3, h4⟩ := Numeral.wf_digits n h
  have ht := takeWhile_all Char.isDigit n.digits h2
  unfold stoi
  simp only [Numeral.dropSpace_text n h, Numeral.scanSign_text n h, ht.1, h1, if_false]
  have hr : ¬ (n.val < -2147483648 ∨ 2147483647 < n.val) := by omega
  unfold Numeral.val at hr
  rw [if_neg hr]
  rfl

theorem Numeral.colon_not_mem (n : Numeral) (h : n.wf = true) : ':' ∉ n.text := by
  obtain ⟨h1, h2, _, _⟩ := Numeral.wf_digits n h
  have hd : ':' ∉ n.digits := by
    intro hc
    have := h2 _ hc
    revert this
    decide
  unfold Numeral.text
  cases n.neg with
  | true =>
    simp only [if_true, List.mem_cons, not_or]
    exact ⟨by decide, hd⟩
  | false => simpa using hd

/-! ## Lines of tokens -/

theorem spacedTail_head (ts : List (List Char)) :
    ∀ c ∈ (spacedTail ts).head?, c.isDigit = false := by
  intro c hc
  cases ts with
  | nil => simp [spacedTail] at hc
  | cons t ts =>
    simp only [spacedTail, List.cons_append, List.head?_cons, Option.mem_def,
      Option.some.injEq] at hc
    subst hc
    decide

theorem spacedTail_append (as bs : List (List Char)) :
    spacedTail (as ++ bs) = spacedTail as ++ spacedTail bs := by
  induction as with
  | nil => rfl
  | cons a as ih => simp [spacedTail, ih]

theorem newline_not_mem_token (t : List Char) (h : isToken t = true) : '\n' ∉ t := by
  intro hc
  simp only [isToken, Bool.and_eq_true, List.all_eq_true, Bool.not_eq_true'] at h
  have := h.2 _ hc
  revert this
  decide

theorem newline_not_mem_spacedTail (ts : List (List Char))
    (h : ∀ t ∈ ts, isToken t = true) : '\n' ∉ spacedTail ts := by
  induction ts with
  | nil => simp [spacedTail]
  | cons t ts ih =>
    simp only [spacedTail, List.cons_append, List.mem_cons, List.mem_append, not_or]
    exact ⟨by decide, newline_not_mem_token t (h t (by simp)),
      ih (fun u hu => h u (by simp [hu]))⟩

theorem newline_not_mem_spaced (ts : List (List Char))
    (h : ∀ t ∈ ts, isToken t = true) : '\n' ∉ spaced ts := by
  cases ts with
  | nil => simp [spaced]
  | cons t ts =>
    simp only [spaced, List.mem_append, not_or]
    exact ⟨newline_not_mem_token t (h t (by simp)),
      newline_not_mem_spacedTail ts (fun u hu => h u (by simp [hu]))⟩

/-- The ids at the start of a line, each after a space, are read as their
values; then the reading goes on in what follows them. -/
theorem extractInts_spacedTail (gs : List Numeral) (hgs : ∀ g ∈ gs, g.wf = true)
    (X : List Char) (hX : ∀ c ∈ X.head?, c.isDigit = false) :
    extractInts (spacedTail (gs.map Numeral.text) ++ X) =
      gs.map Numeral.val ++ extractInts X := by
  induction gs with
  | nil => rfl
  | cons g gs ih =>
    have hg := hgs g (by simp)
    have hrest : ∀ c ∈ (spacedTail (gs.map Numeral.text) ++ X).head?, c.isDigit = false := by
      intro c hc
      cases gs with
      | nil => exact hX c (by simpa [spacedTail] using hc)
      | cons g2 gs2 =>
        simp only [List.map_cons, spacedTail, List.cons_append, List.head?_cons,
          Option.mem_def, Option.some.injEq] at hc
        subst hc
        decide
    have h1 := extractInt32_token g.text (spacedTail (gs.map Numeral.text) ++ X)
      (Numeral.text_isToken g hg) hrest
    rw [Numeral.extractInt32_text g hg] at h1
    simp only [Option.map_some', List.nil_append] at h1
    simp only [List.map_cons, spacedTail, List.cons_append, List.append_assoc]
    rw [extractInts_space, extractInts_some _ _ _ h1, ih (fun u hu => hgs u (by simp [hu]))]

theorem extractUInts_spacedTail (gs : List Numeral) (hgs : ∀ g ∈ gs, g.wfIndex = true)
    (X : List Char) (hX : ∀ c ∈ X.head?, c.isDigit = false) :
    extractUInts (spacedTail (gs.map Numeral.text) ++ X) =
      gs.map (fun g => decVal g.digits) ++ extractUInts X := by
  induction gs with
  | nil => rfl
  | cons g gs ih =>
    have hg := hgs g (by simp)
    have hrest : ∀ c ∈ (spacedTail (gs.map Numeral.text) ++ X).head?, c.isDigit = false := by
      intro c hc
      cases gs with
      | nil => exact hX c (by simpa [spacedTail] using hc)
      | cons g2 gs2 =>
        simp only [List.map_cons, spacedTail, List.cons_append, List.head?_cons,
          Option.mem_def, Option.some.injEq] at hc
        subst hc
        decide
    have h1 := extractUInt32_token g.text (spacedTail (gs.map Numeral.text) ++ X)
      (Numeral.text_isToken g (Numeral.wfIndex_wf g hg)) hrest
    rw [Numeral.extractUInt32_text g hg] at h1
    simp only [Option.map_some', List.nil_append] at h1
    simp only [List.map_cons, spacedTail, List.cons_append, List.append_assoc]
    rw [extractUInts_space, extractUInts_some _ _ _ h1, ih (fun u hu => hgs u (by simp [hu]))]

/-- A line of tokens that starts with well-formed ids, written without the
space before the first token: reading it is reading the same tokens each after
a space. -/
theorem extractInts_spaced (ts : List (List Char)) :
    extractInts (spaced ts) = extractInts (spacedTail ts) := by
  cases ts with
  | nil => rfl
  | cons t ts =>
    simp only [spaced, spacedTail, List.cons_append]
    rw [extractInts_space]

theorem extractUInts_spaced (ts : List (List Char)) :
    extractUInts (spaced ts) = extractUInts (spacedTail ts) := by
  cases ts with
  | nil => rfl
  | cons t ts =>
    simp only [spaced, spacedTail, List.cons_append]
    rw [extractUInts_space]

/-! ## The table of `DynPtstoLoader` -/

theorem IntSet.mem_put_iff (x y : Int) (s : List Int) :
    y ∈ IntSet.put x s ↔ y = x ∨ y ∈ s := by
  induction s with
  | nil => simp [IntSet.put]
  | cons z zs ih =>
    unfold IntSet.put
    split
    · simp
    · simp only [List.mem_cons, ih]
      tauto

theorem IntSet.mem_insert_iff (x y : Int) (s : List Int) :
    y ∈ (IntSet.insert s x).1 ↔ y = x ∨ y ∈ s := by
  unfold IntSet.insert
  split
  · rename_i hx
    constructor
    · exact fun h => Or.inr h
    · rintro (h | h)
      · exact h ▸ hx
      · exact h
  · exact IntSet.mem_put_iff x y s

theorem IntSet.nodup_put (x : Int) (s : List Int) (hs : s.Nodup) (hx : x ∉ s) :
    (IntSet.put x s).Nodup := by
  induction s with
  | nil => simp [IntSet.put]
  | cons z zs ih =>
    unfold IntSet.put
    split
    · exact List.nodup_cons.mpr ⟨hx, hs⟩
    · have hz := List.nodup_cons.mp hs
      have hxz : x ∉ zs := fun h => hx (by simp [h])
      refine List.nodup_cons.mpr ⟨?_, ih hz.2 hxz⟩
      rw [IntSet.mem_put_iff]
      rintro (h | h)
      · exact hx (by simp [h])
      · exact hz.1 h

theorem IntSet.nodup_insert (x : Int) (s : List Int) (hs : s.Nodup) :
    (IntSet.insert s x).1.Nodup := by
  unfold IntSet.insert
  split
  · exact hs
  · rename_i hx
    exact IntSet.nodup_put x s hs hx

theorem IntMap.find_put_same {V : Type} (m : List (Int × V)) (k : Int) (v : V)
    (h : IntMap.find m k = none) : IntMap.find (IntMap.put k v m) k = some v := by
  induction m with
  | nil => simp [IntMap.put, IntMap.find]
  | cons p ps ih =>
    unfold IntMap.find at h
    split at h
    · cases h
    · rename_i hp
      unfold IntMap.put
      split
      · simp [IntMap.find]
      · simp only [IntMap.find, hp, if_false]
        exact ih h

theorem IntMap.find_put_other {V : Type} (m : List (Int × V)) (k k2 : Int) (v : V)
    (h : k2 ≠ k) : IntMap.find (IntMap.put k v m) k2 = IntMap.find m k2 := by
  have hk : ¬ k = k2 := fun h2 => h h2.symm
  induction m with
  | nil => simp [IntMap.put, IntMap.find, hk]
  | cons p ps ih =>
    unfold IntMap.put
    split
    · simp [IntMap.find, hk]
    · simp only [IntMap.find, ih]

theorem IntMap.find_replace_self {V : Type} (m : List (Int × V)) (k : Int) (v w : V)
    (h : IntMap.find m k = some w) : IntMap.find (IntMap.replace k v m) k = some v := by
  induction m with
  | nil => simp [IntMap.find] at h
  | cons p ps ih =>
    unfold IntMap.find at h
    unfold IntMap.replace
    by_cases hp : p.1 = k
    · simp [IntMap.find, hp]
    · simp only [hp, if_false] at h
      simp only [hp, if_false, IntMap.find]
      exact ih h

theorem IntMap.find_replace_other {V : Type} (m : List (Int × V)) (k k2 : Int) (v : V)
    (h : k2 ≠ k) : IntMap.find (IntMap.replace k v m) k2 = IntMap.find m k2 := by
  induction m with
  | nil => rfl
  | cons p ps ih =>
    unfold IntMap.replace
    by_cases hp : p.1 = k
    · have hk : ¬ k = k2 := fun h2 => h h2.symm
      simp [IntMap.find, hp, hk]
    · simp only [hp, if_false, IntMap.find, ih]

theorem IntMap.find_store_self {V : Type} (m : List (Int × V)) (k : Int) (v : V) :
    IntMap.find (IntMap.store m k v) k = some v := by
  unfold IntMap.store
  cases h : IntMap.find m k with
  | none => exact IntMap.find_put_same m k v h
  | some w => exact IntMap.find_replace_self m k v w h

theorem IntMap.find_store_other {V : Type} (m : List (Int × V)) (k k2 : Int) (v : V)
    (h : k2 ≠ k) : IntMap.find (IntMap.store m k v) k2 = IntMap.find m k2 := by
  unfold IntMap.store
  cases IntMap.find m k with
  | none => exact IntMap.find_put_other m k k2 v h
  | some w => exact IntMap.find_replace_other m k k2 v h

theorem cassert_error (ndebug c : Bool) (e : Abort) (h : cassert ndebug c = .error e) :
    ndebug = false ∧ e = .assertFailed := by
  cases ndebug with
  | true => cases h
  | false =>
    cases c with
    | true => cases h
    | false =>
      simp only [cassert, Bool.false_eq_true, if_false, Except.error.injEq] at h
      exact ⟨rfl, h.symm⟩

namespace DynPtstoLoader

theorem insertObjs_cons_null (NullValue : Int) (ndebug : Bool) (s : List Int)
    (rest : List Int) :
    insertObjs NullValue ndebug s (NullValue :: rest) = insertObjs NullValue ndebug s rest := by
  rw [insertObjs]
  simp

theorem insertObjs_cons_ok (NullValue : Int) (ndebug : Bool) (s : List Int) (v : Int)
    (rest : List Int) (hv : v ≠ NullValue)
    (hc : cassert ndebug (IntSet.insert s v).2 = .ok ()) :
    insertObjs NullValue ndebug s (v :: rest) =
      insertObjs NullValue ndebug (IntSet.insert s v).1 rest := by
  rw [insertObjs]
  simp only [hv, ne_eq, not_false_eq_true, if_true, hc]

theorem insertObjs_cons_error (NullValue : Int) (ndebug : Bool) (s : List Int) (v : Int)
    (rest : List Int) (e : Abort) (hv : v ≠ NullValue)
    (hc : cassert ndebug (IntSet.insert s v).2 = .error e) :
    insertObjs NullValue ndebug s (v :: rest) = .error e := by
  rw [insertObjs]
  simp only [hv, ne_eq, not_false_eq_true, if_true, hc]

/-- What the insertions leave in the set: what was there, and the values of
the line other than `NullValue`. -/
theorem insertObjs_mem (NullValue : Int) (ndebug : Bool) :
    ∀ (vals s s2 : List Int), insertObjs NullValue ndebug s vals = .ok s2 →
      ∀ x, x ∈ s2 ↔ x ∈ s ∨ (x ∈ vals ∧ x ≠ NullValue) := by
  intro vals
  induction vals with
  | nil =>
    intro s s2 h x
    simp only [insertObjs, Except.ok.injEq] at h
    subst h
    simp
  | cons v rest ih =>
    intro s s2 h x
    by_cases hv : v = NullValue
    · subst hv
      rw [insertObjs_cons_null] at h
      rw [ih s s2 h x]
      constructor
      · rintro (h1 | ⟨h1, h2⟩)
        · exact Or.inl h1
        · exact Or.inr ⟨by simp [h1], h2⟩
      · rintro (h1 | ⟨h1, h2⟩)
        · exact Or.inl h1
        · rcases List.mem_cons.mp h1 with h3 | h3
          · exact absurd h3 h2
          · exact Or.inr ⟨h3, h2⟩
    · cases hc : cassert ndebug (IntSet.insert s v).2 with
      | error e =>
        rw [insertObjs_cons_error NullValue ndebug s v rest e hv hc] at h
        cases h
      | ok u =>
        rw [insertObjs_cons_ok NullValue ndebug s v rest hv hc] at h
        rw [ih _ s2 h x, IntSet.mem_insert_iff]
        constructor
        · rintro ((h1 | h1) | ⟨h1, h2⟩)
          · exact Or.inr ⟨by simp [h1], by rw [h1]; exact hv⟩
          · exact Or.inl h1
          · exact Or.inr ⟨by simp [h1], h2⟩
        · rintro (h1 | ⟨h1, h2⟩)
          · exact Or.inl (Or.inr h1)
          · rcases List.mem_cons.mp h1 with h3 | h3
            · exact Or.inl (Or.inl h3)
            · exact Or.inr ⟨h3, h2⟩

theorem insertObjs_nodup (NullValue : Int) (ndebug : Bool) :
    ∀ (vals s s2 : List Int), s.Nodup → insertObjs NullValue ndebug s vals = .ok s2 →
      s2.Nodup := by
  intro vals
  induction vals with
  | nil =>
    intro s s2 hs h
    simp only [insertObjs, Except.ok.injEq] at h
    exact h ▸ hs
  | cons v rest ih =>
    intro s s2 hs h
    by_cases hv : v = NullValue
    · subst hv
      rw [insertObjs_cons_null] at h
      exact ih s s2 hs h
    · cases hc : cassert ndebug (IntSet.insert s v).2 with
      | error e =>
        rw [insertObjs_cons_error NullValue ndebug s v rest e hv hc] at h
        cases h
      | ok u =>
        rw [insertObjs_cons_ok NullValue ndebug s v rest hv hc] at h
        exact ih _ s2 (IntSet.nodup_insert v s hs) h

/-- With the assertions compiled out the insertions go through. -/
theorem insertObjs_ndebug (NullValue : Int) :
    ∀ (vals s : List Int), ∃ s2, insertObjs NullValue true s vals = .ok s2 := by
  intro vals
  induction vals with
  | nil => exact fun s => ⟨s, rfl⟩
  | cons v rest ih =>
    intro s
    by_cases hv : v = NullValue
    · subst hv
      rw [insertObjs_cons_null]
      exact ih s
    · rw [insertObjs_cons_ok NullValue true s v rest hv rfl]
      exact ih _

/-- Values that are new and differ from each other are inserted without a
failed assertion. -/
theorem insertObjs_fresh (NullValue : Int) (ndebug : Bool) :
    ∀ (vals s : List Int), vals.Nodup → (∀ v ∈ vals, v ∉ s) →
      ∃ s2, insertObjs NullValue ndebug s vals = .ok s2 := by
  intro vals
  induction vals with
  | nil => exact fun s _ _ => ⟨s, rfl⟩
  | cons v rest ih =>
    intro s hn hs
    have hn2 := List.nodup_cons.mp hn
    by_cases hv : v = NullValue
    · subst hv
      rw [insertObjs_cons_null]
      exact ih s hn2.2 (fun w hw => hs w (by simp [hw]))
    · have hvs : v ∉ s := hs v (by simp)
      have hins : IntSet.insert s v = (IntSet.put v s, true) := by
        unfold IntSet.insert
        rw [if_neg hvs]
      have hc : cassert ndebug (IntSet.insert s v).2 = .ok () := by
        rw [hins]
        cases ndebug <;> rfl
      rw [insertObjs_cons_ok NullValue ndebug s v rest hv hc]
      refine ih _ hn2.2 ?_
      intro w hw hmem
      rw [IntSet.mem_insert_iff] at hmem
      rcases hmem with h1 | h1
      · exact hn2.1 (h1 ▸ hw)
      · exact hs w (by simp [hw]) h1

/-- A round whose key is a well-formed id: the values of the line are
inserted into the set of the key. -/
theorem record_key (NullValue : Int) (ndebug : Bool) (tbl : List (Int × List Int))
    (key : Numeral) (line : List Char) (hkey : key.wf = true) :
    record NullValue ndebug tbl key.text line =
      (insertObjs NullValue ndebug ((IntMap.find tbl key.val).getD []) (extractInts line)).map
        (IntMap.store tbl key.val) := by
  unfold record
  rw [Numeral.stoi_text key hkey]
  cases hi : insertObjs NullValue ndebug ((IntMap.find tbl key.val).getD [])
      (extractInts line) <;>
    simp [bind, Except.bind, hi, Except.map, pure, Except.pure]

/-- A round fails with the assertions compiled out exactly when `stoi` rejects
the key, and then with the error of `stoi`. -/
theorem record_error_iff (NullValue : Int) (tbl : List (Int × List Int))
    (key line : List Char) (e : Abort) :
    record NullValue true tbl key line = .error e ↔ stoi key = .error e := by
  unfold record
  cases hk : stoi key with
  | error e2 => simp [bind, Except.bind]
  | ok k =>
    obtain ⟨s2, hs2⟩ := insertObjs_ndebug NullValue (extractInts line)
      ((IntMap.find tbl k).getD [])
    simp [bind, Except.bind, hs2, pure, Except.pure]

theorem insertObjs_error (NullValue : Int) (ndebug : Bool) :
    ∀ (vals s : List Int) (e : Abort), insertObjs NullValue ndebug s vals = .error e →
      ndebug = false ∧ e = .assertFailed := by
  intro vals
  induction vals with
  | nil =>
    intro s e h
    simp [insertObjs] at h
  | cons v rest ih =>
    intro s e h
    by_cases hv : v = NullValue
    · subst hv
      rw [insertObjs_cons_null] at h
      exact ih s e h
    · cases hc : cassert ndebug (IntSet.insert s v).2 with
      | error e2 =>
        rw [insertObjs_cons_error NullValue ndebug s v rest e2 hv hc] at h
        simp only [Except.error.injEq] at h
        subst h
        exact cassert_error ndebug _ e2 hc
      | ok u =>
        rw [insertObjs_cons_ok NullValue ndebug s v rest hv hc] at h
        exact ih _ e h

end DynPtstoLoader

theorem stoi_error (key : List Char) (e : Abort) (h : stoi key = .error e) :
    e = .invalidArgument ∨ e = .outOfRange := by
  unfold stoi at h
  simp only at h
  split_ifs at h <;> simp only [Except.error.injEq] at h <;> simp [← h]

theorem DynPtstoLoader.record_error (NullValue : Int) (ndebug : Bool)
    (tbl : List (Int × List Int)) (key line : List Char) (e : Abort)
    (h : record NullValue ndebug tbl key line = .error e) :
    e = .invalidArgument ∨ e = .outOfRange ∨ (ndebug = false ∧ e = .assertFailed) := by
  unfold record at h
  cases hk : stoi key with
  | error e2 =>
    rw [hk] at h
    simp only [bind, Except.bind, Except.error.injEq] at h
    subst h
    rcases stoi_error key e2 hk with h1 | h1
    · exact Or.inl h1
    · exact Or.inr (Or.inl h1)
  | ok k =>
    rw [hk] at h
    cases hi : insertObjs NullValue ndebug ((IntMap.find tbl k).getD []) (extractInts line) with
    | error e2 =>
      simp only [bind, Except.bind, hi, Except.error.injEq] at h
      subst h
      exact Or.inr (Or.inr (insertObjs_error NullValue ndebug _ _ e2 hi))
    | ok s2 =>
      simp [bind, Except.bind, hi, pure, Except.pure] at h

/-! ## The table of `IndirFunctionInfo` -/

namespace IndirFunctionInfo

theorem targets_ndebug (id_to_fcn : List Nat) :
    ∀ fcn_ids : List Nat, targets true id_to_fcn fcn_ids =
      .ok (fcn_ids.map (fun i => lookupId id_to_fcn (toInt32 i))) := by
  intro fcn_ids
  induction fcn_ids with
  | nil => rfl
  | cons i rest ih =>
    rw [targets, ih]
    rfl

theorem targets_nonnull (ndebug : Bool) (id_to_fcn : List Nat) :
    ∀ fcn_ids : List Nat, (∀ i ∈ fcn_ids, lookupId id_to_fcn (toInt32 i) ≠ 0) →
      targets ndebug id_to_fcn fcn_ids =
        .ok (fcn_ids.map (fun i => lookupId id_to_fcn (toInt32 i))) := by
  intro fcn_ids
  induction fcn_ids with
  | nil => exact fun _ => rfl
  | cons i rest ih =>
    intro h
    have hi := h i (by simp)
    have hc : cassert ndebug (decide (lookupId id_to_fcn (toInt32 i) ≠ 0)) = .ok () := by
      unfold cassert
      simp [hi]
    rw [targets, hc, ih (fun j hj => h j (by simp [hj]))]
    rfl

theorem targets_error (ndebug : Bool) (id_to_fcn : List Nat) :
    ∀ (fcn_ids : List Nat) (e : Abort), targets ndebug id_to_fcn fcn_ids = .error e →
      ndebug = false ∧ e = .assertFailed := by
  intro fcn_ids e h
  cases ndebug with
  | true =>
    rw [targets_ndebug] at h
    cases h
  | false =>
    refine ⟨rfl, ?_⟩
    induction fcn_ids with
    | nil => simp [targets] at h
    | cons i rest ih =>
      rw [targets] at h
      cases hc : cassert false (decide (lookupId id_to_fcn (toInt32 i) ≠ 0)) with
      | error e2 =>
        rw [hc] at h
        simp only [Except.error.injEq] at h
        subst h
        exact (cassert_error false _ e2 hc).2
      | ok u =>
        rw [hc] at h
        simp only at h
        cases ht : targets false id_to_fcn rest with
        | error e3 =>
          rw [ht] at h
          simp only [Except.error.injEq] at h
          subst h
          exact ih ht
        | ok fcns =>
          rw [ht] at h
          cases h

/-- A round whose key is a well-formed id: the functions of the line are
appended to the vector of the call site. -/
theorem indir_record_key (ndebug : Bool) (ids : Ids) (tbl : List (Nat × List Nat))
    (key : Numeral) (line : List Char) (hkey : key.wf = true) :
    record ndebug ids tbl key.text line =
      (targets ndebug ids.id_to_fcn (extractUInts line)).map
        (fun fcns => StdMap.modify (lookupId ids.id_to_call key.val)
          (fun fcn_vec => fcn_vec ++ fcns)
          (StdMap.emplace tbl (lookupId ids.id_to_call key.val) []).1) := by
  unfold record
  rw [Numeral.stoi_text key hkey]
  cases hi : targets ndebug ids.id_to_fcn (extractUInts line) <;>
    simp [bind, Except.bind, hi, Except.map, pure, Except.pure]

theorem indir_record_error_iff (ids : Ids) (tbl : List (Nat × List Nat))
    (key line : List Char) (e : Abort) :
    record true ids tbl key line = .error e ↔ stoi key = .error e := by
  unfold record
  cases hk : stoi key with
  | error e2 => simp [bind, Except.bind]
  | ok k => simp [bind, Except.bind, targets_ndebug, pure, Except.pure]

theorem indir_record_error (ndebug : Bool) (ids : Ids) (tbl : List (Nat × List Nat))
    (key line : List Char) (e : Abort) (h : record ndebug ids tbl key line = .error e) :
    e = .invalidArgument ∨ e = .outOfRange ∨ (ndebug = false ∧ e = .assertFailed) := by
  unfold record at h
  cases hk : stoi key with
  | error e2 =>
    rw [hk] at h
    simp only [bind, Except.bind, Except.error.injEq] at h
    subst h
    rcases stoi_error key e2 hk with h1 | h1
    · exact Or.inl h1
    · exact Or.inr (Or.inl h1)
  | ok k =>
    rw [hk] at h
    cases hi : targets ndebug ids.id_to_fcn (extractUInts line) with
    | error e2 =>
      simp only [bind, Except.bind, hi, Except.error.injEq] at h
      subst h
      exact Or.inr (Or.inr (targets_error ndebug _ _ e2 hi))
    | ok s2 =>
      simp [bind, Except.bind, hi, pure, Except.pure] at h

end IndirFunctionInfo

/-! ## Lines with a malformed token -/

theorem isToken_texts (gs : List Numeral) (hgs : ∀ g ∈ gs, g.wf = true) (tj : List Char)
    (later : List (List Char)) (htj : isToken tj = true)
    (hlater : ∀ t ∈ later, isToken t = true) :
    ∀ t ∈ gs.map Numeral.text ++ tj :: later, isToken t = true := by
  intro t ht
  rcases List.mem_append.mp ht with h | h
  · obtain ⟨g, hg, rfl⟩ := List.mem_map.mp h
    exact Numeral.text_isToken g (hgs g hg)
  · rcases List.mem_cons.mp h with h2 | h2
    · exact h2 ▸ htj
    · exact hlater t h2

theorem extractInts_line_stop (gs : List Numeral) (hgs : ∀ g ∈ gs, g.wf = true)
    (tj : List Char) (later : List (List Char)) (htj : isToken tj = true)
    (h : extractInt32 tj = none) :
    extractInts (spaced (gs.map Numeral.text ++ tj :: later)) = gs.map Numeral.val := by
  rw [extractInts_spaced, spacedTail_append,
    extractInts_spacedTail gs hgs _ (spacedTail_head (tj :: later))]
  have h1 := extractInt32_token tj (spacedTail later) htj (spacedTail_head later)
  rw [h] at h1
  simp only [spacedTail, List.cons_append]
  rw [extractInts_space, extractInts_none _ h1, List.append_nil]

theorem extractInts_line_go (gs : List Numeral) (hgs : ∀ g ∈ gs, g.wf = true)
    (tj : List Char) (later : List (List Char)) (htj : isToken tj = true)
    (v : Int) (x : List Char) (h : extractInt32 tj = some (v, x)) :
    extractInts (spaced (gs.map Numeral.text ++ tj :: later)) =
      gs.map Numeral.val ++ v :: extractInts (x ++ spacedTail later) := by
  rw [extractInts_spaced, spacedTail_append,
    extractInts_spacedTail gs hgs _ (spacedTail_head (tj :: later))]
  have h1 := extractInt32_token tj (spacedTail later) htj (spacedTail_head later)
  rw [h] at h1
  simp only [spacedTail, List.cons_append]
  rw [extractInts_space, extractInts_some _ _ _ h1]

theorem extractUInts_line_stop (gs : List Numeral) (hgs : ∀ g ∈ gs, g.wfIndex = true)
    (tj : List Char) (later : List (List Char)) (htj : isToken tj = true)
    (h : extractUInt32 tj = none) :
    extractUInts (spaced (gs.map Numeral.text ++ tj :: later)) =
      gs.map (fun g => decVal g.digits) := by
  rw [extractUInts_spaced, spacedTail_append,
    extractUInts_spacedTail gs hgs _ (spacedTail_head (tj :: later))]
  have h1 := extractUInt32_token tj (spacedTail later) htj (spacedTail_head later)
  rw [h] at h1
  simp only [spacedTail, List.cons_append]
  rw [extractUInts_space, extractUInts_none _ h1, List.append_nil]

theorem extractUInts_line_go (gs : List Numeral) (hgs : ∀ g ∈ gs, g.wfIndex = true)
    (tj : List Char) (later : List (List Char)) (htj : isToken tj = true)
    (v : Nat) (x : List Char) (h : extractUInt32 tj = some (v, x)) :
    extractUInts (spaced (gs.map Numeral.text ++ tj :: later)) =
      gs.map (fun g => decVal g.digits) ++ v :: extractUInts (x ++ spacedTail later) := by
  rw [extractUInts_spaced, spacedTail_append,
    extractUInts_spacedTail gs hgs _ (spacedTail_head (tj :: later))]
  have h1 := extractUInt32_token tj (spacedTail later) htj (spacedTail_head later)
  rw [h] at h1
  simp only [spacedTail, List.cons_append]
  rw [extractUInts_space, extractUInts_some _ _ _ h1]

/-- C24: without a log file each loader completes, sets `hasInfo_` to false,
leaves its table as it was and returns false (for `DynPtstoLoader` once
`setupSpecSFSids` has returned); with a log file a run that completes has set
`hasInfo_` to true and returns false, and the run on an empty file
completes. -/
theorem loaders_without_log (NullValue : Int) (ndebug : Bool) (m : List llvm.Function)
    (d : DynPtstoLoader) (i : IndirFunctionInfo) :
    DynPtstoLoader.runOnModule NullValue ndebug (.ok ()) none d =
      .ok (false, DynPtstoLoader.mk false d.valToObjs_) ∧
    IndirFunctionInfo.runOnModule ndebug m none i =
      .ok (false, IndirFunctionInfo.mk false i.callToTarget_) ∧
    (∀ text b out,
      DynPtstoLoader.runOnModule NullValue ndebug (.ok ()) (some text) d = .ok (b, out) →
        b = false ∧ out.hasInfo_ = true) ∧
    (∀ text b out,
      IndirFunctionInfo.runOnModule ndebug m (some text) i = .ok (b, out) →
        b = false ∧ out.hasInfo_ = true) ∧
    DynPtstoLoader.runOnModule NullValue ndebug (.ok ()) (some []) d =
      .ok (false, DynPtstoLoader.mk true d.valToObjs_) ∧
    IndirFunctionInfo.runOnModule ndebug m (some []) i =
      .ok (false, IndirFunctionInfo.mk true i.callToTarget_) := by
  refine ⟨rfl, rfl, ?_, ?_, rfl, rfl⟩
  · intro text b out h
    unfold DynPtstoLoader.runOnModule at h
    cases hp : parseLog (DynPtstoLoader.record NullValue ndebug) text d.valToObjs_ with
    | error e => simp [bind, Except.bind, hp] at h
    | ok tbl =>
      simp only [bind, Except.bind, hp, pure, Except.pure, Except.ok.injEq,
        Prod.mk.injEq] at h
      exact ⟨h.1.symm, by rw [← h.2]⟩
  · intro text b out h
    unfold IndirFunctionInfo.runOnModule at h
    cases hp : parseLog (IndirFunctionInfo.record ndebug (IndirFunctionInfo.enumerate m)) text
        i.callToTarget_ with
    | error e => simp [hp] at h
    | ok tbl =>
      simp only [hp, Except.ok.injEq, Prod.mk.injEq] at h
      exact ⟨h.1.symm, by rw [← h.2]⟩

/-- C23, refuted at concrete log files with the assertions compiled out: a
record with an empty key, one with a key that is no number, one with a key
that is no `int`, and a blank line after the last record each make
`DynPtstoLoader::runOnModule` end in the exception of `stoi`; so does a key
that is no number for `IndirFunctionInfo::runOnModule`. -/
theorem loaders_malformed_key_fatal :
    DynPtstoLoader.runOnModule 0 true (.ok ()) (some [':', '1', '\n'])
      (DynPtstoLoader.mk false []) = .error .invalidArgument ∧
    DynPtstoLoader.runOnModule 0 true (.ok ()) (some ['x', ':', '1', '\n'])
      (DynPtstoLoader.mk false []) = .error .invalidArgument ∧
    DynPtstoLoader.runOnModule 0 true (.ok ())
      (some ['9', '9', '9', '9', '9', '9', '9', '9', '9', '9', '9', ':', '1', '\n'])
      (DynPtstoLoader.mk false []) = .error .outOfRange ∧
    DynPtstoLoader.runOnModule 0 true (.ok ()) (some ['1', ':', '2', '\n', '\n'])
      (DynPtstoLoader.mk false []) = .error .invalidArgument ∧
    IndirFunctionInfo.runOnModule true [] (some ['x', ':', '0', '\n'])
      (IndirFunctionInfo.mk false []) = .error .invalidArgument ∧
    IndirFunctionInfo.runOnModule true [] (some ['0', ':', '0', '\n', '\n'])
      (IndirFunctionInfo.mk false []) = .error .invalidArgument := by
  refine ⟨?_, ?_, ?_, ?_, ?_, ?_⟩ <;> decide

/-- C23 (amended): the errors of the two parse loops are those of `stoi` on a
key (`std::invalid_argument`, `std::out_of_range`) and, with the assertions
enabled, a failed assertion; with the assertions compiled out a round of
either loop fails exactly when `stoi` rejects its key, whatever the values of
the line are. -/
theorem loaders_errors_from_key (NullValue : Int) (ndebug : Bool) (m : List llvm.Function)
    (text : List Char) (d : DynPtstoLoader) (i : IndirFunctionInfo) :
    (∀ e, DynPtstoLoader.runOnModule NullValue ndebug (.ok ()) (some text) d = .error e →
      e = .invalidArgument ∨ e = .outOfRange ∨ (ndebug = false ∧ e = .assertFailed)) ∧
    (∀ e, IndirFunctionInfo.runOnModule ndebug m (some text) i = .error e →
      e = .invalidArgument ∨ e = .outOfRange ∨ (ndebug = false ∧ e = .assertFailed)) ∧
    (∀ tbl key line e,
      DynPtstoLoader.record NullValue true tbl key line = .error e ↔ stoi key = .error e) ∧
    (∀ tbl key line e,
      IndirFunctionInfo.record true (IndirFunctionInfo.enumerate m) tbl key line = .error e ↔
        stoi key = .error e) := by
  refine ⟨?_, ?_, DynPtstoLoader.record_error_iff NullValue,
    IndirFunctionInfo.indir_record_error_iff (IndirFunctionInfo.enumerate m)⟩
  · intro e h
    unfold DynPtstoLoader.runOnModule at h
    cases hp : parseLog (DynPtstoLoader.record NullValue ndebug) text d.valToObjs_ with
    | error e2 =>
      simp only [bind, Except.bind, hp, Except.error.injEq] at h
      subst h
      exact logLoop_error _ _ (DynPtstoLoader.record_error NullValue ndebug) _ _ _ e2 hp
    | ok tbl => simp [bind, Except.bind, hp, pure, Except.pure] at h
  · intro e h
    unfold IndirFunctionInfo.runOnModule at h
    cases hp : parseLog (IndirFunctionInfo.record ndebug (IndirFunctionInfo.enumerate m)) text
        i.callToTarget_ with
    | error e2 =>
      simp only [hp, Except.error.injEq] at h
      subst h
      exact logLoop_error _ _ (IndirFunctionInfo.indir_record_error ndebug _) _ _ _ e2 hp
    | ok tbl => simp [hp] at h

/-- C22, refuted at concrete log files: in the line `7:1 2x 3` the token `2x`
is the first one that is no integer, and `DynPtstoLoader` records `1` and `2`
for the key `7`, not `1` alone; in the line `0:0 1x 0` of the indirect-target
log the loader keeps the functions `0` and `1`, not the function `0` alone. -/
theorem loaders_keep_numeric_start :
    DynPtstoLoader.runOnModule 0 true (.ok ())
      (some ['7', ':', '1', ' ', '2', 'x', ' ', '3', '\n'])
      (DynPtstoLoader.mk false []) = .ok (false, DynPtstoLoader.mk true [(7, [1, 2])]) ∧
    IndirFunctionInfo.runOnModule true
      [llvm.Function.mk 100 ['f'] false [llvm.Instruction.mk 10 true false 0],
       llvm.Function.mk 200 ['g'] false []]
      (some ['0', ':', '0', ' ', '1', 'x', ' ', '0', '\n'])
      (IndirFunctionInfo.mk false []) =
        .ok (false, IndirFunctionInfo.mk true [(10, [100, 200])]) := by
  refine ⟨?_, ?_⟩ <;> decide

/-! ## The two enumerations of `IndirFcnTarget.cpp` -/

theorem realFunctions_cons (fcn : llvm.Function) (fs : List llvm.Function) :
    realFunctions (fcn :: fs) =
      (if !isIgnoredFcn fcn then [fcn.addr] else []) ++ realFunctions fs := by
  unfold realFunctions
  rw [List.filter_cons]
  cases isIgnoredFcn fcn <;> simp

theorem indirectCallSites_cons (fcn : llvm.Function) (fs : List llvm.Function) :
    indirectCallSites (fcn :: fs) =
      (fcn.insts.filter (fun i => i.isCallInst && decide (i.fcnFromCall = 0) &&
        !i.calledIsInlineAsm)).map (fun i => i.addr) ++ indirectCallSites fs := by
  unfold indirectCallSites
  rw [List.map_cons, List.flatten_cons]

theorem realFunctions_append (fs gs : List llvm.Function) :
    realFunctions (fs ++ gs) = realFunctions fs ++ realFunctions gs := by
  unfold realFunctions
  rw [List.filter_append, List.map_append]

theorem indirectCallSites_append (fs gs : List llvm.Function) :
    indirectCallSites (fs ++ gs) = indirectCallSites fs ++ indirectCallSites gs := by
  unfold indirectCallSites
  rw [List.map_append, List.flatten_append]

theorem realFunctions_mem (m : List llvm.Function) (a : Nat) (h : a ∈ realFunctions m) :
    ∃ fcn ∈ m, fcn.addr = a := by
  unfold realFunctions at h
  obtain ⟨fcn, hf, rfl⟩ := List.mem_map.mp h
  exact ⟨fcn, (List.mem_filter.mp hf).1, rfl⟩

namespace IndirFunctionInfo

theorem insertList_foldl (insts acc : List llvm.Instruction) :
    insts.foldl (fun insert_list inst =>
      if inst.isCallInst then
        if inst.calledIsInlineAsm then insert_list
        else if inst.fcnFromCall = 0 then insert_list ++ [inst] else insert_list
      else insert_list) acc =
    acc ++ insts.filter (fun i => i.isCallInst && decide (i.fcnFromCall = 0) &&
      !i.calledIsInlineAsm) := by
  induction insts generalizing acc with
  | nil => simp
  | cons i rest ih =>
    rw [List.foldl_cons, ih, List.filter_cons]
    cases h1 : i.isCallInst <;> cases h2 : i.calledIsInlineAsm <;>
      by_cases h3 : i.fcnFromCall = 0 <;> simp [h3]

theorem insertList_eq (insts : List llvm.Instruction) :
    insertList insts = insts.filter (fun i => i.isCallInst && decide (i.fcnFromCall = 0) &&
      !i.calledIsInlineAsm) := by
  unfold insertList
  rw [insertList_foldl]
  rfl

theorem push_calls (l : List llvm.Instruction) (ids : Ids) :
    l.foldl (fun ids v => { ids with id_to_call := ids.id_to_call ++ [v.addr] }) ids =
      { ids with id_to_call := ids.id_to_call ++ l.map (fun i => i.addr) } := by
  induction l generalizing ids with
  | nil => simp
  | cons v rest ih =>
    rw [List.foldl_cons, ih]
    simp

theorem visit_eq (ids : Ids) (fcn : llvm.Function) :
    visit ids fcn =
      { id_to_fcn := ids.id_to_fcn ++ (if !isIgnoredFcn fcn then [fcn.addr] else []),
        id_to_call := ids.id_to_call ++
          (fcn.insts.filter (fun i => i.isCallInst && decide (i.fcnFromCall = 0) &&
            !i.calledIsInlineAsm)).map (fun i => i.addr) } := by
  unfold visit
  rw [insertList_eq, push_calls]
  cases isIgnoredFcn fcn <;> simp

theorem foldl_visit (fs : List llvm.Function) (ids : Ids) :
    fs.foldl visit ids =
      { id_to_fcn := ids.id_to_fcn ++ realFunctions fs,
        id_to_call := ids.id_to_call ++ indirectCallSites fs } := by
  induction fs generalizing ids with
  | nil => simp [realFunctions, indirectCallSites]
  | cons fcn rest ih =>
    rw [List.foldl_cons, ih, visit_eq, realFunctions_cons, indirectCallSites_cons]
    simp only [List.append_assoc]

/-- The reader lists the functions that are not ignored and the indirect call
sites that are not inline assembly, in the order of the module. -/
theorem enumerate_eq (m : List llvm.Function) :
    enumerate m = { id_to_fcn := realFunctions m, id_to_call := indirectCallSites m } := by
  unfold enumerate
  rw [foldl_visit]
  simp

end IndirFunctionInfo

namespace InstrIndirCalls

theorem writer_insertList_foldl (insts acc : List llvm.Instruction) :
    insts.foldl (fun insert_list inst =>
      if inst.isCallInst then
        if inst.fcnFromCall = 0 then insert_list ++ [inst] else insert_list
      else insert_list) acc =
    acc ++ insts.filter (fun i => i.isCallInst && decide (i.fcnFromCall = 0)) := by
  induction insts generalizing acc with
  | nil => simp
  | cons i rest ih =>
    rw [List.foldl_cons, ih, List.filter_cons]
    cases h1 : i.isCallInst <;> by_cases h3 : i.fcnFromCall = 0 <;> simp [h3]

theorem writer_insertList_eq (insts : List llvm.Instruction) :
    insertList insts = insts.filter (fun i => i.isCallInst && decide (i.fcnFromCall = 0)) := by
  unfold insertList
  rw [writer_insertList_foldl]
  rfl

theorem instrument_eq (l : List llvm.Instruction) (st : State) :
    instrument st l =
      { fcn_id := st.fcn_id + (l.filter (fun i => !i.calledIsInlineAsm)).length,
        fcn_lookup_initializer := st.fcn_lookup_initializer,
        inserted := st.inserted ++ List.enumFrom st.fcn_id
          ((l.filter (fun i => !i.calledIsInlineAsm)).map (fun i => i.addr)) } := by
  unfold instrument
  induction l generalizing st with
  | nil => simp
  | cons ci rest ih =>
    rw [List.foldl_cons, ih, List.filter_cons]
    cases h : ci.calledIsInlineAsm
    · simp only [Bool.false_eq_true, if_false, Bool.not_false, if_true, List.length_cons,
        List.map_cons, List.enumFrom_cons, List.append_assoc, List.singleton_append,
        State.mk.injEq, and_true, true_and]
      omega
    · simp

theorem writer_visit_eq (st : State) (fcn : llvm.Function) :
    visit st fcn =
      { fcn_id := st.fcn_id + (fcn.insts.filter (fun i => i.isCallInst &&
            decide (i.fcnFromCall = 0) && !i.calledIsInlineAsm)).length,
        fcn_lookup_initializer := st.fcn_lookup_initializer ++
          (if !isIgnoredFcn fcn then [fcn.addr] else []),
        inserted := st.inserted ++ List.enumFrom st.fcn_id
          ((fcn.insts.filter (fun i => i.isCallInst && decide (i.fcnFromCall = 0) &&
            !i.calledIsInlineAsm)).map (fun i => i.addr)) } := by
  have hf : (insertList fcn.insts).filter (fun i => !i.calledIsInlineAsm) =
      fcn.insts.filter (fun i => i.isCallInst && decide (i.fcnFromCall = 0) &&
        !i.calledIsInlineAsm) := by
    rw [writer_insertList_eq, List.filter_filter]
    congr 1
    funext i
    cases i.isCallInst <;> cases i.calledIsInlineAsm <;> simp
  unfold visit
  rw [instrument_eq, hf]
  cases isIgnoredFcn fcn <;> simp

theorem writer_foldl_visit (fs : List llvm.Function) (st : State) :
    fs.foldl visit st =
      { fcn_id := st.fcn_id + (indirectCallSites fs).length,
        fcn_lookup_initializer := st.fcn_lookup_initializer ++ realFunctions fs,
        inserted := st.inserted ++ List.enumFrom st.fcn_id (indirectCallSites fs) } := by
  induction fs generalizing st with
  | nil => simp [realFunctions, indirectCallSites]
  | cons fcn rest ih =>
    rw [List.foldl_cons, ih, writer_visit_eq, realFunctions_cons, indirectCallSites_cons]
    simp only [List.append_assoc, List.length_append, List.length_map, List.enumFrom_append,
      Nat.add_assoc]

/-- The writer gives the indirect call sites that are not inline assembly the
ids `0, 1, ...` in the order of the module, and lists the functions that are
not ignored in that order; the declaration it has added to the module changes
neither list. -/
theorem runOnModule_eq (m : List llvm.Function) (call_fcn_addr : Nat) :
    runOnModule m call_fcn_addr =
      { fcn_id := (indirectCallSites m).length,
        fcn_lookup_initializer := realFunctions m,
        inserted := List.enumFrom 0 (indirectCallSites m) } := by
  have hp : fcnCallName.isPrefixOf fcnCallName = true := by decide
  have h1 : realFunctions [llvm.Function.mk call_fcn_addr fcnCallName false []] = [] := by
    simp [realFunctions, isIgnoredFcn, hp]
  have h2 : indirectCallSites [llvm.Function.mk call_fcn_addr fcnCallName false []] = [] := by
    rfl
  unfold runOnModule
  rw [writer_foldl_visit, realFunctions_append, indirectCallSites_append, h1, h2]
  simp

end InstrIndirCalls

/-- C26: the writer and the reader enumerate alike.  The calls that
`InstrIndirCalls` instruments, with the ids it gives them, are the call sites
of the reader's `id_to_call` with their positions, so a call site has the id
`i` exactly when it is the entry `i` of `id_to_call`; both lists are the calls
without a statically known callee and not of inline assembly, in module order
then instruction order.  The writer's lookup table is the reader's
`id_to_fcn`; both are the functions that `isIgnoredFcn` does not ignore, in
module order. -/
theorem enumerations_agree (m : List llvm.Function) (call_fcn_addr : Nat) :
    (InstrIndirCalls.runOnModule m call_fcn_addr).inserted =
      (IndirFunctionInfo.enumerate m).id_to_call.enum ∧
    (∀ i call, (i, call) ∈ (InstrIndirCalls.runOnModule m call_fcn_addr).inserted ↔
      (IndirFunctionInfo.enumerate m).id_to_call[i]? = some call) ∧
    (IndirFunctionInfo.enumerate m).id_to_call = indirectCallSites m ∧
    (InstrIndirCalls.runOnModule m call_fcn_addr).fcn_lookup_initializer =
      (IndirFunctionInfo.enumerate m).id_to_fcn ∧
    (IndirFunctionInfo.enumerate m).id_to_fcn = realFunctions m ∧
    (InstrIndirCalls.runOnModule m call_fcn_addr).fcn_id =
      (IndirFunctionInfo.enumerate m).id_to_call.length := by
  rw [InstrIndirCalls.runOnModule_eq, IndirFunctionInfo.enumerate_eq]
  refine ⟨rfl, ?_, rfl, rfl, rfl, rfl⟩
  intro i call
  exact List.mk_mem_enum_iff_getElem?

/-! ## Well-formed logs -/

theorem LogRecord.wf_parts (r : LogRecord) (h : r.wf = true) :
    r.key.wf = true ∧ ∀ i ∈ r.ids, i.wf = true := by
  simp only [LogRecord.wf, Bool.and_eq_true, List.all_eq_true] at h
  exact h

theorem logText_cons (r : LogRecord) (rs : List LogRecord) :
    logText (r :: rs) =
      r.key.text ++ ':' :: (spaced (r.ids.map Numeral.text) ++ '\n' :: logText rs) := by
  simp [logText, LogRecord.text]

theorem isToken_ids (gs : List Numeral) (hgs : ∀ g ∈ gs, g.wf = true) :
    ∀ t ∈ gs.map Numeral.text, isToken t = true := by
  intro t ht
  obtain ⟨g, hg, rfl⟩ := List.mem_map.mp ht
  exact Numeral.text_isToken g (hgs g hg)

theorem extractInts_ids (gs : List Numeral) (hgs : ∀ g ∈ gs, g.wf = true) :
    extractInts (spaced (gs.map Numeral.text)) = gs.map Numeral.val := by
  have h := extractInts_spacedTail gs hgs [] (by simp)
  rw [List.append_nil] at h
  rw [extractInts_spaced, h]
  show gs.map Numeral.val ++ [] = _
  rw [List.append_nil]

theorem extractUInts_ids (gs : List Numeral) (hgs : ∀ g ∈ gs, g.wfIndex = true) :
    extractUInts (spaced (gs.map Numeral.text)) = gs.map (fun g => decVal g.digits) := by
  have h := extractUInts_spacedTail gs hgs [] (by simp)
  rw [List.append_nil] at h
  rw [extractUInts_spaced, h]
  show gs.map (fun g => decVal g.digits) ++ [] = _
  rw [List.append_nil]

/-- The loop of `DynPtstoLoader` on a well-formed log whose keys are new to the
table and differ from each other: it completes, the entries of other keys stay,
and each record has its set. -/
theorem DynPtstoLoader.parse_wellformed (NullValue : Int) (ndebug : Bool) :
    ∀ (recs : List LogRecord) (tbl : List (Int × List Int)),
      (∀ r ∈ recs, r.wf = true) →
      (recs.map (fun r => r.key.val)).Nodup →
      (∀ r ∈ recs, (r.ids.map Numeral.val).Nodup) →
      (∀ r ∈ recs, IntMap.find tbl r.key.val = none) →
      ∃ out, parseLog (DynPtstoLoader.record NullValue ndebug) (logText recs) tbl = .ok out ∧
        (∀ k, (∀ r ∈ recs, r.key.val ≠ k) → IntMap.find out k = IntMap.find tbl k) ∧
        (∀ r ∈ recs, ∃ s, IntMap.find out r.key.val = some s ∧ s.Nodup ∧
          ∀ x, x ∈ s ↔ x ∈ r.ids.map Numeral.val ∧ x ≠ NullValue) := by
  intro recs
  induction recs with
  | nil =>
    intro tbl _ _ _ _
    exact ⟨tbl, rfl, fun _ _ => rfl, fun r hr => absurd hr (List.not_mem_nil r)⟩
  | cons r rs ih =>
    intro tbl hwf hkeys hids hnew
    obtain ⟨hkey, hidswf⟩ := LogRecord.wf_parts r (hwf r (by simp))
    rw [List.map_cons] at hkeys
    have hk2 := List.nodup_cons.mp hkeys
    have hnone := hnew r (by simp)
    obtain ⟨s, hs⟩ := DynPtstoLoader.insertObjs_fresh NullValue ndebug
      (r.ids.map Numeral.val) [] (hids r (by simp)) (fun v _ => List.not_mem_nil v)
    have hrec : DynPtstoLoader.record NullValue ndebug tbl r.key.text
        (spaced (r.ids.map Numeral.text)) = .ok (IntMap.store tbl r.key.val s) := by
      rw [DynPtstoLoader.record_key NullValue ndebug tbl r.key _ hkey,
        extractInts_ids r.ids hidswf, hnone]
      show (DynPtstoLoader.insertObjs NullValue ndebug [] (r.ids.map Numeral.val)).map _ = _
      rw [hs]
      rfl
    have hother : ∀ r2 ∈ rs, r2.key.val ≠ r.key.val := by
      intro r2 hr2 heq
      exact hk2.1 (List.mem_map.mpr ⟨r2, hr2, heq⟩)
    obtain ⟨out, hout, hkeep, hsets⟩ := ih (IntMap.store tbl r.key.val s)
      (fun r2 hr2 => hwf r2 (by simp [hr2])) hk2.2
      (fun r2 hr2 => hids r2 (by simp [hr2]))
      (fun r2 hr2 => by
        rw [IntMap.find_store_other tbl r.key.val r2.key.val s (hother r2 hr2)]
        exact hnew r2 (by simp [hr2]))
    refine ⟨out, ?_, ?_, ?_⟩
    · rw [logText_cons, parseLog_record _ _ _ _ _ (Numeral.colon_not_mem r.key hkey)
        (newline_not_mem_spaced _ (isToken_ids r.ids hidswf)), hrec]
      exact hout
    · intro k hk
      rw [hkeep k (fun r2 hr2 => hk r2 (by simp [hr2]))]
      exact IntMap.find_store_other tbl r.key.val k s (fun h => hk r (by simp) h.symm)
    · intro r2 hr2
      rcases List.mem_cons.mp hr2 with h | h
      · subst h
        refine ⟨s, ?_, DynPtstoLoader.insertObjs_nodup NullValue ndebug _ [] s
          List.nodup_nil hs, ?_⟩
        · rw [hkeep r2.key.val (fun r3 hr3 => hother r3 hr3)]
          exact IntMap.find_store_self tbl r2.key.val s
        · intro x
          rw [DynPtstoLoader.insertObjs_mem NullValue ndebug _ [] s hs x]
          simp
      · exact hsets r2 h

/-- C21: on a log of well-formed records with distinct keys and no id
repeated within a record `DynPtstoLoader::runOnModule`, started with an empty
table, completes; the keys of its table are exactly the first ids of the
records, the set of each key holds exactly the other ids of its record except
`NullValue`, each once, and `NullValue` is in no set of the table. -/
theorem DynPtstoLoader.runOnModule_wellformed (NullValue : Int) (ndebug : Bool)
    (recs : List LogRecord) (d : DynPtstoLoader) (hd : d.valToObjs_ = [])
    (hwf : ∀ r ∈ recs, r.wf = true)
    (hkeys : (recs.map (fun r => r.key.val)).Nodup)
    (hids : ∀ r ∈ recs, (r.ids.map Numeral.val).Nodup) :
    ∃ out, DynPtstoLoader.runOnModule NullValue ndebug (.ok ()) (some (logText recs)) d =
        .ok (false, out) ∧
      out.hasInfo_ = true ∧
      (∀ k, (IntMap.find out.valToObjs_ k).isSome = true ↔ ∃ r ∈ recs, r.key.val = k) ∧
      (∀ r ∈ recs, ∃ s, IntMap.find out.valToObjs_ r.key.val = some s ∧ s.Nodup ∧
        ∀ x, x ∈ s ↔ x ∈ r.ids.map Numeral.val ∧ x ≠ NullValue) ∧
      (∀ k s, IntMap.find out.valToObjs_ k = some s → NullValue ∉ s) := by
  obtain ⟨tbl, htbl, hkeep, hsets⟩ := DynPtstoLoader.parse_wellformed NullValue ndebug recs []
    hwf hkeys hids (fun _ _ => rfl)
  have hkey : ∀ k, (IntMap.find tbl k).isSome = true ↔ ∃ r ∈ recs, r.key.val = k := by
    intro k
    constructor
    · intro h
      by_contra hno
      have := hkeep k (fun r hr heq => hno ⟨r, hr, heq⟩)
      rw [this] at h
      simp [IntMap.find] at h
    · rintro ⟨r, hr, rfl⟩
      obtain ⟨s, hs, _⟩ := hsets r hr
      rw [hs]
      rfl
  refine ⟨DynPtstoLoader.mk true tbl, ?_, rfl, hkey, hsets, ?_⟩
  · unfold DynPtstoLoader.runOnModule
    rw [hd]
    simp [bind, Except.bind, htbl, pure, Except.pure]
  · intro k s hks hmem
    obtain ⟨r, hr, rfl⟩ := (hkey k).mp (by rw [hks]; rfl)
    obtain ⟨s2, hs2, _, hx⟩ := hsets r hr
    rw [hks] at hs2
    cases hs2
    exact ((hx NullValue).mp hmem).2 rfl

/-- C21 at the log `1:2 0 3`, `4:5` with the reserved id `0`: the run
completes with the keys `1` and `4`, and `0` is in no set. -/
theorem DynPtstoLoader.runOnModule_wellformed_witness :
    ∃ out, DynPtstoLoader.runOnModule 0 false (.ok ())
        (some ['1', ':', '2', ' ', '0', ' ', '3', '\n', '4', ':', '5', '\n'])
        (DynPtstoLoader.mk false []) = .ok (false, out) ∧
      out.hasInfo_ = true ∧
      (∀ k, (IntMap.find out.valToObjs_ k).isSome = true ↔
        ∃ r ∈ [LogRecord.mk (Numeral.mk false ['1'])
                [Numeral.mk false ['2'], Numeral.mk false ['0'], Numeral.mk false ['3']],
               LogRecord.mk (Numeral.mk false ['4']) [Numeral.mk false ['5']]],
          r.key.val = k) ∧
      (∀ r ∈ [LogRecord.mk (Numeral.mk false ['1'])
                [Numeral.mk false ['2'], Numeral.mk false ['0'], Numeral.mk false ['3']],
               LogRecord.mk (Numeral.mk false ['4']) [Numeral.mk false ['5']]],
        ∃ s, IntMap.find out.valToObjs_ r.key.val = some s ∧ s.Nodup ∧
          ∀ x, x ∈ s ↔ x ∈ r.ids.map Numeral.val ∧ x ≠ 0) ∧
      (∀ k s, IntMap.find out.valToObjs_ k = some s → (0 : Int) ∉ s) :=
  DynPtstoLoader.runOnModule_wellformed 0 false
    [LogRecord.mk (Numeral.mk false ['1'])
      [Numeral.mk false ['2'], Numeral.mk false ['0'], Numeral.mk false ['3']],
     LogRecord.mk (Numeral.mk false ['4']) [Numeral.mk false ['5']]]
    (DynPtstoLoader.mk false []) rfl (by decide) (by decide) (by decide)

/-! ## Indirect-target logs with valid indices -/

theorem LogRecord.valid_parts (ids : IndirFunctionInfo.Ids) (r : LogRecord)
    (h : r.valid ids = true) :
    r.key.wfIndex = true ∧ decVal r.key.digits < ids.id_to_call.length ∧
      ∀ f ∈ r.ids, f.wfIndex = true ∧ decVal f.digits < ids.id_to_fcn.length := by
  simp only [LogRecord.valid, Bool.and_eq_true, List.all_eq_true, decide_eq_true_eq] at h
  exact ⟨h.1.1, h.1.2, h.2⟩

theorem IndirFunctionInfo.lookupId_index (l : List Nat) (n : Nat) :
    lookupId l (n : Int) = l.getD n 0 := by
  unfold lookupId
  rw [if_pos (Int.natCast_nonneg n)]
  rfl

theorem IndirFunctionInfo.toInt32_small (n : Nat) (h : n ≤ 2147483647) :
    toInt32 n = (n : Int) := by
  unfold toInt32
  rw [if_pos (by omega)]

theorem Numeral.val_index (n : Numeral) (h : n.wfIndex = true) :
    n.val = (decVal n.digits : Int) := by
  unfold Numeral.val
  rw [(Numeral.wfIndex_digits n h).1]
  rfl

/-- The round of `IndirFunctionInfo` on a record with valid indices: the
functions of the record are appended to the vector of its call site. -/
theorem IndirFunctionInfo.record_valid (ndebug : Bool) (ids : Ids)
    (hnz : ∀ a ∈ ids.id_to_fcn, a ≠ 0) (tbl : List (Nat × List Nat)) (r : LogRecord)
    (h : r.valid ids = true) :
    record ndebug ids tbl r.key.text (spaced (r.ids.map Numeral.text)) =
      .ok (StdMap.modify (r.callSite ids) (fun fcn_vec => fcn_vec ++ r.functions ids)
        (StdMap.emplace tbl (r.callSite ids) []).1) := by
  obtain ⟨hkey, _, hfs⟩ := LogRecord.valid_parts ids r h
  have hmap : (r.ids.map (fun g => decVal g.digits)).map
      (fun i => lookupId ids.id_to_fcn (toInt32 i)) = r.functions ids := by
    unfold LogRecord.functions
    rw [List.map_map]
    apply List.map_congr_left
    intro f hf
    have h1 := (Numeral.wfIndex_digits f (hfs f hf).1).2.2.2
    simp only [Function.comp]
    rw [toInt32_small _ h1, lookupId_index]
  have hnn : ∀ i ∈ r.ids.map (fun g => decVal g.digits),
      lookupId ids.id_to_fcn (toInt32 i) ≠ 0 := by
    intro i hi
    obtain ⟨f, hf, rfl⟩ := List.mem_map.mp hi
    have h1 := (Numeral.wfIndex_digits f (hfs f hf).1).2.2.2
    rw [toInt32_small _ h1, lookupId_index, List.getD_eq_getElem _ _ (hfs f hf).2]
    exact hnz _ (List.getElem_mem _)
  rw [indir_record_key ndebug ids tbl r.key _ (Numeral.wfIndex_wf r.key hkey),
    extractUInts_ids r.ids (fun f hf => (hfs f hf).1),
    targets_nonnull ndebug ids.id_to_fcn _ hnn, hmap, Numeral.val_index r.key hkey,
    lookupId_index]
  rfl

theorem StdMap.vec_modify_emplace_self (m : List (Nat × List Nat)) (k : Nat)
    (fcns : List Nat) :
    StdMap.find (StdMap.modify k (fun v => v ++ fcns) (StdMap.emplace m k []).1) k =
      some (k, ((StdMap.find m k).map Prod.snd).getD [] ++ fcns) := by
  cases h : StdMap.find m k with
  | none =>
    rw [StdMap.find_modify_self _ k _ (k, []) (StdMap.find_emplace_none m k [] h)]
    rfl
  | some p =>
    rw [StdMap.find_modify_self _ k _ p (StdMap.find_emplace_some m k [] p h)]
    rfl

theorem StdMap.vec_modify_emplace_ne (m : List (Nat × List Nat)) (k k2 : Nat)
    (fcns : List Nat) (h : k2 ≠ k) :
    StdMap.find (StdMap.modify k (fun v => v ++ fcns) (StdMap.emplace m k []).1) k2 =
      StdMap.find m k2 := by
  rw [StdMap.find_modify_ne _ k k2 _ h, StdMap.find_emplace_ne m k k2 [] h]

/-- The loop of `IndirFunctionInfo` on a log with valid indices: it completes;
the vector of each call site is what the table had for it followed by the
functions of the records of that call site, in the order of the file. -/
theorem IndirFunctionInfo.parse_valid (ndebug : Bool) (ids : Ids)
    (hnz : ∀ a ∈ ids.id_to_fcn, a ≠ 0) :
    ∀ (recs : List LogRecord) (tbl : List (Nat × List Nat)),
      (∀ r ∈ recs, r.valid ids = true) →
      ∃ out, parseLog (record ndebug ids) (logText recs) tbl = .ok out ∧
        ∀ p, ((StdMap.find out p).map Prod.snd).getD [] =
            ((StdMap.find tbl p).map Prod.snd).getD [] ++
              ((recs.filter (fun r => decide (r.callSite ids = p))).map
                (fun r => r.functions ids)).flatten ∧
          (StdMap.find out p).isSome =
            ((StdMap.find tbl p).isSome ||
              recs.any (fun r => decide (r.callSite ids = p))) := by
  intro recs
  induction recs with
  | nil =>
    intro tbl _
    exact ⟨tbl, rfl, fun p => ⟨by simp, by simp⟩⟩
  | cons r rs ih =>
    intro tbl hv
    have hr := hv r (by simp)
    obtain ⟨hkey, _, hfs⟩ := LogRecord.valid_parts ids r hr
    obtain ⟨out, hout, hvec⟩ := ih
      (StdMap.modify (r.callSite ids) (fun fcn_vec => fcn_vec ++ r.functions ids)
        (StdMap.emplace tbl (r.callSite ids) []).1)
      (fun r2 hr2 => hv r2 (by simp [hr2]))
    refine ⟨out, ?_, ?_⟩
    · rw [logText_cons, parseLog_record _ _ _ _ _
        (Numeral.colon_not_mem r.key (Numeral.wfIndex_wf r.key hkey))
        (newline_not_mem_spaced _
          (isToken_ids r.ids (fun f hf => Numeral.wfIndex_wf f (hfs f hf).1))),
        record_valid ndebug ids hnz tbl r hr]
      exact hout
    · intro p
      obtain ⟨h1, h2⟩ := hvec p
      by_cases hp : r.callSite ids = p
      · subst hp
        rw [StdMap.vec_modify_emplace_self] at h1 h2
        constructor
        · rw [h1]
          simp [List.filter_cons]
        · rw [h2]
          simp
      · have hp2 : p ≠ r.callSite ids := fun h => hp h.symm
        rw [StdMap.vec_modify_emplace_ne _ _ _ _ hp2] at h1 h2
        constructor
        · rw [h1]
          simp [List.filter_cons, hp]
        · rw [h2]
          simp [hp]

/-- C25: on a log whose records use only valid indices
`IndirFunctionInfo::runOnModule`, started with an empty table on a module
whose functions have non-null addresses, completes; the call sites of its
table are those that the records name, and each is mapped to the functions
that the records of that call site name, in the order listed and record after
record in the order of the file. -/
theorem IndirFunctionInfo.runOnModule_valid (ndebug : Bool) (m : List llvm.Function)
    (recs : List LogRecord) (i : IndirFunctionInfo) (hi : i.callToTarget_ = [])
    (hnz : ∀ fcn ∈ m, fcn.addr ≠ 0)
    (hvalid : ∀ r ∈ recs, r.valid (enumerate m) = true) :
    ∃ out, runOnModule ndebug m (some (logText recs)) i = .ok (false, out) ∧
      out.hasInfo_ = true ∧
      (∀ r ∈ recs, StdMap.find out.callToTarget_ (r.callSite (enumerate m)) =
        some (r.callSite (enumerate m),
          ((recs.filter (fun r2 =>
              decide (r2.callSite (enumerate m) = r.callSite (enumerate m)))).map
            (fun r2 => r2.functions (enumerate m))).flatten)) ∧
      (∀ p, (StdMap.find out.callToTarget_ p).isSome =
        recs.any (fun r => decide (r.callSite (enumerate m) = p))) := by
  have hnz2 : ∀ a ∈ (enumerate m).id_to_fcn, a ≠ 0 := by
    intro a ha
    rw [enumerate_eq] at ha
    obtain ⟨fcn, hf, rfl⟩ := realFunctions_mem m a ha
    exact hnz fcn hf
  obtain ⟨tbl, htbl, hvec⟩ := parse_valid ndebug (enumerate m) hnz2 recs [] hvalid
  refine ⟨IndirFunctionInfo.mk true tbl, ?_, rfl, ?_, ?_⟩
  · unfold runOnModule
    rw [hi]
    simp only [htbl]
  · intro r hr
    obtain ⟨h1, h2⟩ := hvec (r.callSite (enumerate m))
    have hsome : (StdMap.find tbl (r.callSite (enumerate m))).isSome = true := by
      rw [h2]
      simp only [StdMap.find, Option.isSome_none, Bool.false_or, List.any_eq_true,
        decide_eq_true_eq]
      exact ⟨r, hr, rfl⟩
    cases hf : StdMap.find tbl (r.callSite (enumerate m)) with
    | none => simp [hf] at hsome
    | some q =>
      have hq := (StdMap.find_some tbl _ q hf).2
      rw [hf] at h1
      simp only [Option.map_some', Option.getD_some, StdMap.find, Option.map_none',
        Option.getD_none, List.nil_append] at h1
      show some q = some (_, _)
      rw [← h1, ← hq]
  · intro p
    rw [(hvec p).2]
    simp [StdMap.find]

/-- C25 at a module with the functions `100` and `200` and the indirect call
sites `10` and `20`, and the log `0:0 1`, `1:1`, `0:1`: the call site `10`
is mapped to the functions `100, 200, 200`. -/
theorem IndirFunctionInfo.runOnModule_valid_witness :
    ∃ out, IndirFunctionInfo.runOnModule false
        [llvm.Function.mk 100 ['f'] false
          [llvm.Instruction.mk 10 true false 0, llvm.Instruction.mk 20 true false 0],
         llvm.Function.mk 200 ['g'] false []]
        (some ['0', ':', '0', ' ', '1', '\n', '1', ':', '1', '\n', '0', ':', '1', '\n'])
        (IndirFunctionInfo.mk false []) = .ok (false, out) ∧
      StdMap.find out.callToTarget_ 10 = some (10, [100, 200, 200]) :=
  (fun h => h.imp (fun out ho => ⟨ho.1, ho.2.2.1 _ (List.mem_cons_self _ _)⟩))
    (IndirFunctionInfo.runOnModule_valid false
      [llvm.Function.mk 100 ['f'] false
        [llvm.Instruction.mk 10 true false 0, llvm.Instruction.mk 20 true false 0],
       llvm.Function.mk 200 ['g'] false []]
      [LogRecord.mk (Numeral.mk false ['0']) [Numeral.mk false ['0'], Numeral.mk false ['1']],
       LogRecord.mk (Numeral.mk false ['1']) [Numeral.mk false ['1']],
       LogRecord.mk (Numeral.mk false ['0']) [Numeral.mk false ['1']]]
      (IndirFunctionInfo.mk false []) rfl (by decide) (by decide))

/-! ## What a round records from a line with a malformed token -/

theorem IndirFunctionInfo.targets_ok (ndebug : Bool) (id_to_fcn : List Nat) :
    ∀ (fcn_ids fcns : List Nat), targets ndebug id_to_fcn fcn_ids = .ok fcns →
      fcns = fcn_ids.map (fun i => lookupId id_to_fcn (toInt32 i)) := by
  intro fcn_ids
  induction fcn_ids with
  | nil =>
    intro fcns h
    simp only [targets, Except.ok.injEq] at h
    exact h.symm
  | cons i rest ih =>
    intro fcns h
    rw [targets] at h
    cases hc : cassert ndebug (decide (lookupId id_to_fcn (toInt32 i) ≠ 0)) with
    | error e =>
      rw [hc] at h
      cases h
    | ok u =>
      rw [hc] at h
      simp only at h
      cases ht : targets ndebug id_to_fcn rest with
      | error e =>
        rw [ht] at h
        cases h
      | ok fs =>
        rw [ht] at h
        simp only [Except.ok.injEq] at h
        rw [← h, ih fs ht]
        rfl

/-- The set that a completed round of `DynPtstoLoader` leaves for its key:
what the table had for the key, and the values read from the line other than
`NullValue`; the other keys keep their sets. -/
theorem DynPtstoLoader.record_result (NullValue : Int) (ndebug : Bool)
    (tbl tbl2 : List (Int × List Int)) (key : Numeral) (line : List Char)
    (hkey : key.wf = true)
    (h : record NullValue ndebug tbl key.text line = .ok tbl2) :
    (∃ s, IntMap.find tbl2 key.val = some s ∧
      ∀ y, y ∈ s ↔ y ∈ (IntMap.find tbl key.val).getD [] ∨
        (y ∈ extractInts line ∧ y ≠ NullValue)) ∧
    (∀ k, k ≠ key.val → IntMap.find tbl2 k = IntMap.find tbl k) := by
  rw [record_key NullValue ndebug tbl key line hkey] at h
  cases hi : insertObjs NullValue ndebug ((IntMap.find tbl key.val).getD [])
      (extractInts line) with
  | error e =>
    rw [hi] at h
    cases h
  | ok s =>
    rw [hi] at h
    simp only [Except.map, Except.ok.injEq] at h
    subst h
    exact ⟨⟨s, IntMap.find_store_self tbl key.val s,
      insertObjs_mem NullValue ndebug _ _ s hi⟩,
      fun k hk => IntMap.find_store_other tbl key.val k s hk⟩

theorem DynPtstoLoader.record_completes (NullValue : Int)
    (tbl : List (Int × List Int)) (key : Numeral) (line : List Char)
    (hkey : key.wf = true) :
    ∃ tbl2, record NullValue true tbl key.text line = .ok tbl2 := by
  rw [record_key NullValue true tbl key line hkey]
  obtain ⟨s, hs⟩ := insertObjs_ndebug NullValue (extractInts line)
    ((IntMap.find tbl key.val).getD [])
  exact ⟨IntMap.store tbl key.val s, by rw [hs]; rfl⟩

/-- The vector that a completed round of `IndirFunctionInfo` leaves for its call
site: what the table had for it, followed by the functions that the indices
read from the line name, in the order read. -/
theorem IndirFunctionInfo.indir_record_result (ndebug : Bool) (ids : Ids)
    (tbl tbl2 : List (Nat × List Nat)) (key : Numeral) (line : List Char)
    (hkey : key.wf = true)
    (h : record ndebug ids tbl key.text line = .ok tbl2) :
    StdMap.find tbl2 (lookupId ids.id_to_call key.val) =
        some (lookupId ids.id_to_call key.val,
          ((StdMap.find tbl (lookupId ids.id_to_call key.val)).map Prod.snd).getD [] ++
            (extractUInts line).map (fun i => lookupId ids.id_to_fcn (toInt32 i))) ∧
    (∀ p, p ≠ lookupId ids.id_to_call key.val → StdMap.find tbl2 p = StdMap.find tbl p) := by
  rw [indir_record_key ndebug ids tbl key line hkey] at h
  cases ht : targets ndebug ids.id_to_fcn (extractUInts line) with
  | error e =>
    rw [ht] at h
    cases h
  | ok fcns =>
    rw [ht] at h
    simp only [Except.map, Except.ok.injEq] at h
    subst h
    rw [targets_ok ndebug ids.id_to_fcn _ fcns ht]
    exact ⟨StdMap.vec_modify_emplace_self tbl _ _,
      fun p hp => StdMap.vec_modify_emplace_ne tbl _ p _ hp⟩

theorem IndirFunctionInfo.indir_record_completes (ids : Ids)
    (tbl : List (Nat × List Nat)) (key : Numeral) (line : List Char)
    (hkey : key.wf = true) :
    ∃ tbl2, record true ids tbl key.text line = .ok tbl2 := by
  rw [indir_record_key true ids tbl key line hkey, targets_ndebug]
  exact ⟨_, rfl⟩

/-- C22 (amended): in a record whose key is a well-formed id and whose line
is the well-formed ids `t1 ... t(j-1)` followed by a token `tj` and further
tokens, a round of `DynPtstoLoader` that completes (as every round does with
the assertions compiled out) leaves for the key the set that holds what the
table had for the key and, `NullValue` apart, the ids `t1 ... t(j-1)`; when no
integer can be read at the start of `tj` it holds nothing else, and when an
integer `v` is read there, with `x` the rest of `tj`, it holds `v` as well and
what is read on in `x` and the tokens after it.  The sets of the other keys
stay.  A round of `IndirFunctionInfo` appends to the vector of its call site
the functions of the indices `t1 ... t(j-1)`, and then nothing more, or the
function of `v` and of what is read on, in the same two cases.  In each case
the loop goes on with the text after the line. -/
theorem loaders_permissive_line (NullValue : Int) (ndebug : Bool) (ids : IndirFunctionInfo.Ids)
    (tbl : List (Int × List Int)) (tbl2 : List (Nat × List Nat))
    (key : Numeral) (gs : List Numeral) (tj : List Char) (later : List (List Char))
    (more : List Char)
    (hkey : key.wf = true) (hgs : ∀ g ∈ gs, g.wf = true) (htj : isToken tj = true)
    (hlater : ∀ t ∈ later, isToken t = true) :
    (extractInt32 tj = none →
      ∀ out, DynPtstoLoader.record NullValue ndebug tbl key.text
          (spaced (gs.map Numeral.text ++ tj :: later)) = .ok out →
        (∃ s, IntMap.find out key.val = some s ∧
          ∀ y, y ∈ s ↔ y ∈ (IntMap.find tbl key.val).getD [] ∨
            (y ∈ gs.map Numeral.val ∧ y ≠ NullValue)) ∧
        (∀ k, k ≠ key.val → IntMap.find out k = IntMap.find tbl k)) ∧
    (∀ v x, extractInt32 tj = some (v, x) →
      ∀ out, DynPtstoLoader.record NullValue ndebug tbl key.text
          (spaced (gs.map Numeral.text ++ tj :: later)) = .ok out →
        (∃ s, IntMap.find out key.val = some s ∧
          ∀ y, y ∈ s ↔ y ∈ (IntMap.find tbl key.val).getD [] ∨
            ((y ∈ gs.map Numeral.val ∨ y = v ∨ y ∈ extractInts (x ++ spacedTail later)) ∧
              y ≠ NullValue)) ∧
        (∀ k, k ≠ key.val → IntMap.find out k = IntMap.find tbl k)) ∧
    (∃ out, DynPtstoLoader.record NullValue true tbl key.text
      (spaced (gs.map Numeral.text ++ tj :: later)) = .ok out) ∧
    parseLog (DynPtstoLoader.record NullValue ndebug)
        (key.text ++ ':' :: (spaced (gs.map Numeral.text ++ tj :: later) ++ '\n' :: more)) tbl =
      (DynPtstoLoader.record NullValue ndebug tbl key.text
        (spaced (gs.map Numeral.text ++ tj :: later))).bind
          (fun t => parseLog (DynPtstoLoader.record NullValue ndebug) more t) ∧
    ((∀ g ∈ gs, g.wfIndex = true) → extractUInt32 tj = none →
      ∀ out, IndirFunctionInfo.record ndebug ids tbl2 key.text
          (spaced (gs.map Numeral.text ++ tj :: later)) = .ok out →
        StdMap.find out (IndirFunctionInfo.lookupId ids.id_to_call key.val) =
          some (IndirFunctionInfo.lookupId ids.id_to_call key.val,
            ((StdMap.find tbl2 (IndirFunctionInfo.lookupId ids.id_to_call key.val)).map
                Prod.snd).getD [] ++
              gs.map (fun g => ids.id_to_fcn.getD (decVal g.digits) 0))) ∧
    ((∀ g ∈ gs, g.wfIndex = true) → ∀ v x, extractUInt32 tj = some (v, x) →
      ∀ out, IndirFunctionInfo.record ndebug ids tbl2 key.text
          (spaced (gs.map Numeral.text ++ tj :: later)) = .ok out →
        StdMap.find out (IndirFunctionInfo.lookupId ids.id_to_call key.val) =
          some (IndirFunctionInfo.lookupId ids.id_to_call key.val,
            ((StdMap.find tbl2 (IndirFunctionInfo.lookupId ids.id_to_call key.val)).map
                Prod.snd).getD [] ++
              (gs.map (fun g => ids.id_to_fcn.getD (decVal g.digits) 0) ++
                (v :: extractUInts (x ++ spacedTail later)).map
                  (fun i => IndirFunctionInfo.lookupId ids.id_to_fcn
                    (IndirFunctionInfo.toInt32 i))))) ∧
    (∃ out, IndirFunctionInfo.record true ids tbl2 key.text
      (spaced (gs.map Numeral.text ++ tj :: later)) = .ok out) ∧
    parseLog (IndirFunctionInfo.record ndebug ids)
        (key.text ++ ':' :: (spaced (gs.map Numeral.text ++ tj :: later) ++ '\n' :: more)) tbl2 =
      (IndirFunctionInfo.record ndebug ids tbl2 key.text
        (spaced (gs.map Numeral.text ++ tj :: later))).bind
          (fun t => parseLog (IndirFunctionInfo.record ndebug ids) more t) := by
  have hnl := newline_not_mem_spaced _ (isToken_texts gs hgs tj later htj hlater)
  have hcol := Numeral.colon_not_mem key hkey
  have hidx : (∀ g ∈ gs, g.wfIndex = true) →
      (gs.map (fun g => decVal g.digits)).map
        (fun i => IndirFunctionInfo.lookupId ids.id_to_fcn (IndirFunctionInfo.toInt32 i)) =
      gs.map (fun g => ids.id_to_fcn.getD (decVal g.digits) 0) := by
    intro hfs
    rw [List.map_map]
    apply List.map_congr_left
    intro f hf
    simp only [Function.comp]
    rw [IndirFunctionInfo.toInt32_small _ (Numeral.wfIndex_digits f (hfs f hf)).2.2.2,
      IndirFunctionInfo.lookupId_index]
  refine ⟨?_, ?_, DynPtstoLoader.record_completes NullValue tbl key _ hkey,
    parseLog_record _ _ _ _ _ hcol hnl, ?_, ?_,
    IndirFunctionInfo.indir_record_completes ids tbl2 key _ hkey,
    parseLog_record _ _ _ _ _ hcol hnl⟩
  · intro h out hout
    have hr := DynPtstoLoader.record_result NullValue ndebug tbl out key _ hkey hout
    rw [extractInts_line_stop gs hgs tj later htj h] at hr
    exact hr
  · intro v x h out hout
    have hr := DynPtstoLoader.record_result NullValue ndebug tbl out key _ hkey hout
    rw [extractInts_line_go gs hgs tj later htj v x h] at hr
    obtain ⟨⟨s, hs, hmem⟩, hother⟩ := hr
    refine ⟨⟨s, hs, ?_⟩, hother⟩
    intro y
    rw [hmem y]
    simp only [List.mem_append, List.mem_cons]
  · intro hfs h out hout
    have hr := (IndirFunctionInfo.indir_record_result ndebug ids tbl2 out key _ hkey hout).1
    rw [extractUInts_line_stop gs hfs tj later htj h, hidx hfs] at hr
    exact hr
  · intro hfs v x h out hout
    have hr := (IndirFunctionInfo.indir_record_result ndebug ids tbl2 out key _ hkey hout).1
    rw [extractUInts_line_go gs hfs tj later htj v x h, List.map_append, hidx hfs] at hr
    exact hr

/-- C22 (amended) at the line `7:1 2x 3` with the reserved id `0` and an empty
table: the round of `DynPtstoLoader` leaves for the key 7 a set that holds 1
and the 2 at the start of `2x`, and not the 3 after it. -/
theorem loaders_permissive_line_witness :
    (Numeral.mk false ['7']).wf = true ∧
    isToken ['2', 'x'] = true ∧
    DynPtstoLoader.record 0 true [] ['7'] ['1', ' ', '2', 'x', ' ', '3'] = .ok [(7, [1, 2])] ∧
    ∃ s, IntMap.find [((7 : Int), [(1 : Int), 2])] 7 = some s ∧ 1 ∈ s ∧ 2 ∈ s ∧ 3 ∉ s :=
  ⟨by decide, by decide, by decide,
    ((loaders_permissive_line 0 true (IndirFunctionInfo.Ids.mk [] []) [] []
      (Numeral.mk false ['7']) [Numeral.mk false ['1']] ['2', 'x'] [['3']] []
      (by decide) (by decide) (by decide) (by decide)).2.1 2 ['x'] (by decide)
        [(7, [1, 2])] (by decide)).1.imp
      (fun s hs => ⟨hs.1,
        (hs.2 1).mpr (Or.inr ⟨Or.inl (by decide), by decide⟩),
        (hs.2 2).mpr (Or.inr ⟨Or.inr (Or.inl rfl), by decide⟩),
        fun h3 => by
          have := (hs.2 3).mp h3
          revert this
          decide⟩)⟩

/-! ## Unification -/

end OhaLLVM
